import Mathlib

/-!
Process table and four-level feedback-queue scheduler (kernel/proc.c).

A shallow embedding of `proc.c`.  A pointer `struct proc*` into `ptable.proc` is the index
of the slot it points to (`some i`), the null pointer is `none`.  The arrays `lv0..lv3` are
lists of `NPROC` such pointers, `ptable.proc` is a list of `NPROC` records.  C `int`s that
only count upwards (`priority`, `ticks`, `wait_ticks`, the queue counts) are natural
numbers; `pid` and `killed` are integers.  Operations return `Except Fault`: an array
access outside `[0, NPROC)`, a dereference of a null pointer and a `panic` end the run.

`NPROC` (param.h) is a parameter of the boot state; locks, trap frames, contexts, open files
and the working directory belong to collaborators and are not part of the state.
-/

namespace Kernel

/-! ## Data model -/

/-- Modelled from the spec: the `enum procstate` of proc.h (not part of the sources), the six
states named by the spec and by the `states` table of `procdump`. -/
inductive procstate where
  | UNUSED | EMBRYO | SLEEPING | RUNNABLE | RUNNING | ZOMBIE
  deriving DecidableEq

/-- A sleep channel (`void *chan`): the address of a PCB (as `wait` and `exit` use it) or
any other kernel address. -/
inductive Chan where
  | pcb (slot : Nat)
  | addr (a : Nat)
  deriving DecidableEq

/-- Modelled from the spec: the four-entry counter arrays `ticks[4]` and `waitTicks[4]`
(`NLAYER`, not defined in the sources, is 4; `getpinfo` copies the entries 0 to 3). -/
structure Arr4 where
  a0 : Nat
  a1 : Nat
  a2 : Nat
  a3 : Nat
  deriving DecidableEq

/-- Array read `a[i]` for `i < 4`. -/
def Arr4.get (a : Arr4) (i : Fin 4) : Nat :=
  match i with
  | 0 => a.a0
  | 1 => a.a1
  | 2 => a.a2
  | 3 => a.a3

/-- Array write `a[i] = v` for `i < 4`. -/
def Arr4.set (a : Arr4) (i : Fin 4) (v : Nat) : Arr4 :=
  match i with
  | 0 => { a with a0 := v }
  | 1 => { a with a1 := v }
  | 2 => { a with a2 := v }
  | 3 => { a with a3 := v }

/-- The all-zero counter array. -/
def Arr4.zero : Arr4 := ⟨0, 0, 0, 0⟩

/-- Modelled from the spec: `struct proc` (proc.h is not part of the sources), with the
fields that proc.c reads and writes: state, pid, priority, ticks, wait_ticks, killed,
parent, chan, and the collaborator handles kstack and pgdir and the name. -/
structure proc where
  state : procstate
  pid : Int
  priority : Nat
  ticks : Arr4
  wait_ticks : Arr4
  killed : Int
  parent : Option Nat
  chan : Option Chan
  kstack : Option Nat
  pgdir : Option Nat
  name : List Char
  deriving DecidableEq

/-- A zero-initialised slot of the global `ptable`. -/
def proc.zero : proc :=
  { state := .UNUSED, pid := 0, priority := 0, ticks := Arr4.zero, wait_ticks := Arr4.zero,
    killed := 0, parent := none, chan := none, kstack := none, pgdir := none, name := [] }

/-- Ways a run ends abnormally. -/
inductive Fault where
  | out_of_bounds
  | null_deref
  | wild_pointer
  | panic_init_exiting
  | panic_userinit
  | panic_sleep
  | panic_sched_running
  | not_enabled
  deriving DecidableEq

instance {ε α : Type} [DecidableEq ε] [DecidableEq α] : DecidableEq (Except ε α)
  | .ok a, .ok b => if h : a = b then isTrue (by rw [h]) else isFalse (fun e => h (by cases e; rfl))
  | .error a, .error b =>
    if h : a = b then isTrue (by rw [h]) else isFalse (fun e => h (by cases e; rfl))
  | .ok _, .error _ => isFalse (fun e => by cases e)
  | .error _, .ok _ => isFalse (fun e => by cases e)

/-- The value of a result, or `d` when the operation ended abnormally. -/
def valueOr {α : Type} (r : Except Fault α) (d : α) : α :=
  match r with
  | .ok a => a
  | .error _ => d

/-- The globals of proc.c: the table, `initproc`, `nextpid`, the four level arrays with
their counts, and the per-CPU variable `proc`. -/
structure KState where
  ptable : List proc
  initproc : Option Nat
  nextpid : Int
  lv0 : List (Option Nat)
  lv1 : List (Option Nat)
  lv2 : List (Option Nat)
  lv3 : List (Option Nat)
  lv0_num : Nat
  lv1_num : Nat
  lv2_num : Nat
  lv3_num : Nat
  proc : Option Nat
  deriving DecidableEq

/-- `const int LV1_TIME = 32;` -/
def LV1_TIME : Nat := 32
/-- `const int LV2_TIME = 16;` -/
def LV2_TIME : Nat := 16
/-- `const int LV3_TIME = 8;` -/
def LV3_TIME : Nat := 8

/-- The zero-initialised globals for a table of `NPROC` slots, with `nextpid = 1`. -/
def boot (NPROC : Nat) : KState :=
  { ptable := List.replicate NPROC proc.zero, initproc := none, nextpid := 1,
    lv0 := List.replicate NPROC none, lv1 := List.replicate NPROC none,
    lv2 := List.replicate NPROC none, lv3 := List.replicate NPROC none,
    lv0_num := 0, lv1_num := 0, lv2_num := 0, lv3_num := 0, proc := none }

/-! ## Memory access -/

/-- Apply `f` to slot `p` of the table (`p->field = ...`). -/
def updProc : List proc → Nat → (proc → proc) → List proc
  | [], _, _ => []
  | x :: xs, 0, f => f x :: xs
  | x :: xs, n + 1, f => x :: updProc xs n f

/-- Read slot `p` of the table; the zero record outside the table. -/
def getProc (tbl : List proc) (p : Nat) : proc := (tbl[p]?).getD proc.zero

/-- Read of the array entry `pq[i]`. -/
def rd (pq : List (Option Nat)) (i : Nat) : Except Fault (Option Nat) :=
  match pq[i]? with
  | none => .error .out_of_bounds
  | some e => .ok e

/-- Write of the array entry `pq[i] = e`. -/
def wr (pq : List (Option Nat)) (i : Nat) (e : Option Nat) : Except Fault (List (Option Nat)) :=
  if i < pq.length then .ok (pq.set i e) else .error .out_of_bounds

/-- Read of `pq[i]` for a following `->`: the entry has to be a pointer into the table. -/
def deref (tbl : List proc) (pq : List (Option Nat)) (i : Nat) : Except Fault Nat :=
  match pq[i]? with
  | none => .error .out_of_bounds
  | some none => .error .null_deref
  | some (some p) => if p < tbl.length then .ok p else .error .wild_pointer

/-- The live part `pq[0 .. pq_num)` of a level array. -/
def live (pq : List (Option Nat)) (pq_num : Nat) : List (Option Nat) := pq.take pq_num

/-! ## dequeue -/

/-- The loop `for(i = index; i < pq_num; ++i) pq[i] = pq[i+1];` with `k` iterations left. -/
def dequeue_loop : Nat → Nat → List (Option Nat) → List (Option Nat)
  | 0, _, pq => pq
  | k + 1, i, pq => dequeue_loop k (i + 1) (pq.set i ((pq[i + 1]?).getD none))

/-- `dequeue(pq, pq_num, index)`: decrements its own copy of the count and shifts the entries
`index+1 .. pq_num-1` one place down.  The count is passed by value, so the only effect is
on the array. -/
def dequeue (pq : List (Option Nat)) (pq_num index : Nat) : List (Option Nat) :=
  dequeue_loop (pq_num - 1 - index) index pq

/-! ## Level queues by index -/

/-- The array `lvL`. -/
def KState.q (s : KState) (L : Fin 4) : List (Option Nat) :=
  match L with
  | 0 => s.lv0
  | 1 => s.lv1
  | 2 => s.lv2
  | 3 => s.lv3

/-- The count `lvL_num`. -/
def KState.num (s : KState) (L : Fin 4) : Nat :=
  match L with
  | 0 => s.lv0_num
  | 1 => s.lv1_num
  | 2 => s.lv2_num
  | 3 => s.lv3_num

/-- Assignment to the array `lvL`. -/
def KState.setQ (s : KState) (L : Fin 4) (pq : List (Option Nat)) : KState :=
  match L with
  | 0 => { s with lv0 := pq }
  | 1 => { s with lv1 := pq }
  | 2 => { s with lv2 := pq }
  | 3 => { s with lv3 := pq }

/-- Assignment to the count `lvL_num`. -/
def KState.setNum (s : KState) (L : Fin 4) (n : Nat) : KState :=
  match L with
  | 0 => { s with lv0_num := n }
  | 1 => { s with lv1_num := n }
  | 2 => { s with lv2_num := n }
  | 3 => { s with lv3_num := n }

/-- The statement pair `lvD[lvD_num] = e; lvD_num++;`. -/
def append (s : KState) (D : Fin 4) (e : Option Nat) : Except Fault KState :=
  match wr (s.q D) (s.num D) e with
  | .error f => .error f
  | .ok pq => .ok ((s.setQ D pq).setNum D (s.num D + 1))

/-! ## allocproc, userinit, fork -/

/-- The scan `for(p = ptable.proc; p < &ptable.proc[NPROC]; p++) if(p->state == UNUSED)`. -/
def find_unused : List proc → Option Nat
  | [] => none
  | x :: xs => if x.state = .UNUSED then some 0 else (find_unused xs).map (fun i => i + 1)

/-- The block `found:` of `allocproc` up to `release(&ptable.lock)` for the slot `p`. -/
def allocproc_found (s : KState) (p : Nat) : Except Fault KState :=
  append
    { s with
      ptable := updProc s.ptable p (fun x =>
        { x with state := .EMBRYO, pid := s.nextpid, priority := 3,
                 ticks := Arr4.zero, wait_ticks := Arr4.zero }),
      nextpid := s.nextpid + 1 }
    3 (some p)

/-- `allocproc()`; `kalloc` is what the call `kalloc()` returns (`none` for 0).  The result
is the new state and the returned pointer. -/
def allocproc (s : KState) (kalloc : Option Nat) : Except Fault (KState × Option Nat) :=
  match find_unused s.ptable with
  | none => .ok (s, none)
  | some p =>
    match allocproc_found s p with
    | .error f => .error f
    | .ok s1 =>
      match kalloc with
      | none =>
        .ok ({ s1 with ptable := updProc s1.ptable p (fun x =>
                { x with kstack := none, state := .UNUSED }) }, none)
      | some k =>
        .ok ({ s1 with ptable := updProc s1.ptable p (fun x =>
                { x with kstack := some k }) }, some p)

/-- `userinit()`; `setupkvm` is what the call `setupkvm()` returns. -/
def userinit (s : KState) (kalloc setupkvm : Option Nat) : Except Fault KState :=
  match allocproc s kalloc with
  | .error f => .error f
  | .ok (_, none) => .error .null_deref
  | .ok (s1, some p) =>
    match setupkvm with
    | none => .error .panic_userinit
    | some pg =>
      .ok { s1 with
            initproc := some p,
            ptable := updProc s1.ptable p (fun x =>
              { x with pgdir := some pg, name := ['i', 'n', 'i', 't', 'c', 'o', 'd', 'e'],
                       state := .RUNNABLE }) }

/-- `fork()`; `copyuvm` is what the call `copyuvm(proc->pgdir, proc->sz)` returns.  The
result is the new state and the returned `int`. -/
def fork (s : KState) (kalloc copyuvm : Option Nat) : Except Fault (KState × Int) :=
  match allocproc s kalloc with
  | .error f => .error f
  | .ok (s1, none) => .ok (s1, -1)
  | .ok (s1, some np) =>
    match s1.proc with
    | none => .error .null_deref
    | some self =>
      match copyuvm with
      | none =>
        .ok ({ s1 with ptable := updProc s1.ptable np (fun x =>
                { x with pgdir := none, kstack := none, state := .UNUSED }) }, -1)
      | some pg =>
        .ok ({ s1 with ptable := updProc s1.ptable np (fun x =>
                { x with pgdir := some pg, parent := some self, state := .RUNNABLE,
                         name := (getProc s1.ptable self).name }) },
             (getProc s1.ptable np).pid)

/-! ## wakeup1, sleep, kill, exit, wait -/

/-- The pointer `p` as a channel: `(void*)p`. -/
def chanOf (p : Option Nat) : Option Chan := p.map Chan.pcb

/-- `wakeup1(chan)`: every slot with `state == SLEEPING && chan == chan` becomes RUNNABLE. -/
def wakeup1 (tbl : List proc) (chan : Option Chan) : List proc :=
  tbl.map (fun p => if p.state = .SLEEPING ∧ p.chan = chan then { p with state := .RUNNABLE } else p)

/-- `wakeup(chan)`. -/
def wakeup (s : KState) (chan : Option Chan) : KState :=
  { s with ptable := wakeup1 s.ptable chan }

/-- `sleep(chan, lk)` up to its call of `sched()`. -/
def sleep (s : KState) (chan : Option Chan) : Except Fault KState :=
  match s.proc with
  | none => .error .panic_sleep
  | some self =>
    .ok { s with ptable := updProc s.ptable self (fun x =>
            { x with chan := chan, state := .SLEEPING }) }

/-- The statement `proc->chan = 0;` that `sleep` executes when the sleeper runs again. -/
def sleep_tidy (s : KState) : Except Fault KState :=
  match s.proc with
  | none => .error .null_deref
  | some self => .ok { s with ptable := updProc s.ptable self (fun x => { x with chan := none }) }

/-- The table scan of `kill(pid)`: the first slot with `p->pid == pid` gets `killed = 1` and
leaves SLEEPING; `none` when no slot has that pid. -/
def kill_scan (pid : Int) : List proc → Option (List proc)
  | [] => none
  | x :: xs =>
    if x.pid = pid then
      some ({ x with killed := 1,
                     state := if x.state = .SLEEPING then .RUNNABLE else x.state } :: xs)
    else (kill_scan pid xs).map (fun r => x :: r)

/-- `kill(pid)`: the new state and the returned `int`. -/
def kill (s : KState) (pid : Int) : KState × Int :=
  match kill_scan pid s.ptable with
  | none => (s, -1)
  | some tbl => ({ s with ptable := tbl }, 0)

/-- The loop of `exit` that passes abandoned children to init, at slot `i` with `k` slots
left. -/
def exit_loop (self : Nat) (initproc : Option Nat) : Nat → Nat → List proc → List proc
  | 0, _, tbl => tbl
  | k + 1, i, tbl =>
    if (getProc tbl i).parent = some self then
      let tbl1 := updProc tbl i (fun x => { x with parent := initproc })
      let tbl2 := if (getProc tbl1 i).state = .ZOMBIE then wakeup1 tbl1 (chanOf initproc) else tbl1
      exit_loop self initproc k (i + 1) tbl2
    else exit_loop self initproc k (i + 1) tbl

/-- `exit()` up to its call of `sched()`. -/
def exit (s : KState) : Except Fault KState :=
  if s.proc = s.initproc then .error .panic_init_exiting
  else
    match s.proc with
    | none => .error .null_deref
    | some self =>
      let tbl1 := wakeup1 s.ptable (chanOf (getProc s.ptable self).parent)
      let tbl2 := exit_loop self s.initproc tbl1.length 0 tbl1
      .ok { s with ptable := updProc tbl2 self (fun x => { x with state := .ZOMBIE }) }

/-- The outcome of one pass of the `for(;;)` loop of `wait`. -/
inductive WaitResult where
  | reaped (pid : Int)
  | nochild
  | blocked
  deriving DecidableEq

/-- The table scan of `wait` at slot `i` with `k` slots left: the table, the pid of the
reaped child if one was found, and `havekids`. -/
def wait_scan (self : Option Nat) : Nat → Nat → List proc → Bool → List proc × Option Int × Bool
  | 0, _, tbl, hk => (tbl, none, hk)
  | k + 1, i, tbl, hk =>
    if (getProc tbl i).parent ≠ self then wait_scan self k (i + 1) tbl hk
    else if (getProc tbl i).state = .ZOMBIE then
      (updProc tbl i (fun x =>
          { x with kstack := none, state := .UNUSED, pid := 0, parent := none, name := [],
                   killed := 0 }),
        some (getProc tbl i).pid, true)
    else wait_scan self k (i + 1) tbl true

/-- One pass of `wait()`: a zombie child is reaped and its pid returned, or -1 is returned,
or the caller goes to sleep on itself (and repeats the pass when it runs again). -/
def wait (s : KState) : Except Fault (KState × WaitResult) :=
  match wait_scan s.proc s.ptable.length 0 s.ptable false with
  | (tbl, some pid, _) => .ok ({ s with ptable := tbl }, .reaped pid)
  | (_, none, false) => .ok (s, .nochild)
  | (_, none, true) =>
    match s.proc with
    | none => .error .null_deref
    | some self =>
      if (getProc s.ptable self).killed ≠ 0 then .ok (s, .nochild)
      else
        match sleep s (chanOf (some self)) with
        | .error f => .error f
        | .ok s1 => .ok (s1, .blocked)

/-! ## check_promote -/

/-- The statement `(p->wait_ticks[L])++`. -/
def incr_wait (tbl : List proc) (p : Nat) (L : Fin 4) : List proc :=
  updProc tbl p (fun x => { x with wait_ticks := x.wait_ticks.set L (x.wait_ticks.get L + 1) })

/-- The first loop of `check_promote`, `for(i = 0; i < lv3_num; ++i) (lv3[i]->wait_ticks[3])++;`,
at index `i` with `k` iterations left. -/
def age_lv3 : Nat → Nat → KState → Except Fault KState
  | 0, _, s => .ok s
  | k + 1, i, s =>
    match deref s.ptable s.lv3 i with
    | .error f => .error f
    | .ok p => age_lv3 k (i + 1) { s with ptable := incr_wait s.ptable p 3 }

/-- The body of one of the loops "update lv2", "update lv1", "update lv0" of `check_promote`
at index `i`.  The three loops are the same text up to the four places given here: the level
`L` whose array is scanned and dequeued, the threshold `T`, the array `F` that the appended
entry is read from and the level `D` it is appended to:
`(lvL[i]->wait_ticks[L])++; if(lvL[i]->wait_ticks[L] >= T){ (lvL[i]->priority)++;
dequeue(lvL, lvL_num, i); lvD[lvD_num] = lvF[i]; lvD_num++; }`. -/
def promote_body (L F D : Fin 4) (T : Nat) (s : KState) (i : Nat) : Except Fault KState :=
  match deref s.ptable (s.q L) i with
  | .error f => .error f
  | .ok p =>
    let s1 := { s with ptable := incr_wait s.ptable p L }
    if T ≤ ((getProc s1.ptable p).wait_ticks.get L) then
      let s2 := { s1 with ptable := updProc s1.ptable p (fun x =>
                    { x with priority := x.priority + 1 }) }
      let s3 := s2.setQ L (dequeue (s2.q L) (s2.num L) i)
      match rd (s3.q F) i with
      | .error f => .error f
      | .ok e => append s3 D e
    else .ok s1

/-- One of the promotion loops of `check_promote` at index `i` with `k` iterations left. -/
def promote_loop (L F D : Fin 4) (T : Nat) : Nat → Nat → KState → Except Fault KState
  | 0, _, s => .ok s
  | k + 1, i, s =>
    match promote_body L F D T s i with
    | .error f => .error f
    | .ok s1 => promote_loop L F D T k (i + 1) s1

/-- `check_promote(proc)`.  The argument is not used by the body.  No loop writes its own
bound (`lv3_num` is written by the lv2 and lv0 loops, `lv2_num` by the lv1 loop), so each
loop runs for the count found when it starts.  The lv2 loop is
`promote_loop 2 2 3 (10 * LV2_TIME)`, the lv1 loop `promote_loop 1 1 2 (10 * LV1_TIME)`, and the
lv0 loop, whose append is `lv3[lv3_num] = lv2[i]; lv3_num++;`, is `promote_loop 0 2 3 500`. -/
def check_promote (s : KState) : Except Fault KState :=
  match age_lv3 s.lv3_num 0 s with
  | .error f => .error f
  | .ok s3 =>
    match promote_loop 2 2 3 (10 * LV2_TIME) s3.lv2_num 0 s3 with
    | .error f => .error f
    | .ok s2 =>
      match promote_loop 1 1 2 (10 * LV1_TIME) s2.lv1_num 0 s2 with
      | .error f => .error f
      | .ok s1 => promote_loop 0 2 3 500 s1.lv0_num 0 s1

/-! ## scheduler -/

/-- The quantum compared with `ticks[L]` in the loop of level `L`: `LV3_TIME` in the lv3
loop, `LV2_TIME` in the lv2 loop, `LV1_TIME` in the lv1 loop; the lv0 loop has no test. -/
def quantum (L : Fin 4) : Option Nat :=
  match L with
  | 0 => none
  | 1 => some LV1_TIME
  | 2 => some LV2_TIME
  | 3 => some LV3_TIME

/-- The level below `L` (the array a demoted entry is appended to). -/
def below (L : Fin 4) : Fin 4 :=
  match L with
  | 0 => 0
  | 1 => 0
  | 2 => 1
  | 3 => 2

/-- The head of a level loop, `for( ; i < lvL_num; i++){ if(lvL[i]->state != RUNNABLE) continue;`,
at index `i` with `k` iterations left: `(true, i)` when `lvL[i]` is to be run, `(false, i)`
when the loop ends with the cursor at `i`. -/
def scan (tbl : List proc) (pq : List (Option Nat)) : Nat → Nat → Except Fault (Bool × Nat)
  | 0, i => .ok (false, i)
  | k + 1, i =>
    match deref tbl pq i with
    | .error f => .error f
    | .ok p => if (getProc tbl p).state = .RUNNABLE then .ok (true, i) else scan tbl pq k (i + 1)

/-- The statements of a level loop before `swtch`: `proc = lvL[i]; lvL[i]->state = RUNNING;`. -/
def before_swtch (L : Fin 4) (s : KState) (i : Nat) : Except Fault KState :=
  match deref s.ptable (s.q L) i with
  | .error f => .error f
  | .ok p =>
    .ok { s with proc := some p,
                 ptable := updProc s.ptable p (fun x => { x with state := .RUNNING }) }

/-- The statements of the loop of level `L` after `swtch` returns, for the cursor `i`:
`lvL[i]->wait_ticks[L] = 0; check_promote(lvL[i]); (lvL[i]->wait_ticks[L])++;
(lvL[i]->ticks[L])++;`, then for `L` in 3, 2, 1
`if(lvL[i]->ticks[L] >= LVL_TIME){ lvL[i]->priority = L-1; dequeue(lvL, lvL_num, i);
lvK[lvK_num] = lvL[i]; lvK_num++; }` with `K = L-1`, and `proc = 0;`.  Every `lvL[i]` is a
fresh read of the array. -/
def after_swtch (L : Fin 4) (s : KState) (i : Nat) : Except Fault KState :=
  match deref s.ptable (s.q L) i with
  | .error f => .error f
  | .ok p0 =>
    let s0 := { s with ptable := updProc s.ptable p0 (fun x =>
                  { x with wait_ticks := x.wait_ticks.set L 0 }) }
    match check_promote s0 with
    | .error f => .error f
    | .ok s1 =>
      match deref s1.ptable (s1.q L) i with
      | .error f => .error f
      | .ok p =>
        let s2 := { s1 with ptable := incr_wait s1.ptable p L }
        let s3 := { s2 with ptable := updProc s2.ptable p (fun x =>
                      { x with ticks := x.ticks.set L (x.ticks.get L + 1) }) }
        match quantum L with
        | none => .ok { s3 with proc := none }
        | some qt =>
          if qt ≤ (getProc s3.ptable p).ticks.get L then
            let s4 := { s3 with ptable := updProc s3.ptable p (fun x =>
                          { x with priority := (below L).val }) }
            let s5 := s4.setQ L (dequeue (s4.q L) (s4.num L) i)
            match rd (s5.q L) i with
            | .error f => .error f
            | .ok e =>
              match append s5 (below L) e with
              | .error f => .error f
              | .ok s6 => .ok { s6 with proc := none }
          else .ok { s3 with proc := none }

/-- The scheduler of one CPU together with the globals: the cursors `lv3i`, `lv2i`, `lv1i` of
the current round, and, while a process runs, the level loop and the index at which the
scheduler waits in `swtch`. -/
structure Sys where
  k : KState
  lv3i : Nat
  lv2i : Nat
  lv1i : Nat
  running : Option (Fin 4 × Nat)
  deriving DecidableEq

/-- The machine before `scheduler()` starts its first round. -/
def Sys.boot (NPROC : Nat) : Sys :=
  { k := Kernel.boot NPROC, lv3i := 0, lv2i := 0, lv1i := 0, running := none }

/-- The search from the label `SEARCH` with the current cursors: the four level loops in the
order lv3, lv2, lv1, lv0 (`lv0i` starts at 0) up to the first RUNNABLE entry.  The result is
the level and the index of the entry to run together with the cursors, or `none` when the
sweep finds nothing to run. -/
def search (s : Sys) : Except Fault (Option (Fin 4 × Nat) × Nat × Nat × Nat) :=
  match scan s.k.ptable s.k.lv3 (s.k.lv3_num - s.lv3i) s.lv3i with
  | .error f => .error f
  | .ok (true, i3) => .ok (some (3, i3), i3, s.lv2i, s.lv1i)
  | .ok (false, i3) =>
    match scan s.k.ptable s.k.lv2 (s.k.lv2_num - s.lv2i) s.lv2i with
    | .error f => .error f
    | .ok (true, i2) => .ok (some (2, i2), i3, i2, s.lv1i)
    | .ok (false, i2) =>
      match scan s.k.ptable s.k.lv1 (s.k.lv1_num - s.lv1i) s.lv1i with
      | .error f => .error f
      | .ok (true, i1) => .ok (some (1, i1), i3, i2, i1)
      | .ok (false, i1) =>
        match scan s.k.ptable s.k.lv0 s.k.lv0_num 0 with
        | .error f => .error f
        | .ok (true, i0) => .ok (some (0, i0), i3, i2, i1)
        | .ok (false, _) => .ok (none, i3, i2, i1)

/-- The scheduler runs from `SEARCH` to its next `swtch`: the entry found by `search` is made
RUNNING and becomes `proc`.  When the sweep finds nothing the lock is released and the next
round starts with all cursors at 0. -/
def dispatch (s : Sys) : Except Fault Sys :=
  match s.running with
  | some _ => .error .not_enabled
  | none =>
    match search s with
    | .error f => .error f
    | .ok (none, _, _, _) => .ok { s with lv3i := 0, lv2i := 0, lv1i := 0 }
    | .ok (some (L, i), i3, i2, i1) =>
      match before_swtch L s.k i with
      | .error f => .error f
      | .ok k1 => .ok { k := k1, lv3i := i3, lv2i := i2, lv1i := i1, running := some (L, i) }

/-- The cursors with which the scheduler goes on after the statements of the loop of level
`L`: `lv3i++` in the lv3 loop; `lv3i = 0; goto SEARCH;` in the lv2 loop (the `goto` leaves the
loop without its increment, so `lv2i` stays); `lv3i = 0; lv2i = 0; goto SEARCH;` in the lv1
loop; `lv3i = 0; lv2i = 0; lv1i = 0; goto SEARCH;` in the lv0 loop. -/
def next_cursors (L : Fin 4) (s : Sys) : Nat × Nat × Nat :=
  match L with
  | 3 => (s.lv3i + 1, s.lv2i, s.lv1i)
  | 2 => (0, s.lv2i, s.lv1i)
  | 1 => (0, 0, s.lv1i)
  | 0 => (0, 0, 0)

/-- `sched()`: the test `if(proc->state == RUNNING) panic("sched running");` and the switch
to the scheduler, which goes on after its `swtch` with `after_swtch` and then continues its
loops with the cursors `next_cursors`.  The other three tests of `sched` are about the lock,
`ncli` and the interrupt flag, which are not part of the state. -/
def sched (s : Sys) : Except Fault Sys :=
  match s.running, s.k.proc with
  | none, _ => .error .not_enabled
  | some _, none => .error .null_deref
  | some (L, i), some self =>
    if (getProc s.k.ptable self).state = .RUNNING then .error .panic_sched_running
    else
      match after_swtch L s.k i with
      | .error f => .error f
      | .ok k1 =>
        .ok { k := k1, lv3i := (next_cursors L s).1, lv2i := (next_cursors L s).2.1,
              lv1i := (next_cursors L s).2.2, running := none }

/-- `yield()`: `proc->state = RUNNABLE; sched();`. -/
def yield (s : Sys) : Except Fault Sys :=
  match s.k.proc with
  | none => .error .null_deref
  | some self =>
    sched { s with k := { s.k with ptable := updProc s.k.ptable self (fun x =>
              { x with state := .RUNNABLE }) } }

/-! ## The machine -/

/-- What can happen next: the boot-time `userinit`, a scheduler run up to its next `swtch`, and
the calls made by the running process or (for `wakeup` and `kill`) by an interrupt handler. -/
inductive Ev where
  | userinit (kalloc setupkvm : Option Nat)
  | dispatch
  | yield
  | sleep (chan : Option Chan)
  | sleep_tidy
  | exit
  | wait
  | fork (kalloc copyuvm : Option Nat)
  | kill (pid : Int)
  | wakeup (chan : Option Chan)
  deriving DecidableEq

/-- One step of the machine.  The calls of a process need a running process.  `userinit`,
`wakeup` and `kill` are accepted whenever no step is in progress, which is more than the code
allows (`userinit` runs once at boot, and within a round the scheduler holds the lock). -/
def step (s : Sys) (e : Ev) : Except Fault Sys :=
  match e with
  | .userinit ka pg =>
    match s.running with
    | some _ => .error .not_enabled
    | none =>
      match userinit s.k ka pg with
      | .error f => .error f
      | .ok k1 => .ok { s with k := k1 }
  | .dispatch => dispatch s
  | .yield => yield s
  | .sleep chan =>
    match s.running with
    | none => .error .not_enabled
    | some _ =>
      match sleep s.k chan with
      | .error f => .error f
      | .ok k1 => sched { s with k := k1 }
  | .sleep_tidy =>
    match s.running with
    | none => .error .not_enabled
    | some _ =>
      match sleep_tidy s.k with
      | .error f => .error f
      | .ok k1 => .ok { s with k := k1 }
  | .exit =>
    match s.running with
    | none => .error .not_enabled
    | some _ =>
      match exit s.k with
      | .error f => .error f
      | .ok k1 => sched { s with k := k1 }
  | .wait =>
    match s.running with
    | none => .error .not_enabled
    | some _ =>
      match wait s.k with
      | .error f => .error f
      | .ok (k1, .blocked) => sched { s with k := k1 }
      | .ok (k1, _) => .ok { s with k := k1 }
  | .fork ka cp =>
    match s.running with
    | none => .error .not_enabled
    | some _ =>
      match fork s.k ka cp with
      | .error f => .error f
      | .ok (k1, _) => .ok { s with k := k1 }
  | .kill pid => .ok { s with k := (kill s.k pid).1 }
  | .wakeup chan => .ok { s with k := wakeup s.k chan }

/-- Run a list of events from a state. -/
def run : Sys → List Ev → Except Fault Sys
  | s, [] => .ok s
  | s, e :: es =>
    match step s e with
    | .error f => .error f
    | .ok s1 => run s1 es

/-- The state after a run from the empty table of `NPROC` slots (the empty table itself when
the run ends abnormally). -/
def after (NPROC : Nat) (es : List Ev) : Sys :=
  valueOr (run (Sys.boot NPROC) es) (Sys.boot NPROC)

/-- The states the machine reaches from the empty table of `NPROC` slots. -/
def Reachable (NPROC : Nat) (s : Sys) : Prop := ∃ es, run (Sys.boot NPROC) es = .ok s

/-- The processes the scheduler switches to along a run, in order, each with the level loop
that runs it. -/
def dispatched : Sys → List Ev → List (Fin 4 × Nat)
  | _, [] => []
  | s, e :: es =>
    match step s e with
    | .error _ => []
    | .ok s1 =>
      match e, s1.running, s1.k.proc with
      | .dispatch, some (L, _), some p => (L, p) :: dispatched s1 es
      | _, _, _ => dispatched s1 es

/-! ## Properties of states -/

/-- Every PCB that is not UNUSED is an entry of the live part of exactly one level array, the
one of its priority. -/
def LevelInvariant (s : KState) : Prop :=
  ∀ p, p < s.ptable.length → (getProc s.ptable p).state ≠ .UNUSED →
    ∃ L : Fin 4, some p ∈ live (s.q L) (s.num L) ∧ L.val = (getProc s.ptable p).priority ∧
      ∀ M : Fin 4, some p ∈ live (s.q M) (s.num M) → M = L

/-- No pointer occurs twice among the live entries of the four level arrays together. -/
def QueuesNodup (s : KState) : Prop :=
  (live s.lv0 s.lv0_num ++ live s.lv1 s.lv1_num ++ live s.lv2 s.lv2_num
    ++ live s.lv3 s.lv3_num).Nodup

instance (s : KState) : Decidable (QueuesNodup s) :=
  inferInstanceAs (Decidable (List.Nodup _))

instance (s : KState) : Decidable (LevelInvariant s) :=
  Nat.decidableBallLT _ _

/-- No live entry of a level array points to a ZOMBIE or UNUSED slot. -/
def NoDeadEntries (s : KState) : Prop :=
  ∀ (L : Fin 4) (p : Nat), some p ∈ live (s.q L) (s.num L) →
    (getProc s.ptable p).state ≠ .ZOMBIE ∧ (getProc s.ptable p).state ≠ .UNUSED

/-- The entry is a pointer into a table of `n` slots. -/
def validEntry (n : Nat) : Option Nat → Prop
  | some x => x < n
  | none => False

instance (n : Nat) (e : Option Nat) : Decidable (validEntry n e) :=
  match e with
  | some x => inferInstanceAs (Decidable (x < n))
  | none => inferInstanceAs (Decidable False)

/-- The level arrays have as many entries as the table has slots (`NPROC`), the counts stay
inside the arrays and every live entry points into the table. -/
def WellFormed (s : KState) : Prop :=
  ∀ L : Fin 4, (s.q L).length = s.ptable.length ∧ s.num L ≤ (s.q L).length ∧
    ∀ e ∈ live (s.q L) (s.num L), validEntry s.ptable.length e

instance (s : KState) : Decidable (WellFormed s) := by
  unfold WellFormed
  infer_instance

/-- The threshold that the loop of level `L` in `check_promote` compares `wait_ticks[L]`
with: 500 in the lv0 loop, `10 * LV1_TIME` in the lv1 loop, `10 * LV2_TIME` in the lv2 loop. -/
def threshold (L : Fin 4) : Nat :=
  match L with
  | 0 => 500
  | 1 => 10 * LV1_TIME
  | 2 => 10 * LV2_TIME
  | 3 => 0

/-- No PCB can reach a promotion threshold in the next aging pass: for each of the levels
0, 1, 2 its wait ticks at that level are more than `lvL_num` below the threshold. -/
def Quiet (s : KState) : Prop :=
  ∀ x, x < s.ptable.length → ∀ M : Fin 4, M ≠ 3 →
    (getProc s.ptable x).wait_ticks.get M + s.num M < threshold M

instance (s : KState) : Decidable (Quiet s) := by
  unfold Quiet
  infer_instance

/-- The record `a` is `b` up to the entry `wait_ticks[L]`. -/
def agedOnly (L : Fin 4) (a b : proc) : Prop :=
  a = { b with wait_ticks := b.wait_ticks.set L (a.wait_ticks.get L) }

/-- The record `a` is `b` up to `wait_ticks`. -/
def sameButWait (a b : proc) : Prop := a = { b with wait_ticks := a.wait_ticks }

/-! ## States and runs used below -/

/-- A table of 64 slots whose two processes are both at level 1 and the live entries of
`lv1`: slot 0 is RUNNABLE, slot 1 sleeps and has waited `w` ticks at level 1.  Every PCB in
use is in exactly the array of its priority. -/
def two_at_level1 (w : Nat) : KState :=
  { boot 64 with
    ptable :=
      { proc.zero with state := .RUNNABLE, pid := 1, priority := 1, ticks := ⟨0, 0, 16, 8⟩ } ::
      { proc.zero with state := .SLEEPING, pid := 2, priority := 1, ticks := ⟨0, 0, 16, 8⟩,
                       wait_ticks := ⟨0, w, 0, 0⟩, chan := some (.addr 0), parent := some 0 } ::
      List.replicate 62 proc.zero,
    initproc := some 0, nextpid := 3,
    lv1 := some 0 :: some 1 :: List.replicate 62 none, lv1_num := 2 }

/-- The machine in the state `two_at_level1 w` at the start of a round. -/
def at_level1 (w : Nat) : Sys :=
  { k := two_at_level1 w, lv3i := 0, lv2i := 0, lv1i := 0, running := none }

/-- A table of 64 slots with two sleeping processes in `lv2` (slots 0 and 1, the first with
159 wait ticks at level 2) and one in `lv0` (slot 2, with 499 wait ticks at level 0).  Every
PCB in use is in exactly the array of its priority. -/
def before_promotions : KState :=
  { boot 64 with
    ptable :=
      { proc.zero with state := .SLEEPING, pid := 1, priority := 2, ticks := ⟨0, 0, 0, 8⟩,
                       wait_ticks := ⟨0, 0, 159, 0⟩, chan := some (.addr 0) } ::
      { proc.zero with state := .SLEEPING, pid := 2, priority := 2, ticks := ⟨0, 0, 0, 8⟩,
                       wait_ticks := ⟨0, 0, 7, 0⟩, chan := some (.addr 0), parent := some 0 } ::
      { proc.zero with state := .SLEEPING, pid := 3, priority := 0, ticks := ⟨0, 32, 16, 8⟩,
                       wait_ticks := ⟨499, 0, 0, 0⟩, chan := some (.addr 0), parent := some 0 } ::
      List.replicate 61 proc.zero,
    initproc := some 0, nextpid := 4,
    lv2 := some 0 :: some 1 :: List.replicate 62 none, lv2_num := 2,
    lv0 := some 2 :: List.replicate 63 none, lv0_num := 1 }

/-- The first process is set up, and runs and yields `n` times; between two runs the sweep
that finds nothing more to run ends the round. -/
def spin : Nat → List Ev
  | 0 => [.userinit (some 1) (some 1)]
  | n + 1 => spin n ++ [.dispatch, .yield, .dispatch]

/-- The scheduler runs a process that yields, `n` times over. -/
def yields : Nat → List Ev
  | 0 => []
  | n + 1 => yields n ++ [.dispatch, .yield]

/-- The first process is set up and runs, and `n` of its calls of `fork` fail because `kalloc`
returns 0. -/
def failed_forks : Nat → List Ev
  | 0 => [.userinit (some 1) (some 1), .dispatch]
  | n + 1 => failed_forks n ++ [.fork none none]

/-- The first process forks a child and yields; the child runs and exits; the sweep ends the
round and the first process runs again. -/
def one_child_exited : List Ev :=
  [.userinit (some 1) (some 1), .dispatch, .fork (some 2) (some 2), .yield, .dispatch, .exit,
   .dispatch, .dispatch]

/-- The first process forks two children and yields; the first child runs and exits, the second
runs and yields; the sweep ends the round and the first process runs again. -/
def two_children_one_exited : List Ev :=
  [.userinit (some 1) (some 1), .dispatch, .fork (some 2) (some 2), .fork (some 3) (some 3),
   .yield, .dispatch, .exit, .dispatch, .yield, .dispatch, .dispatch]

/-- The first process forks two children and yields; the first child yields, the second exits;
then the first process yields again and the first child runs. -/
def second_child_exited : List Ev :=
  [.userinit (some 1) (some 1), .dispatch, .fork (some 2) (some 2), .fork (some 3) (some 3),
   .yield, .dispatch, .yield, .dispatch, .exit, .dispatch, .dispatch, .yield, .dispatch]

/-- The first process is set up and forks two children during its first run. -/
def three_procs : List Ev :=
  [.userinit (some 1) (some 1), .dispatch, .fork (some 2) (some 2), .fork (some 3) (some 3),
   .yield, .dispatch, .yield, .dispatch, .yield, .dispatch]

/-- One round of three processes that run and yield, and the sweep that ends the round. -/
def round3 : List Ev :=
  [.dispatch, .yield, .dispatch, .yield, .dispatch, .yield, .dispatch]

/-- The run `three_procs` followed by `n` more rounds. -/
def rounds3 : Nat → List Ev
  | 0 => three_procs
  | n + 1 => rounds3 n ++ round3

/-- The first process forks a child and yields; while the child runs the first process is
killed (`kill(1)`); the child exits, the sweep ends the round and the first process runs
again. -/
def killed_parent : List Ev :=
  [.userinit (some 1) (some 1), .dispatch, .fork (some 2) (some 2), .yield, .dispatch, .kill 1,
   .exit, .dispatch, .dispatch]

/-- The first process forks a child and is killed (`kill(1)`) while it runs. -/
def killed_with_live_child : List Ev :=
  [.userinit (some 1) (some 1), .dispatch, .fork (some 2) (some 2), .kill 1]

/-- No slot of the table `t1` is RUNNING that was not RUNNING in `t`. -/
def NoNewRunning (t t1 : List proc) : Prop :=
  ∀ y, (getProc t1 y).state = .RUNNING → (getProc t y).state = .RUNNING

/-- The per-CPU variable `proc` and the RUNNING slots agree: while the scheduler searches
(no process is switched to) `proc` is null and no slot is RUNNING; while a process runs, `proc`
points to it and no other slot is RUNNING. -/
def CpuInv (s : Sys) : Prop :=
  (s.running = none → s.k.proc = none ∧ ∀ y, (getProc s.k.ptable y).state ≠ .RUNNING) ∧
  (s.running ≠ none →
    ∃ p, s.k.proc = some p ∧ ∀ y, (getProc s.k.ptable y).state = .RUNNING → y = p)

/-- The first process forks a child and goes to sleep; the child runs and yields, and the sweep
that finds nothing more to run ends the round. -/
def parent_asleep : List Ev :=
  [.userinit (some 1) (some 1), .dispatch, .fork (some 2) (some 2), .sleep (some (.addr 7)),
   .dispatch, .yield, .dispatch]

/-- The one RUNNABLE process runs and yields `n` times; after each run the sweep that finds
nothing more to run ends the round. -/
def solo : Nat → List Ev
  | 0 => []
  | n + 1 => solo n ++ [.dispatch, .yield, .dispatch]

/-- The process sleeping on the address `c` is woken by an interrupt, runs, goes to sleep on
`c` again, and the sweep that finds nothing to run ends the round; `n` times over. -/
def turns (c : Nat) : Nat → List Ev
  | 0 => []
  | n + 1 =>
    turns c n ++ [.wakeup (some (.addr c)), .dispatch, .sleep (some (.addr c)), .dispatch]

/-- Four processes (slots 0 to 3).  The first forks the other three, which go to sleep at
their first run, and runs alone until it is demoted; then slot 1 is woken and runs until it
is demoted from level 3 and goes to sleep, then slot 2 likewise; at the end slots 1 and 2 are
woken, slot 3 still sleeps, and a new round starts. -/
def two_runnable_in_lv2 : List Ev :=
  [.userinit (some 1) (some 1), .dispatch, .fork (some 2) (some 2), .fork (some 3) (some 3),
   .fork (some 4) (some 4), .yield, .dispatch, .sleep (some (.addr 1)), .dispatch,
   .sleep (some (.addr 2)), .dispatch, .sleep (some (.addr 3)), .dispatch]
  ++ solo 7
  ++ [.wakeup (some (.addr 1))] ++ yields 12 ++ [.dispatch, .sleep (some (.addr 1)), .dispatch]
  ++ [.wakeup (some (.addr 2))] ++ yields 12 ++ [.dispatch, .sleep (some (.addr 2)), .dispatch]
  ++ [.wakeup (some (.addr 1)), .wakeup (some (.addr 2))]

/-- Three processes (slots 0 to 2) that sleep between their runs.  Slot 2 is demoted from
level 3 first and is appended to `lv2` again at each of its later runs; slot 0 is demoted in
between, which puts slot 1 into `lv2`.  At the end slot 2 sleeps with 159 wait ticks at level
2, and slot 1 is woken, runs from `lv3[0]`, yields and is switched to again from `lv2[1]`. -/
def promotion_under_runner : List Ev :=
  [.userinit (some 1) (some 1), .dispatch, .fork (some 2) (some 2), .fork (some 3) (some 3),
   .sleep (some (.addr 10)), .dispatch, .sleep (some (.addr 11)), .dispatch,
   .sleep (some (.addr 12)), .dispatch]
  ++ turns 10 6 ++ turns 12 7 ++ turns 10 1 ++ turns 12 4 ++ turns 11 1 ++ turns 12 12
  ++ [.wakeup (some (.addr 11)), .dispatch, .yield, .dispatch]

/-- A table of 64 slots with four processes.  Slots 0, 1, 2 are at level 2 and are the live
entries of `lv2` in that order; slots 0 and 2 sleep, slot 1 has the state `st1`, and slot 0 has
159 wait ticks at level 2.  Slot 3, with the state `st3`, is at level 3 and the live entry of
`lv3`.  Every PCB in use is in exactly the array of its priority. -/
def three_in_lv2 (st1 st3 : procstate) : KState :=
  { boot 64 with
    ptable :=
      { proc.zero with state := .SLEEPING, pid := 1, priority := 2, ticks := ⟨0, 0, 0, 8⟩,
                       wait_ticks := ⟨0, 0, 159, 0⟩, chan := some (.addr 0) } ::
      { proc.zero with state := st1, pid := 2, priority := 2, ticks := ⟨0, 0, 0, 8⟩,
                       wait_ticks := ⟨0, 0, 7, 0⟩, chan := some (.addr 1), parent := some 0 } ::
      { proc.zero with state := .SLEEPING, pid := 3, priority := 2, ticks := ⟨0, 0, 0, 8⟩,
                       wait_ticks := ⟨0, 0, 7, 0⟩, chan := some (.addr 2), parent := some 0 } ::
      { proc.zero with state := st3, pid := 4, priority := 3, ticks := ⟨0, 0, 0, 1⟩,
                       wait_ticks := ⟨0, 0, 0, 5⟩, chan := some (.addr 3), parent := some 0 } ::
      List.replicate 60 proc.zero,
    initproc := some 0, nextpid := 5,
    lv3 := some 3 :: List.replicate 63 none, lv3_num := 1,
    lv2 := some 0 :: some 1 :: some 2 :: List.replicate 61 none, lv2_num := 3 }

/-- The machine in the state `three_in_lv2 st1 st3` at the start of a round. -/
def at_level2 (st1 st3 : procstate) : Sys :=
  { k := three_in_lv2 st1 st3, lv3i := 0, lv2i := 0, lv1i := 0, running := none }

/-- A table of 64 slots with two processes at the start of a round.  Slot 0 sleeps at level 2
and is the live entry of `lv2`; it has 159 wait ticks at level 2 and 2 wait ticks at level 3,
left from its last run at level 3.  Slot 1 is RUNNABLE at level 3 and the live entry of `lv3`.
Every PCB in use is in exactly the array of its priority. -/
def promotion_due : Sys :=
  { k :=
      { boot 64 with
        ptable :=
          { proc.zero with state := .SLEEPING, pid := 1, priority := 2, ticks := ⟨0, 0, 0, 8⟩,
                           wait_ticks := ⟨0, 0, 159, 2⟩, chan := some (.addr 0) } ::
          { proc.zero with state := .RUNNABLE, pid := 2, priority := 3, ticks := ⟨0, 0, 0, 1⟩,
                           wait_ticks := ⟨0, 0, 0, 3⟩, parent := some 0 } ::
          List.replicate 62 proc.zero,
        initproc := some 0, nextpid := 3,
        lv3 := some 1 :: List.replicate 63 none, lv3_num := 1,
        lv2 := some 0 :: List.replicate 63 none, lv2_num := 1 },
    lv3i := 0, lv2i := 0, lv1i := 0, running := none }

/-- A table of 64 slots with two processes at level 0 at the start of a round: `lv0` has the
live entries 1 and 0; slot 1 sleeps and has waited `w` ticks at level 0, slot 0 is RUNNABLE and
has run 1000 ticks at level 0.  Every PCB in use is in exactly the array of its priority. -/
def at_level0 (w : Nat) : Sys :=
  { k :=
      { boot 64 with
        ptable :=
          { proc.zero with state := .RUNNABLE, pid := 1, priority := 0,
                           ticks := ⟨1000, 32, 16, 8⟩, wait_ticks := ⟨2, 0, 0, 0⟩ } ::
          { proc.zero with state := .SLEEPING, pid := 2, priority := 0,
                           ticks := ⟨3, 32, 16, 8⟩, wait_ticks := ⟨w, 0, 0, 0⟩,
                           chan := some (.addr 0), parent := some 0 } ::
          List.replicate 62 proc.zero,
        initproc := some 0, nextpid := 3,
        lv0 := some 1 :: some 0 :: List.replicate 62 none, lv0_num := 2 },
    lv3i := 0, lv2i := 0, lv1i := 0, running := none }

/-! Theorems -/

/-! ## Table and array access -/

theorem length_updProc (tbl : List proc) (p : Nat) (f : proc → proc) :
    (updProc tbl p f).length = tbl.length := by
  induction tbl generalizing p with
  | nil => simp [updProc]
  | cons x xs ih => cases p <;> simp [updProc, ih]

theorem getProc_updProc (tbl : List proc) (p y : Nat) (f : proc → proc) :
    getProc (updProc tbl p f) y
      = if y = p ∧ p < tbl.length then f (getProc tbl p) else getProc tbl y := by
  induction tbl generalizing p y with
  | nil => simp [updProc, getProc]
  | cons x xs ih =>
    cases p with
    | zero => cases y <;> simp [updProc, getProc]
    | succ n =>
      cases y with
      | zero => simp [updProc, getProc]
      | succ m =>
        have := ih n m
        simp only [getProc] at this
        simp [updProc, getProc, this]

theorem getProc_updProc_self (tbl : List proc) (p : Nat) (f : proc → proc)
    (hp : p < tbl.length) : getProc (updProc tbl p f) p = f (getProc tbl p) := by
  simp [getProc_updProc, hp]

theorem getProc_updProc_ne (tbl : List proc) (p y : Nat) (f : proc → proc) (h : y ≠ p) :
    getProc (updProc tbl p f) y = getProc tbl y := by
  simp [getProc_updProc, h]

theorem Arr4.get_set (a : Arr4) (L M : Fin 4) (v : Nat) :
    (a.set L v).get M = if M = L then v else a.get M := by
  fin_cases L <;> fin_cases M <;> rfl

theorem Arr4.set_get (a : Arr4) (L : Fin 4) : a.set L (a.get L) = a := by
  fin_cases L <;> rfl

theorem Arr4.set_set (a : Arr4) (L : Fin 4) (v w : Nat) : (a.set L v).set L w = a.set L w := by
  fin_cases L <;> rfl

theorem q_ptable (s : KState) (t : List proc) (L : Fin 4) :
    KState.q { s with ptable := t } L = s.q L := by
  fin_cases L <;> rfl

theorem num_ptable (s : KState) (t : List proc) (L : Fin 4) :
    KState.num { s with ptable := t } L = s.num L := by
  fin_cases L <;> rfl

theorem q_setQ (s : KState) (L M : Fin 4) (pq : List (Option Nat)) :
    (s.setQ L pq).q M = if M = L then pq else s.q M := by
  fin_cases L <;> fin_cases M <;> rfl

theorem num_setQ (s : KState) (L M : Fin 4) (pq : List (Option Nat)) :
    (s.setQ L pq).num M = s.num M := by
  fin_cases L <;> fin_cases M <;> rfl

theorem q_setNum (s : KState) (L M : Fin 4) (n : Nat) : (s.setNum L n).q M = s.q M := by
  fin_cases L <;> fin_cases M <;> rfl

theorem num_setNum (s : KState) (L M : Fin 4) (n : Nat) :
    (s.setNum L n).num M = if M = L then n else s.num M := by
  fin_cases L <;> fin_cases M <;> rfl

theorem ptable_setQ (s : KState) (L : Fin 4) (pq : List (Option Nat)) :
    (s.setQ L pq).ptable = s.ptable := by
  fin_cases L <;> rfl

theorem ptable_setNum (s : KState) (L : Fin 4) (n : Nat) : (s.setNum L n).ptable = s.ptable := by
  fin_cases L <;> rfl

theorem deref_eq (tbl : List proc) (pq : List (Option Nat)) (i x : Nat)
    (h : pq[i]? = some (some x)) (hx : x < tbl.length) : deref tbl pq i = .ok x := by
  simp [deref, h, hx]

/-! ## Records that differ in their wait ticks only -/

theorem agedOnly_refl (L : Fin 4) (a : proc) : agedOnly L a a := by
  unfold agedOnly
  rw [Arr4.set_get]

theorem agedOnly_trans (L : Fin 4) (a b c : proc) (h1 : agedOnly L a b) (h2 : agedOnly L b c) :
    agedOnly L a c := by
  unfold agedOnly at *
  rw [h1, h2]
  simp [Arr4.set_set, Arr4.get_set]

theorem agedOnly_incr (L : Fin 4) (b : proc) (v : Nat) :
    agedOnly L { b with wait_ticks := b.wait_ticks.set L v } b := by
  unfold agedOnly
  simp [Arr4.get_set]

theorem agedOnly_sameButWait {L : Fin 4} {a b : proc} (h : agedOnly L a b) : sameButWait a b := by
  unfold agedOnly at h
  unfold sameButWait
  rw [h]

theorem sameButWait_trans (a b c : proc) (h1 : sameButWait a b) (h2 : sameButWait b c) :
    sameButWait a c := by
  unfold sameButWait at *
  rw [h1, h2]

theorem agedOnly_get_ne {L M : Fin 4} {a b : proc} (h : agedOnly L a b) (hM : M ≠ L) :
    a.wait_ticks.get M = b.wait_ticks.get M := by
  unfold agedOnly at h
  rw [h]
  simp [Arr4.get_set, hM]

/-! ## Aging loops in which nobody reaches a threshold -/

theorem age_lv3_ok : ∀ (k i : Nat) (s : KState),
    (∀ m, m < k → ∃ x, s.lv3[i + m]? = some (some x) ∧ x < s.ptable.length) →
    ∃ tbl, age_lv3 k i s = .ok { s with ptable := tbl } ∧ tbl.length = s.ptable.length ∧
      ∀ y, agedOnly 3 (getProc tbl y) (getProc s.ptable y) := by
  intro k
  induction k with
  | zero =>
    intro i s _
    exact ⟨s.ptable, rfl, rfl, fun y => agedOnly_refl 3 _⟩
  | succ k ih =>
    intro i s h
    obtain ⟨x, hx, hlen⟩ := h 0 (Nat.succ_pos k)
    have hd : deref s.ptable s.lv3 i = .ok x := deref_eq _ _ _ _ (by simpa using hx) hlen
    have hstep : ∀ m, m < k → ∃ x1, s.lv3[i + 1 + m]? = some (some x1) ∧
        x1 < (incr_wait s.ptable x 3).length := by
      intro m hm
      obtain ⟨x1, h1, h2⟩ := h (m + 1) (Nat.succ_lt_succ hm)
      refine ⟨x1, ?_, ?_⟩
      · rw [← h1]; congr 1; omega
      · simpa [incr_wait, length_updProc] using h2
    obtain ⟨tbl, h1, h2, h3⟩ := ih (i + 1) { s with ptable := incr_wait s.ptable x 3 } hstep
    refine ⟨tbl, ?_, ?_, ?_⟩
    · simp only [age_lv3, hd]
      exact h1
    · simpa [incr_wait, length_updProc] using h2
    · intro y
      refine agedOnly_trans 3 _ _ _ (h3 y) ?_
      simp only [incr_wait, getProc_updProc]
      split
      · rename_i hy
        rw [hy.1]
        exact agedOnly_incr 3 _ _
      · exact agedOnly_refl 3 _

theorem promote_loop_quiet (L F D : Fin 4) (T : Nat) : ∀ (k i : Nat) (s : KState),
    (∀ m, m < k → ∃ x, (s.q L)[i + m]? = some (some x) ∧ x < s.ptable.length ∧
      (getProc s.ptable x).wait_ticks.get L + k < T) →
    ∃ tbl, promote_loop L F D T k i s = .ok { s with ptable := tbl } ∧
      tbl.length = s.ptable.length ∧
      (∀ y, agedOnly L (getProc tbl y) (getProc s.ptable y)) ∧
      (∀ y, (∀ m, m < k → (s.q L)[i + m]? ≠ some (some y)) →
        getProc tbl y = getProc s.ptable y) ∧
      (∀ y, (getProc tbl y).wait_ticks.get L ≤ (getProc s.ptable y).wait_ticks.get L + k) := by
  intro k
  induction k with
  | zero =>
    intro i s _
    exact ⟨s.ptable, rfl, rfl, fun y => agedOnly_refl L _, fun y _ => rfl, fun y => by simp⟩
  | succ k ih =>
    intro i s h
    obtain ⟨x, hx, hlen, hwt⟩ := h 0 (Nat.succ_pos k)
    have hd : deref s.ptable (s.q L) i = .ok x := deref_eq _ _ _ _ (by simpa using hx) hlen
    have hget : ∀ y, getProc (incr_wait s.ptable x L) y
        = if y = x then { getProc s.ptable x with
            wait_ticks := (getProc s.ptable x).wait_ticks.set L
              ((getProc s.ptable x).wait_ticks.get L + 1) }
          else getProc s.ptable y := by
      intro y
      simp [incr_wait, getProc_updProc, hlen]
    have hbody : promote_body L F D T s i = .ok { s with ptable := incr_wait s.ptable x L } := by
      have : ¬ T ≤ (getProc (incr_wait s.ptable x L) x).wait_ticks.get L := by
        rw [hget x]
        simp [Arr4.get_set]
        omega
      simp only [promote_body, hd]
      simp [this]
    have hstep : ∀ m, m < k → ∃ x1,
        (KState.q { s with ptable := incr_wait s.ptable x L } L)[i + 1 + m]? = some (some x1) ∧
        x1 < (incr_wait s.ptable x L).length ∧
        (getProc (incr_wait s.ptable x L) x1).wait_ticks.get L + k < T := by
      intro m hm
      obtain ⟨x1, h1, h2, h3⟩ := h (m + 1) (Nat.succ_lt_succ hm)
      refine ⟨x1, ?_, ?_, ?_⟩
      · rw [q_ptable, ← h1]; congr 1; omega
      · simpa [incr_wait, length_updProc] using h2
      · rw [hget x1]
        split
        · rename_i hx1
          subst hx1
          simp [Arr4.get_set]
          omega
        · omega
    obtain ⟨tbl, h1, h2, h3, h4, h5⟩ :=
      ih (i + 1) { s with ptable := incr_wait s.ptable x L } hstep
    refine ⟨tbl, ?_, ?_, ?_, ?_, ?_⟩
    · simp only [promote_loop, hbody]
      exact h1
    · simpa [incr_wait, length_updProc] using h2
    · intro y
      refine agedOnly_trans L _ _ _ (h3 y) ?_
      rw [hget y]
      split
      · rename_i hy
        rw [hy]
        exact agedOnly_incr L _ _
      · exact agedOnly_refl L _
    · intro y hy
      have hne : y ≠ x := by
        intro e
        apply hy 0 (Nat.succ_pos k)
        rw [e]; simpa using hx
      rw [h4 y, hget y, if_neg hne]
      intro m hm
      have := hy (m + 1) (Nat.succ_lt_succ hm)
      rw [q_ptable]
      intro e
      apply this
      rw [← e]; congr 1; omega
    · intro y
      have := h5 y
      rw [hget y] at this
      split at this
      · rename_i hy
        subst hy
        simp [Arr4.get_set] at this
        omega
      · omega

theorem wf_entry {s : KState} (hwf : WellFormed s) (M : Fin 4) (j : Nat) (hj : j < s.num M) :
    ∃ x, (s.q M)[j]? = some (some x) ∧ x < s.ptable.length := by
  have hlen : j < (s.q M).length := Nat.lt_of_lt_of_le hj (hwf M).2.1
  have hmem : (s.q M)[j] ∈ live (s.q M) (s.num M) := by
    unfold live
    rw [List.mem_iff_getElem]
    refine ⟨j, ?_, ?_⟩
    · simp [List.length_take]; omega
    · simp [List.getElem_take]
  have hv := (hwf M).2.2 _ hmem
  cases h : (s.q M)[j] with
  | none => rw [h] at hv; exact absurd hv (by simp [validEntry])
  | some x =>
    rw [h] at hv
    exact ⟨x, by rw [List.getElem?_eq_getElem hlen, h], hv⟩

theorem quiet_at {s : KState} (hq : Quiet s) (x : Nat) (M : Fin 4) (hx : x < s.ptable.length)
    (hM : M ≠ 3) : (getProc s.ptable x).wait_ticks.get M + s.num M < threshold M :=
  hq x hx M hM

theorem check_promote_quiet (s : KState)
    (hwf : ∀ (M : Fin 4) (j : Nat), j < s.num M →
      ∃ x, (s.q M)[j]? = some (some x) ∧ x < s.ptable.length)
    (hq : ∀ (x : Nat) (M : Fin 4), x < s.ptable.length → M ≠ 3 →
      (getProc s.ptable x).wait_ticks.get M + s.num M < threshold M) :
    ∃ tbl, check_promote s = .ok { s with ptable := tbl } ∧ tbl.length = s.ptable.length ∧
      ∀ y, sameButWait (getProc tbl y) (getProc s.ptable y) := by
  -- lv3
  obtain ⟨t3, e3, l3, a3⟩ := age_lv3_ok s.lv3_num 0 s (by
    intro m hm
    obtain ⟨x, hx, hlen⟩ := hwf 3 m hm
    exact ⟨x, by simpa [KState.q] using hx, hlen⟩)
  -- lv2
  obtain ⟨t2, e2, l2, a2, -, -⟩ := promote_loop_quiet 2 2 3 (10 * LV2_TIME) s.lv2_num 0
    { s with ptable := t3 } (by
    intro m hm
    obtain ⟨x, hx, hlen⟩ := hwf 2 m hm
    refine ⟨x, by simpa [KState.q] using hx, by simpa [l3] using hlen, ?_⟩
    have := hq x 2 hlen (by decide)
    rw [agedOnly_get_ne (a3 x) (by decide)]
    exact this)
  -- lv1
  obtain ⟨t1, e1, l1, a1, -, -⟩ := promote_loop_quiet 1 1 2 (10 * LV1_TIME) s.lv1_num 0
    { s with ptable := t2 } (by
    intro m hm
    obtain ⟨x, hx, hlen⟩ := hwf 1 m hm
    refine ⟨x, by simpa [KState.q] using hx, by simpa [l2, l3] using hlen, ?_⟩
    have := hq x 1 hlen (by decide)
    show (getProc t2 x).wait_ticks.get 1 + _ < _
    rw [agedOnly_get_ne (a2 x) (by decide)]
    show (getProc t3 x).wait_ticks.get 1 + _ < _
    rw [agedOnly_get_ne (a3 x) (by decide)]
    exact this)
  -- lv0
  obtain ⟨t0, e0, l0, a0, -, -⟩ := promote_loop_quiet 0 2 3 500 s.lv0_num 0
    { s with ptable := t1 } (by
    intro m hm
    obtain ⟨x, hx, hlen⟩ := hwf 0 m hm
    refine ⟨x, by simpa [KState.q] using hx, by simpa [l1, l2, l3] using hlen, ?_⟩
    have := hq x 0 hlen (by decide)
    show (getProc t1 x).wait_ticks.get 0 + _ < _
    rw [agedOnly_get_ne (a1 x) (by decide)]
    show (getProc t2 x).wait_ticks.get 0 + _ < _
    rw [agedOnly_get_ne (a2 x) (by decide)]
    show (getProc t3 x).wait_ticks.get 0 + _ < _
    rw [agedOnly_get_ne (a3 x) (by decide)]
    exact this)
  refine ⟨t0, ?_, by simp [l0, l1, l2, l3], ?_⟩
  · simp only [check_promote, e3]
    simp only [e2]
    simp only [e1]
    exact e0
  · intro y
    exact sameButWait_trans _ _ _ (agedOnly_sameButWait (a0 y))
      (sameButWait_trans _ _ _ (agedOnly_sameButWait (a1 y))
        (sameButWait_trans _ _ _ (agedOnly_sameButWait (a2 y)) (agedOnly_sameButWait (a3 y))))

theorem length_dequeue_loop : ∀ (k i : Nat) (pq : List (Option Nat)),
    (dequeue_loop k i pq).length = pq.length := by
  intro k
  induction k with
  | zero => intro i pq; rfl
  | succ k ih => intro i pq; simp [dequeue_loop, ih]

theorem length_dequeue (pq : List (Option Nat)) (n i : Nat) :
    (dequeue pq n i).length = pq.length := length_dequeue_loop _ _ _

theorem sameButWait_ticks {a b : proc} (h : sameButWait a b) : a.ticks = b.ticks := by
  unfold sameButWait at h
  rw [h]

theorem sameButWait_priority {a b : proc} (h : sameButWait a b) : a.priority = b.priority := by
  unfold sameButWait at h
  rw [h]

theorem sameButWait_state {a b : proc} (h : sameButWait a b) : a.state = b.state := by
  unfold sameButWait at h
  rw [h]

theorem rd_eq (pq : List (Option Nat)) (i : Nat) (h : i < pq.length) :
    ∃ e, rd pq i = .ok e ∧ pq[i]? = some e := by
  refine ⟨pq[i], ?_, ?_⟩
  · simp [rd, List.getElem?_eq_getElem h]
  · exact List.getElem?_eq_getElem h

theorem append_eq (s : KState) (D : Fin 4) (e : Option Nat) (h : s.num D < (s.q D).length) :
    append s D e = .ok ((s.setQ D ((s.q D).set (s.num D) e)).setNum D (s.num D + 1)) := by
  simp [append, wr, h]

theorem lt_length_of_getElem? {α : Type} (l : List α) (i : Nat) (a : α) (h : l[i]? = some a) :
    i < l.length := by
  by_contra hc
  rw [List.getElem?_eq_none (by omega)] at h
  exact absurd h (by simp)

/-- The statements after `swtch` when the aging pass promotes nobody: the table after them is
the table after the pass with the wait ticks and ticks of the entry updated, and its priority
set when the quantum is reached. -/
theorem after_swtch_quiet (L : Fin 4) (s : KState) (i p : Nat)
    (hL : L ≠ 0) (hwf : WellFormed s) (hq : Quiet s)
    (hi : (s.q L)[i]? = some (some p)) (hp : p < s.ptable.length)
    (hroom : s.num (below L) < (s.q (below L)).length) :
    ∃ s1, after_swtch L s i = .ok s1 ∧
      (getProc s1.ptable p).ticks.get L = (getProc s.ptable p).ticks.get L + 1 ∧
      (getProc s1.ptable p).priority =
        if (if L = 3 then 8 else if L = 2 then 16 else 32) ≤ (getProc s.ptable p).ticks.get L + 1
        then L.val - 1 else (getProc s.ptable p).priority := by
  have hd0 : deref s.ptable (s.q L) i = .ok p := deref_eq _ _ _ _ hi hp
  obtain ⟨tbl, hcp, hlen, hsame⟩ := check_promote_quiet
    { s with ptable := updProc s.ptable p (fun x =>
      { x with wait_ticks := x.wait_ticks.set L 0 }) }
    (by
      intro M j hj
      rw [q_ptable]
      rw [num_ptable] at hj
      obtain ⟨x, hx, hlen⟩ := wf_entry hwf M j hj
      exact ⟨x, hx, by simpa [length_updProc] using hlen⟩)
    (by
      intro x M hx hM
      simp only [length_updProc] at hx
      have := quiet_at hq x M hx hM
      rw [num_ptable]
      simp only [getProc_updProc]
      split
      · rename_i hx
        rw [← hx.1]
        simp only [Arr4.get_set]
        split <;> omega
      · exact this)
  simp only [length_updProc] at hlen
  have hd1 : deref tbl (s.q L) i = .ok p := deref_eq _ _ _ _ hi (by omega)
  have hticks : (getProc tbl p).ticks = (getProc s.ptable p).ticks := by
    rw [sameButWait_ticks (hsame p)]
    simp [getProc_updProc, hp]
  have hprio : (getProc tbl p).priority = (getProc s.ptable p).priority := by
    rw [sameButWait_priority (hsame p)]
    simp [getProc_updProc, hp]
  have hqt : quantum L = some (if L = 3 then 8 else if L = 2 then 16 else 32) := by
    fin_cases L
    · exact absurd rfl hL
    · rfl
    · rfl
    · rfl
  have hbl : below L ≠ L ∧ (below L).val = L.val - 1 := by
    fin_cases L
    · exact absurd rfl hL
    · exact ⟨by decide, rfl⟩
    · exact ⟨by decide, rfl⟩
    · exact ⟨by decide, rfl⟩
  have hi_lt : i < (s.q L).length := lt_length_of_getElem? _ _ _ hi
  generalize (if L = 3 then 8 else if L = 2 then 16 else 32 : Nat) = qt at hqt ⊢
  simp only [after_swtch, hd0, hcp, q_ptable, hd1, hqt, num_ptable]
  simp only [incr_wait, getProc_updProc, length_updProc, hlen, hp, and_self, if_true,
    Arr4.get_set, hticks]
  by_cases hdem : qt ≤ (getProc s.ptable p).ticks.get L + 1
  · simp only [hdem, if_true, q_setQ, ptable_setQ, num_setQ, q_ptable, num_ptable]
    obtain ⟨e, he, -⟩ := rd_eq (dequeue (s.q L) (s.num L) i) i (by
      rw [length_dequeue]; exact hi_lt)
    simp only [he]
    rw [append_eq _ _ _ (by
      simp only [q_setQ, num_setQ, q_ptable, num_ptable, if_neg hbl.1]
      exact hroom)]
    refine ⟨_, rfl, ?_, ?_⟩
    · simp [ptable_setNum, ptable_setQ, getProc_updProc, length_updProc, hlen, hp, Arr4.get_set,
        hticks]
    · simp [ptable_setNum, ptable_setQ, getProc_updProc, length_updProc, hlen, hp, hbl.2]
  · simp only [hdem, if_false]
    refine ⟨_, rfl, ?_, ?_⟩
    · simp [getProc_updProc, length_updProc, hlen, hp, Arr4.get_set, hticks]
    · simp [getProc_updProc, length_updProc, hlen, hp, hprio]

/-! ## dequeue on the array -/

theorem getElem?_dequeue_loop : ∀ (k i : Nat) (pq : List (Option Nat)), i + k < pq.length →
    ∀ m, (dequeue_loop k i pq)[m]? = if i ≤ m ∧ m < i + k then pq[m + 1]? else pq[m]? := by
  intro k
  induction k with
  | zero =>
    intro i pq _ m
    have : ¬ (i ≤ m ∧ m < i) := by omega
    simp [dequeue_loop, this]
  | succ k ih =>
    intro i pq h m
    have h1 : i + 1 < pq.length := by omega
    simp only [dequeue_loop]
    rw [ih (i + 1) _ (by simp; omega) m]
    simp only [List.getElem?_set]
    by_cases hm : m = i
    · subst hm
      simp [List.getElem?_eq_getElem h1]
      omega
    · by_cases hlt : i + 1 ≤ m ∧ m < i + 1 + k
      · have h2 : i ≤ m ∧ m < i + (k + 1) := by omega
        have h3 : ¬ i = m + 1 := by omega
        simp [hlt, h2, h3]
      · have h2 : ¬ (i ≤ m ∧ m < i + (k + 1)) := by omega
        have h3 : ¬ i = m := fun e => hm e.symm
        simp [hlt, h2, h3]

theorem getElem?_dequeue (pq : List (Option Nat)) (n j : Nat) (hj : j < n) (hn : n ≤ pq.length)
    (m : Nat) :
    (dequeue pq n j)[m]? = if j ≤ m ∧ m + 1 < n then pq[m + 1]? else pq[m]? := by
  unfold dequeue
  rw [getElem?_dequeue_loop _ _ _ (by omega)]
  by_cases h : j ≤ m ∧ m + 1 < n
  · have : j ≤ m ∧ m < j + (n - 1 - j) := by omega
    simp [h, this]
  · have : ¬ (j ≤ m ∧ m < j + (n - 1 - j)) := by omega
    simp [h, this]

/-! ## An aging loop with one promotion -/

theorem promote_loop_add (L F D : Fin 4) (T : Nat) : ∀ (a b i : Nat) (s : KState),
    promote_loop L F D T (a + b) i s =
      match promote_loop L F D T a i s with
      | .error f => .error f
      | .ok s1 => promote_loop L F D T b (i + a) s1 := by
  intro a
  induction a with
  | zero => intro b i s; simp [promote_loop]
  | succ a ih =>
    intro b i s
    rw [show a + 1 + b = (a + b) + 1 by omega]
    simp only [promote_loop]
    cases h : promote_body L F D T s i with
    | error f => rfl
    | ok s1 =>
      simp only []
      rw [ih b (i + 1) s1]
      rw [show i + 1 + a = i + (a + 1) by omega]

theorem promote_body_at (L F D : Fin 4) (T : Nat) (hDL : D ≠ L) (s : KState) (j q : Nat)
    (hq : (s.q L)[j]? = some (some q)) (hqlen : q < s.ptable.length)
    (hj : j < s.num L) (hn : s.num L ≤ (s.q L).length)
    (hF : j < (s.q F).length) (hroom : s.num D < (s.q D).length) :
    ∃ s4, promote_body L F D T s j = .ok s4 ∧ s4.ptable.length = s.ptable.length ∧
      (∀ y, getProc s4.ptable y = if y = q then
          { getProc s.ptable q with
            wait_ticks := (getProc s.ptable q).wait_ticks.set L
              ((getProc s.ptable q).wait_ticks.get L + 1),
            priority := if T ≤ (getProc s.ptable q).wait_ticks.get L + 1
              then (getProc s.ptable q).priority + 1 else (getProc s.ptable q).priority }
        else getProc s.ptable y) ∧
      s4.num L = s.num L ∧
      (∀ m, j < m → m < s.num L →
        ∃ m1, j < m1 ∧ m1 < s.num L ∧ (s4.q L)[m]? = (s.q L)[m1]?) ∧
      (∀ M, M ≠ L → M ≠ D → s4.q M = s.q M ∧ s4.num M = s.num M) := by
  have hd : deref s.ptable (s.q L) j = .ok q := deref_eq _ _ _ _ hq hqlen
  have hget : ∀ y, getProc (incr_wait s.ptable q L) y
      = if y = q then { getProc s.ptable q with
          wait_ticks := (getProc s.ptable q).wait_ticks.set L
            ((getProc s.ptable q).wait_ticks.get L + 1) }
        else getProc s.ptable y := by
    intro y
    simp [incr_wait, getProc_updProc, hqlen]
  by_cases hT : T ≤ (getProc s.ptable q).wait_ticks.get L + 1
  · have hc : T ≤ (getProc (incr_wait s.ptable q L) q).wait_ticks.get L := by
      rw [hget q]; simpa [Arr4.get_set] using hT
    obtain ⟨t2, ht2⟩ : ∃ t2, t2 = updProc (incr_wait s.ptable q L) q
      (fun x => { x with priority := x.priority + 1 }) := ⟨_, rfl⟩
    obtain ⟨s3, hs3⟩ : ∃ s3, s3 = KState.setQ { s with ptable := t2 } L
      (dequeue (s.q L) (s.num L) j) := ⟨_, rfl⟩
    have hs3q : ∀ M, s3.q M = if M = L then dequeue (s.q L) (s.num L) j else s.q M := by
      intro M; simp only [hs3, q_setQ, q_ptable]
    have hs3n : ∀ M, s3.num M = s.num M := by
      intro M; simp only [hs3, num_setQ, num_ptable]
    have hs3t : s3.ptable = t2 := by simp only [hs3, ptable_setQ]
    obtain ⟨e, he, -⟩ := rd_eq (s3.q F) j (by
        rw [hs3q]
        split
        · rename_i hFL
          rw [length_dequeue, ← hFL]; exact hF
        · exact hF)
    have hrm : s3.num D < (s3.q D).length := by
      rw [hs3n, hs3q, if_neg hDL]
      exact hroom
    refine ⟨(s3.setQ D ((s3.q D).set (s3.num D) e)).setNum D (s3.num D + 1), ?_, ?_, ?_, ?_, ?_, ?_⟩
    · simp only [promote_body, hd, q_ptable, num_ptable]
      rw [if_pos hc, ← ht2, ← hs3]
      simp only [he]
      exact append_eq _ _ _ hrm
    · simp [ptable_setNum, ptable_setQ, hs3t, length_updProc, incr_wait, ht2]
    · intro y
      simp only [ptable_setNum, ptable_setQ, hs3t, ht2, getProc_updProc, length_updProc, incr_wait]
      have := hget q
      simp only [incr_wait] at this
      by_cases hy : y = q
      · simp [hy, hqlen, this, hT]
      · simp [hy, hqlen, getProc_updProc]
    · rw [num_setNum, if_neg (Ne.symm hDL), num_setQ, hs3n]
    · intro m hm1 hm2
      rw [q_setNum, q_setQ, if_neg (Ne.symm hDL), hs3q, if_pos rfl,
        getElem?_dequeue _ _ _ hj hn]
      by_cases h : j ≤ m ∧ m + 1 < s.num L
      · exact ⟨m + 1, by omega, h.2, by rw [if_pos h]⟩
      · exact ⟨m, hm1, hm2, by rw [if_neg h]⟩
    · intro M hML hMD
      rw [q_setNum, q_setQ, if_neg hMD, hs3q, if_neg hML, num_setNum, if_neg hMD,
        num_setQ, hs3n]
      exact ⟨rfl, rfl⟩
  · have hc : ¬ T ≤ (getProc (incr_wait s.ptable q L) q).wait_ticks.get L := by
      rw [hget q]; simpa [Arr4.get_set] using hT
    refine ⟨{ s with ptable := incr_wait s.ptable q L }, ?_, ?_, ?_, ?_, ?_, ?_⟩
    · simp only [promote_body, hd]
      rw [if_neg hc]
    · simp [length_updProc, incr_wait]
    · intro y
      rw [hget y]
      simp [hT]
    · rw [num_ptable]
    · intro m hm1 hm2
      exact ⟨m, hm1, hm2, by rw [q_ptable]⟩
    · intro M _ _
      rw [q_ptable, num_ptable]
      exact ⟨rfl, rfl⟩

theorem promote_loop_one (L F D : Fin 4) (T : Nat) (hDL : D ≠ L) (s : KState) (j q : Nat)
    (hq : (s.q L)[j]? = some (some q)) (hqlen : q < s.ptable.length)
    (hj : j < s.num L) (hn : s.num L ≤ (s.q L).length)
    (hF : j < (s.q F).length) (hroom : s.num D < (s.q D).length)
    (hent : ∀ m, m < s.num L → m ≠ j → ∃ x, (s.q L)[m]? = some (some x) ∧
        x < s.ptable.length ∧ x ≠ q ∧ (getProc s.ptable x).wait_ticks.get L + s.num L < T) :
    ∃ s5, promote_loop L F D T (s.num L) 0 s = .ok s5 ∧ s5.ptable.length = s.ptable.length ∧
      getProc s5.ptable q =
        { getProc s.ptable q with
          wait_ticks := (getProc s.ptable q).wait_ticks.set L
            ((getProc s.ptable q).wait_ticks.get L + 1),
          priority := if T ≤ (getProc s.ptable q).wait_ticks.get L + 1
            then (getProc s.ptable q).priority + 1 else (getProc s.ptable q).priority } ∧
      (∀ y, y ≠ q → agedOnly L (getProc s5.ptable y) (getProc s.ptable y)) ∧
      (∀ M, M ≠ L → M ≠ D → s5.q M = s.q M ∧ s5.num M = s.num M) := by
  obtain ⟨r, hr⟩ : ∃ r, s.num L = j + (r + 1) := ⟨s.num L - j - 1, by omega⟩
  -- the entries before `j`
  obtain ⟨t1, e1, l1, a1, u1, b1⟩ := promote_loop_quiet L F D T j 0 s (by
    intro m hm
    obtain ⟨x, hx, hxl, -, hw⟩ := hent m (by omega) (by omega)
    exact ⟨x, by simpa using hx, hxl, by omega⟩)
  have hq1 : getProc t1 q = getProc s.ptable q := by
    apply u1
    intro m hm e
    obtain ⟨x, hx, -, hne, -⟩ := hent m (by omega) (by omega)
    simp only [Nat.zero_add] at e
    rw [hx] at e
    exact hne (by simpa using e)
  -- the entry `j`
  obtain ⟨s4, e4, l4, g4, n4, sh4, o4⟩ := promote_body_at L F D T hDL { s with ptable := t1 } j q
    (by rw [q_ptable]; exact hq) (by rw [l1]; exact hqlen)
    (by rw [num_ptable]; exact hj) (by rw [num_ptable, q_ptable]; exact hn)
    (by rw [q_ptable]; exact hF) (by rw [num_ptable, q_ptable]; exact hroom)
  simp only [q_ptable, num_ptable] at n4 sh4 o4
  dsimp only at g4 l4
  -- the entries after `j`
  obtain ⟨t3, e3, l3, a3, u3, -⟩ := promote_loop_quiet L F D T r (j + 1) s4 (by
    intro m hm
    obtain ⟨m1, h1, h2, h3⟩ := sh4 (j + 1 + m) (by omega) (by omega)
    obtain ⟨x, hx, hxl, hne, hw⟩ := hent m1 h2 (by omega)
    refine ⟨x, by rw [h3, hx], by rw [l4, l1]; exact hxl, ?_⟩
    rw [g4 x, if_neg hne]
    have := b1 x
    omega)
  have hq3 : getProc t3 q = getProc s4.ptable q := by
    apply u3
    intro m hm e
    obtain ⟨m1, h1, h2, h3⟩ := sh4 (j + 1 + m) (by omega) (by omega)
    obtain ⟨x, hx, -, hne, -⟩ := hent m1 h2 (by omega)
    rw [h3, hx] at e
    exact hne (by simpa using e)
  refine ⟨{ s4 with ptable := t3 }, ?_, ?_, ?_, ?_, ?_⟩
  · rw [hr, promote_loop_add, e1]
    simp only [promote_loop, Nat.zero_add, e4]
    exact e3
  · show t3.length = _
    rw [l3, l4, l1]
  · show getProc t3 q = _
    rw [hq3, g4 q, if_pos rfl, hq1]
  · intro y hy
    show agedOnly L (getProc t3 y) _
    refine agedOnly_trans L _ _ _ (a3 y) ?_
    rw [g4 y, if_neg hy]
    exact a1 y
  · intro M hML hMD
    rw [q_ptable, num_ptable]
    exact o4 M hML hMD

theorem agedOnly_priority {L : Fin 4} {a b : proc} (h : agedOnly L a b) :
    a.priority = b.priority := sameButWait_priority (agedOnly_sameButWait h)

/-- A promotion loop in which nobody reaches the threshold, from the start of the loop. -/
theorem quiet_stage (M F D : Fin 4) (T : Nat) (st : KState)
    (hent : ∀ m, m < st.num M → ∃ x, (st.q M)[m]? = some (some x) ∧ x < st.ptable.length ∧
      (getProc st.ptable x).wait_ticks.get M + st.num M < T) :
    ∃ t, promote_loop M F D T (st.num M) 0 st = .ok { st with ptable := t } ∧
      t.length = st.ptable.length ∧ ∀ y, agedOnly M (getProc t y) (getProc st.ptable y) := by
  obtain ⟨t, e, l, a, -, -⟩ := promote_loop_quiet M F D T (st.num M) 0 st (by
    intro m hm
    obtain ⟨x, hx, hxl, hw⟩ := hent m hm
    exact ⟨x, by simpa using hx, hxl, hw⟩)
  exact ⟨t, e, l, a⟩

/-- The aging pass when only the entry `j` of `lv2` can reach its threshold. -/
theorem check_promote_lv2 (s : KState) (j q : Nat) (hwf : WellFormed s)
    (hj : j < s.lv2_num) (hq : s.lv2[j]? = some (some q))
    (honce : ∀ m, m < s.lv2_num → s.lv2[m]? = some (some q) → m = j)
    (hothers : ∀ x, x < s.ptable.length → ∀ M : Fin 4, M ≠ 3 → (x ≠ q ∨ M ≠ 2) →
      (getProc s.ptable x).wait_ticks.get M + s.num M < threshold M)
    (hroom : s.lv3_num < s.lv3.length) :
    ∃ s1, check_promote s = .ok s1 ∧
      (getProc s1.ptable q).wait_ticks.get 2 = (getProc s.ptable q).wait_ticks.get 2 + 1 ∧
      (getProc s1.ptable q).priority =
        if 160 ≤ (getProc s.ptable q).wait_ticks.get 2 + 1
        then (getProc s.ptable q).priority + 1 else (getProc s.ptable q).priority := by
  obtain ⟨t3, e3, l3, a3⟩ := age_lv3_ok s.lv3_num 0 s (by
    intro m hm
    obtain ⟨x, hx, hlen⟩ := wf_entry hwf 3 m hm
    exact ⟨x, by simpa [KState.q] using hx, hlen⟩)
  have hqlen : q < s.ptable.length := by
    obtain ⟨x, hx, hlen⟩ := wf_entry hwf 2 j hj
    have : x = q := by
      have h1 : s.lv2[j]? = some (some x) := hx
      rw [hq] at h1
      simpa using h1.symm
    rw [← this]; exact hlen
  obtain ⟨s5, e5, l5, g5, a5, o5⟩ := promote_loop_one 2 2 3 (10 * LV2_TIME) (by decide)
    { s with ptable := t3 } j q hq (by rw [l3]; exact hqlen) hj (hwf 2).2.1
    (Nat.lt_of_lt_of_le hj (hwf 2).2.1) hroom (by
      intro m hm hmj
      obtain ⟨x, hx, hlen⟩ := wf_entry hwf 2 m hm
      have hne : x ≠ q := by
        intro e
        rw [e] at hx
        exact hmj (honce m hm hx)
      refine ⟨x, hx, by rw [l3]; exact hlen, hne, ?_⟩
      show (getProc t3 x).wait_ticks.get 2 + _ < _
      rw [agedOnly_get_ne (a3 x) (by decide)]
      exact hothers x hlen 2 (by decide) (Or.inl hne))
  dsimp only at l5 g5 a5
  have o1 := o5 1 (by decide) (by decide)
  have o0 := o5 0 (by decide) (by decide)
  simp only [q_ptable, num_ptable] at o1 o0
  -- wait ticks of the other levels after the lv2 loop
  have hw5 : ∀ y (K : Fin 4), K ≠ 2 → K ≠ 3 →
      (getProc s5.ptable y).wait_ticks.get K = (getProc s.ptable y).wait_ticks.get K := by
    intro y K hK2 hK3
    by_cases hy : y = q
    · rw [hy, g5]
      simp only [Arr4.get_set, if_neg hK2]
      exact agedOnly_get_ne (a3 q) hK3
    · rw [agedOnly_get_ne (a5 y hy) hK2]
      exact agedOnly_get_ne (a3 y) hK3
  obtain ⟨t1, e1, l1, a1⟩ := quiet_stage 1 1 2 (10 * LV1_TIME) s5 (by
    intro m hm
    rw [o1.2] at hm
    obtain ⟨x, hx, hlen⟩ := wf_entry hwf 1 m hm
    refine ⟨x, by rw [o1.1]; exact hx, by rw [l5, l3]; exact hlen, ?_⟩
    rw [hw5 x 1 (by decide) (by decide), o1.2]
    exact hothers x hlen 1 (by decide) (Or.inr (by decide)))
  obtain ⟨t0, e0, l0, a0⟩ := quiet_stage 0 2 3 500 { s5 with ptable := t1 } (by
    intro m hm
    rw [num_ptable, o0.2] at hm
    obtain ⟨x, hx, hlen⟩ := wf_entry hwf 0 m hm
    refine ⟨x, by rw [q_ptable, o0.1]; exact hx, by rw [l1, l5, l3]; exact hlen, ?_⟩
    show (getProc t1 x).wait_ticks.get 0 + _ < _
    rw [agedOnly_get_ne (a1 x) (by decide), hw5 x 0 (by decide) (by decide), num_ptable, o0.2]
    exact hothers x hlen 0 (by decide) (Or.inr (by decide)))
  have hn1 : s5.lv1_num = s5.num 1 := rfl
  have hn0 : s5.lv0_num = KState.num { s5 with ptable := t1 } 0 := rfl
  refine ⟨{ s5 with ptable := t0 }, ?_, ?_, ?_⟩
  · have h2 : promote_loop 2 2 3 (10 * LV2_TIME) s.lv2_num 0 { s with ptable := t3 } = .ok s5 := e5
    simp only [check_promote, e3, h2]
    rw [hn1, e1]
    exact e0
  · show (getProc t0 q).wait_ticks.get 2 = _
    rw [agedOnly_get_ne (a0 q) (by decide)]
    show (getProc t1 q).wait_ticks.get 2 = _
    rw [agedOnly_get_ne (a1 q) (by decide), g5]
    simp only [Arr4.get_set, if_true]
    rw [agedOnly_get_ne (a3 q) (by decide)]
  · show (getProc t0 q).priority = _
    rw [agedOnly_priority (a0 q)]
    show (getProc t1 q).priority = _
    rw [agedOnly_priority (a1 q), g5]
    simp only []
    rw [agedOnly_get_ne (a3 q) (by decide), agedOnly_priority (a3 q)]
    rfl

/-- The aging pass when only the entry `j` of `lv1` can reach its threshold. -/
theorem check_promote_lv1 (s : KState) (j q : Nat) (hwf : WellFormed s)
    (hj : j < s.lv1_num) (hq : s.lv1[j]? = some (some q))
    (honce : ∀ m, m < s.lv1_num → s.lv1[m]? = some (some q) → m = j)
    (hothers : ∀ x, x < s.ptable.length → ∀ M : Fin 4, M ≠ 3 → (x ≠ q ∨ M ≠ 1) →
      (getProc s.ptable x).wait_ticks.get M + s.num M < threshold M)
    (hroom : s.lv2_num < s.lv2.length) :
    ∃ s1, check_promote s = .ok s1 ∧
      (getProc s1.ptable q).wait_ticks.get 1 = (getProc s.ptable q).wait_ticks.get 1 + 1 ∧
      (getProc s1.ptable q).priority =
        if 320 ≤ (getProc s.ptable q).wait_ticks.get 1 + 1
        then (getProc s.ptable q).priority + 1 else (getProc s.ptable q).priority := by
  obtain ⟨t3, e3, l3, a3⟩ := age_lv3_ok s.lv3_num 0 s (by
    intro m hm
    obtain ⟨x, hx, hlen⟩ := wf_entry hwf 3 m hm
    exact ⟨x, by simpa [KState.q] using hx, hlen⟩)
  have hqlen : q < s.ptable.length := by
    obtain ⟨x, hx, hlen⟩ := wf_entry hwf 1 j hj
    have : x = q := by
      have h1 : s.lv1[j]? = some (some x) := hx
      rw [hq] at h1
      simpa using h1.symm
    rw [← this]; exact hlen
  obtain ⟨t2, e2, l2, a2⟩ := quiet_stage 2 2 3 (10 * LV2_TIME) { s with ptable := t3 } (by
    intro m hm
    obtain ⟨x, hx, hlen⟩ := wf_entry hwf 2 m hm
    refine ⟨x, hx, by rw [l3]; exact hlen, ?_⟩
    show (getProc t3 x).wait_ticks.get 2 + _ < _
    rw [agedOnly_get_ne (a3 x) (by decide)]
    exact hothers x hlen 2 (by decide) (Or.inr (by decide)))
  dsimp only at l2 a2
  have hw2 : ∀ y (K : Fin 4), K ≠ 2 → K ≠ 3 →
      (getProc t2 y).wait_ticks.get K = (getProc s.ptable y).wait_ticks.get K := by
    intro y K hK2 hK3
    rw [agedOnly_get_ne (a2 y) hK2]
    exact agedOnly_get_ne (a3 y) hK3
  obtain ⟨s5, e5, l5, g5, a5, o5⟩ := promote_loop_one 1 1 2 (10 * LV1_TIME) (by decide)
    { s with ptable := t2 } j q hq (by rw [l2, l3]; exact hqlen) hj (hwf 1).2.1
    (Nat.lt_of_lt_of_le hj (hwf 1).2.1) hroom (by
      intro m hm hmj
      obtain ⟨x, hx, hlen⟩ := wf_entry hwf 1 m hm
      have hne : x ≠ q := by
        intro e
        rw [e] at hx
        exact hmj (honce m hm hx)
      refine ⟨x, hx, by rw [l2, l3]; exact hlen, hne, ?_⟩
      show (getProc t2 x).wait_ticks.get 1 + _ < _
      rw [hw2 x 1 (by decide) (by decide)]
      exact hothers x hlen 1 (by decide) (Or.inl hne))
  dsimp only at l5 g5 a5
  have o0 := o5 0 (by decide) (by decide)
  simp only [q_ptable, num_ptable] at o0
  have hw5 : (∀ y, (getProc s5.ptable y).wait_ticks.get 0 = (getProc s.ptable y).wait_ticks.get 0) := by
    intro y
    by_cases hy : y = q
    · rw [hy, g5]
      simp only [Arr4.get_set]
      exact hw2 q 0 (by decide) (by decide)
    · rw [agedOnly_get_ne (a5 y hy) (by decide)]
      exact hw2 y 0 (by decide) (by decide)
  obtain ⟨t0, e0, l0, a0⟩ := quiet_stage 0 2 3 500 s5 (by
    intro m hm
    rw [o0.2] at hm
    obtain ⟨x, hx, hlen⟩ := wf_entry hwf 0 m hm
    refine ⟨x, by rw [o0.1]; exact hx, by rw [l5, l2, l3]; exact hlen, ?_⟩
    rw [hw5 x, o0.2]
    exact hothers x hlen 0 (by decide) (Or.inr (by decide)))
  refine ⟨{ s5 with ptable := t0 }, ?_, ?_, ?_⟩
  · have h2 : promote_loop 2 2 3 (10 * LV2_TIME) s.lv2_num 0 { s with ptable := t3 }
        = .ok { s with ptable := t2 } := e2
    have h1 : promote_loop 1 1 2 (10 * LV1_TIME) s.lv1_num 0 { s with ptable := t2 } = .ok s5 := e5
    simp only [check_promote, e3, h2, h1]
    exact e0
  · show (getProc t0 q).wait_ticks.get 1 = _
    rw [agedOnly_get_ne (a0 q) (by decide), g5]
    simp only [Arr4.get_set, if_true]
    rw [hw2 q 1 (by decide) (by decide)]
  · show (getProc t0 q).priority = _
    rw [agedOnly_priority (a0 q), g5]
    simp only []
    rw [hw2 q 1 (by decide) (by decide), agedOnly_priority (a2 q), agedOnly_priority (a3 q)]
    rfl

/-- The aging pass when only the entry `j` of `lv0` can reach its threshold. -/
theorem check_promote_lv0 (s : KState) (j q : Nat) (hwf : WellFormed s)
    (hj : j < s.lv0_num) (hq : s.lv0[j]? = some (some q))
    (honce : ∀ m, m < s.lv0_num → s.lv0[m]? = some (some q) → m = j)
    (hothers : ∀ x, x < s.ptable.length → ∀ M : Fin 4, M ≠ 3 → (x ≠ q ∨ M ≠ 0) →
      (getProc s.ptable x).wait_ticks.get M + s.num M < threshold M)
    (hroom : s.lv3_num < s.lv3.length) :
    ∃ s1, check_promote s = .ok s1 ∧
      (getProc s1.ptable q).wait_ticks.get 0 = (getProc s.ptable q).wait_ticks.get 0 + 1 ∧
      (getProc s1.ptable q).priority =
        if 500 ≤ (getProc s.ptable q).wait_ticks.get 0 + 1
        then (getProc s.ptable q).priority + 1 else (getProc s.ptable q).priority := by
  obtain ⟨t3, e3, l3, a3⟩ := age_lv3_ok s.lv3_num 0 s (by
    intro m hm
    obtain ⟨x, hx, hlen⟩ := wf_entry hwf 3 m hm
    exact ⟨x, by simpa [KState.q] using hx, hlen⟩)
  have hqlen : q < s.ptable.length := by
    obtain ⟨x, hx, hlen⟩ := wf_entry hwf 0 j hj
    have : x = q := by
      have h1 : s.lv0[j]? = some (some x) := hx
      rw [hq] at h1
      simpa using h1.symm
    rw [← this]; exact hlen
  obtain ⟨t2, e2, l2, a2⟩ := quiet_stage 2 2 3 (10 * LV2_TIME) { s with ptable := t3 } (by
    intro m hm
    obtain ⟨x, hx, hlen⟩ := wf_entry hwf 2 m hm
    refine ⟨x, hx, by rw [l3]; exact hlen, ?_⟩
    show (getProc t3 x).wait_ticks.get 2 + _ < _
    rw [agedOnly_get_ne (a3 x) (by decide)]
    exact hothers x hlen 2 (by decide) (Or.inr (by decide)))
  dsimp only at l2 a2
  obtain ⟨t1, e1, l1, a1⟩ := quiet_stage 1 1 2 (10 * LV1_TIME) { s with ptable := t2 } (by
    intro m hm
    obtain ⟨x, hx, hlen⟩ := wf_entry hwf 1 m hm
    refine ⟨x, hx, by rw [l2, l3]; exact hlen, ?_⟩
    show (getProc t2 x).wait_ticks.get 1 + _ < _
    rw [agedOnly_get_ne (a2 x) (by decide), agedOnly_get_ne (a3 x) (by decide)]
    exact hothers x hlen 1 (by decide) (Or.inr (by decide)))
  dsimp only at l1 a1
  have hw1 : ∀ y, (getProc t1 y).wait_ticks.get 0 = (getProc s.ptable y).wait_ticks.get 0 := by
    intro y
    rw [agedOnly_get_ne (a1 y) (by decide), agedOnly_get_ne (a2 y) (by decide),
      agedOnly_get_ne (a3 y) (by decide)]
  have hlen2 : j < s.lv2.length := by
    have h0 := (hwf 0).2.1
    have h1 := (hwf 0).1
    have h2 := (hwf 2).1
    have : j < (s.q 0).length := Nat.lt_of_lt_of_le hj h0
    rw [h1, ← h2] at this
    exact this
  obtain ⟨s5, e5, l5, g5, -, -⟩ := promote_loop_one 0 2 3 500 (by decide)
    { s with ptable := t1 } j q hq (by rw [l1, l2, l3]; exact hqlen) hj (hwf 0).2.1
    hlen2 hroom (by
      intro m hm hmj
      obtain ⟨x, hx, hlen⟩ := wf_entry hwf 0 m hm
      have hne : x ≠ q := by
        intro e
        rw [e] at hx
        exact hmj (honce m hm hx)
      refine ⟨x, hx, by rw [l1, l2, l3]; exact hlen, hne, ?_⟩
      show (getProc t1 x).wait_ticks.get 0 + _ < _
      rw [hw1 x]
      exact hothers x hlen 0 (by decide) (Or.inl hne))
  dsimp only at l5 g5
  refine ⟨s5, ?_, ?_, ?_⟩
  · have h2 : promote_loop 2 2 3 (10 * LV2_TIME) s.lv2_num 0 { s with ptable := t3 }
        = .ok { s with ptable := t2 } := e2
    have h1 : promote_loop 1 1 2 (10 * LV1_TIME) s.lv1_num 0 { s with ptable := t2 }
        = .ok { s with ptable := t1 } := e1
    simp only [check_promote, e3, h2, h1]
    exact e5
  · rw [g5]
    simp only [Arr4.get_set, if_true]
    rw [hw1 q]
  · rw [g5]
    simp only []
    rw [hw1 q, agedOnly_priority (a1 q), agedOnly_priority (a2 q), agedOnly_priority (a3 q)]

/-! ## wait -/

theorem wait_scan_found (self : Option Nat) (tbl : List proc) (c : Nat)
    (hpar : (getProc tbl c).parent = self) (hz : (getProc tbl c).state = .ZOMBIE) :
    ∀ (k i : Nat) (hk : Bool), i ≤ c → c < i + k →
      (∀ m, i ≤ m → m < c →
        ¬ ((getProc tbl m).parent = self ∧ (getProc tbl m).state = .ZOMBIE)) →
      wait_scan self k i tbl hk =
        (updProc tbl c (fun x =>
            { x with kstack := none, state := .UNUSED, pid := 0, parent := none, name := [],
                     killed := 0 }),
          some (getProc tbl c).pid, true) := by
  intro k
  induction k with
  | zero => intro i hk h1 h2; omega
  | succ k ih =>
    intro i hk h1 h2 hfirst
    by_cases hic : i = c
    · subst hic
      simp [wait_scan, hpar, hz]
    · have hlt : i < c := by omega
      have hno := hfirst i (Nat.le_refl i) hlt
      by_cases hp : (getProc tbl i).parent = self
      · have hnz : ¬ (getProc tbl i).state = .ZOMBIE := fun h => hno ⟨hp, h⟩
        simp only [wait_scan, hp, ne_eq, not_true_eq_false, if_false, hnz]
        exact ih (i + 1) true (by omega) (by omega) (fun m hm1 hm2 => hfirst m (by omega) hm2)
      · simp only [wait_scan, ne_eq, hp, not_false_eq_true, if_true]
        exact ih (i + 1) hk (by omega) (by omega) (fun m hm1 hm2 => hfirst m (by omega) hm2)

theorem wait_scan_none (self : Option Nat) (tbl : List proc) :
    ∀ (k i : Nat) (hk : Bool),
      (∀ m, i ≤ m → m < i + k →
        ¬ ((getProc tbl m).parent = self ∧ (getProc tbl m).state = .ZOMBIE)) →
      ∃ hk1, wait_scan self k i tbl hk = (tbl, none, hk1) ∧
        (hk1 = true ↔ (hk = true ∨ ∃ m, i ≤ m ∧ m < i + k ∧ (getProc tbl m).parent = self)) := by
  intro k
  induction k with
  | zero =>
    intro i hk _
    refine ⟨hk, rfl, ?_⟩
    constructor
    · intro h; exact Or.inl h
    · rintro (h | ⟨m, h1, h2, -⟩)
      · exact h
      · omega
  | succ k ih =>
    intro i hk hno
    have hno1 : ∀ m, i + 1 ≤ m → m < i + 1 + k →
        ¬ ((getProc tbl m).parent = self ∧ (getProc tbl m).state = .ZOMBIE) :=
      fun m h1 h2 => hno m (by omega) (by omega)
    by_cases hp : (getProc tbl i).parent = self
    · have hnz : ¬ (getProc tbl i).state = .ZOMBIE :=
        fun h => hno i (Nat.le_refl i) (by omega) ⟨hp, h⟩
      obtain ⟨hk1, e, hiff⟩ := ih (i + 1) true hno1
      refine ⟨hk1, ?_, ?_⟩
      · simp only [wait_scan, hp, ne_eq, not_true_eq_false, if_false, hnz]
        exact e
      · constructor
        · intro _
          exact Or.inr ⟨i, Nat.le_refl i, by omega, hp⟩
        · intro _
          exact hiff.2 (Or.inl rfl)
    · obtain ⟨hk1, e, hiff⟩ := ih (i + 1) hk hno1
      refine ⟨hk1, ?_, ?_⟩
      · simp only [wait_scan, ne_eq, hp, not_false_eq_true, if_true]
        exact e
      · constructor
        · intro h
          rcases hiff.1 h with h | ⟨m, h1, h2, h3⟩
          · exact Or.inl h
          · exact Or.inr ⟨m, by omega, by omega, h3⟩
        · rintro (h | ⟨m, h1, h2, h3⟩)
          · exact hiff.2 (Or.inl h)
          · have : m ≠ i := fun e => hp (e ▸ h3)
            exact hiff.2 (Or.inr ⟨m, by omega, by omega, h3⟩)

/-! ## allocproc and fork -/

theorem find_unused_first : ∀ (tbl : List proc) (p : Nat), p < tbl.length →
    (getProc tbl p).state = .UNUSED → (∀ i, i < p → (getProc tbl i).state ≠ .UNUSED) →
    find_unused tbl = some p := by
  intro tbl
  induction tbl with
  | nil => intro p hp; simp at hp
  | cons x xs ih =>
    intro p hp hun hfirst
    cases p with
    | zero =>
      have : x.state = .UNUSED := by simpa [getProc] using hun
      simp [find_unused, this]
    | succ n =>
      have hx : x.state ≠ .UNUSED := by
        have := hfirst 0 (Nat.succ_pos n)
        simpa [getProc] using this
      have hrec := ih n (by simpa using hp) (by simpa [getProc] using hun) (by
        intro i hi
        have := hfirst (i + 1) (by omega)
        simpa [getProc] using this)
      simp [find_unused, hx, hrec]

theorem live_set_succ (pq : List (Option Nat)) (n : Nat) (e : Option Nat) (h : n < pq.length) :
    live (pq.set n e) (n + 1) = live pq n ++ [e] := by
  unfold live
  induction pq generalizing n with
  | nil => simp at h
  | cons x xs ih =>
    cases n with
    | zero => simp
    | succ m =>
      simp only [List.set_cons_succ, List.take_succ_cons, List.cons_append, List.cons.injEq,
        true_and]
      exact ih m (by simpa using h)

/-- The block `found:` of `allocproc`. -/
theorem allocproc_found_eq (s : KState) (p : Nat) (hroom : s.lv3_num < s.lv3.length) :
    allocproc_found s p = .ok
      { s with
        ptable := updProc s.ptable p (fun x =>
          { x with state := .EMBRYO, pid := s.nextpid, priority := 3,
                   ticks := Arr4.zero, wait_ticks := Arr4.zero }),
        nextpid := s.nextpid + 1,
        lv3 := s.lv3.set s.lv3_num (some p),
        lv3_num := s.lv3_num + 1 } := by
  unfold allocproc_found
  rw [append_eq _ _ _ (by exact hroom)]
  rfl

/-! ## Demotion and the queue invariants (C1, C2, C8, C5) -/

set_option maxRecDepth 100000 in
/-- C1 (fails on the code): a single process that runs and yields eight times is, after the
demotion of its eighth run, RUNNABLE with priority 2 and a live entry of both `lv3` and `lv2`,
so the reachable state breaks the level invariant. -/
theorem level_invariant_broken_by_demotion :
    ∃ s, run (Sys.boot 64) (spin 7 ++ [.dispatch, .yield]) = .ok s ∧
      (getProc s.k.ptable 0).state = .RUNNABLE ∧ (getProc s.k.ptable 0).priority = 2 ∧
      some 0 ∈ live s.k.lv3 s.k.lv3_num ∧ some 0 ∈ live s.k.lv2 s.k.lv2_num ∧
      ¬ LevelInvariant s.k :=
  ⟨after 64 (spin 7 ++ [.dispatch, .yield]), by decide!⟩

set_option maxRecDepth 100000 in
/-- C2 (fails on the code): before the eighth yield of a single process no pointer occurs twice
in the level arrays; the demotion done by that yield leaves the process in `lv3` and adds it to
`lv2`. -/
theorem queues_nodup_broken_by_demotion :
    ∃ s s1, run (Sys.boot 64) (spin 7 ++ [.dispatch]) = .ok s ∧ QueuesNodup s.k ∧
      step s .yield = .ok s1 ∧ ¬ QueuesNodup s1.k :=
  ⟨after 64 (spin 7 ++ [.dispatch]), after 64 (spin 7 ++ [.dispatch, .yield]), by decide!⟩

set_option maxRecDepth 100000 in
/-- C8 (fails on the code): after the demotion of a single spinning process the process has
priority 2 and is in `lv2`, and it is still the live entry of `lv3`; with three processes in
`lv3` the demotion of the first one leaves it in no array at all, while its successor, whose
priority is 3, is appended to `lv2`. -/
theorem demotion_moves_wrong_entry :
    (∃ s, run (Sys.boot 64) (spin 7 ++ [.dispatch, .yield]) = .ok s ∧
      (getProc s.k.ptable 0).priority = 2 ∧
      live s.k.lv3 s.k.lv3_num = [some 0] ∧ live s.k.lv2 s.k.lv2_num = [some 0]) ∧
    (∃ s s1, run (Sys.boot 64) (rounds3 6 ++ [.dispatch]) = .ok s ∧
      s.running = some (3, 0) ∧ s.k.proc = some 0 ∧
      live s.k.lv3 s.k.lv3_num = [some 0, some 1, some 2] ∧
      live s.k.lv2 s.k.lv2_num = [] ∧
      step s .yield = .ok s1 ∧
      (getProc s1.k.ptable 0).priority = 2 ∧ (getProc s1.k.ptable 1).priority = 3 ∧
      live s1.k.lv3 s1.k.lv3_num = [some 1, some 2, some 2] ∧
      live s1.k.lv2 s1.k.lv2_num = [some 1] ∧
      live s1.k.lv1 s1.k.lv1_num = [] ∧ live s1.k.lv0 s1.k.lv0_num = []) :=
  ⟨⟨after 64 (spin 7 ++ [.dispatch, .yield]), by decide!⟩,
    ⟨after 64 (rounds3 6 ++ [.dispatch]), after 64 (rounds3 6 ++ [.dispatch, .yield]),
      by decide!⟩⟩

set_option maxRecDepth 100000 in
/-- C5 (fails on the code): after seven rounds three processes are the live entries of `lv3`,
all RUNNABLE with priority 3; the eighth round of the lv3 loop runs slot 0, then slot 2 twice,
and does not run slot 1 (the next process to run is taken by the lv2 loop). -/
theorem level3_round_skips_a_process :
    ∃ s, run (Sys.boot 64) (rounds3 6) = .ok s ∧ s.lv3i = 0 ∧ s.running = none ∧
      live s.k.lv3 s.k.lv3_num = [some 0, some 1, some 2] ∧
      (∀ p, p < 3 → (getProc s.k.ptable p).state = .RUNNABLE ∧
        (getProc s.k.ptable p).priority = 3) ∧
      dispatched s [.dispatch, .yield, .dispatch, .yield, .dispatch, .yield, .dispatch]
        = [(3, 0), (3, 2), (3, 2), (2, 1)] :=
  ⟨after 64 (rounds3 6), by decide!⟩

set_option maxRecDepth 100000 in
/-- C6 (counterexample): the first process forks two children and the first child exits.  The
parent's `wait` returns the pid 2 of that child and leaves its slot UNUSED with pid 0 and no
parent, but with priority 3 and `ticks[3] = 1` as before; a second `wait`, with no zombie
child left, does not return -1: the other child is alive and the caller goes to sleep. -/
theorem second_wait_blocks :
    ∃ s k1 k2, run (Sys.boot 64) two_children_one_exited = .ok s ∧
      s.k.proc = some 0 ∧
      wait s.k = .ok (k1, .reaped 2) ∧
      (getProc k1.ptable 1).state = .UNUSED ∧ (getProc k1.ptable 1).pid = 0 ∧
      (getProc k1.ptable 1).parent = none ∧
      (getProc k1.ptable 1).priority = 3 ∧ (getProc k1.ptable 1).ticks.get 3 = 1 ∧
      (∀ m, m < 64 → ¬ ((getProc k1.ptable m).parent = some 0 ∧
        (getProc k1.ptable m).state = .ZOMBIE)) ∧
      wait k1 = .ok (k2, .blocked) ∧ (getProc k2.ptable 0).state = .SLEEPING :=
  ⟨after 64 two_children_one_exited,
    (valueOr (wait (after 64 two_children_one_exited).k) (boot 64, .nochild)).1,
    (valueOr (wait (valueOr (wait (after 64 two_children_one_exited).k) (boot 64, .nochild)).1)
      (boot 64, .nochild)).1,
    by decide!⟩

/-- C6 (as amended): when the caller has a zombie child, `wait` reaps the first one in table
order: it returns its pid and resets state (UNUSED), pid (0), parent (none), killed, kstack and
name of that slot, leaving its other fields (priority, ticks, wait ticks among them), all other
slots and the level arrays as they were.  A second `wait` of the same caller with no other
zombie child does not return a pid: it returns -1 exactly when the caller has no child left or
is killed, and otherwise the caller goes to sleep on itself. -/
theorem wait_reaps_zombie (s : KState) (self c : Nat)
    (hself : s.proc = some self) (hc : c < s.ptable.length)
    (hpar : (getProc s.ptable c).parent = some self)
    (hz : (getProc s.ptable c).state = .ZOMBIE)
    (hfirst : ∀ m, m < c →
      ¬ ((getProc s.ptable m).parent = some self ∧ (getProc s.ptable m).state = .ZOMBIE)) :
    ∃ s1, wait s = .ok (s1, .reaped (getProc s.ptable c).pid) ∧
      s1 = { s with ptable := s1.ptable } ∧
      getProc s1.ptable c =
        { getProc s.ptable c with kstack := none, state := .UNUSED, pid := 0, parent := none,
                                  name := [], killed := 0 } ∧
      (∀ y, y ≠ c → getProc s1.ptable y = getProc s.ptable y) ∧
      ((∀ m, m < s.ptable.length → m ≠ c →
          ¬ ((getProc s.ptable m).parent = some self ∧ (getProc s.ptable m).state = .ZOMBIE)) →
        ∃ s2 r, wait s1 = .ok (s2, r) ∧ (∀ pid, r ≠ .reaped pid) ∧
          (r = .nochild ↔
            ((∀ m, m < s.ptable.length → (getProc s1.ptable m).parent ≠ some self) ∨
              (getProc s1.ptable self).killed ≠ 0)) ∧
          (r = .nochild → s2 = s1) ∧
          (r = .blocked → sleep s1 (chanOf (some self)) = .ok s2)) := by
  have hscan := wait_scan_found (some self) s.ptable c hpar hz s.ptable.length 0 false
    (Nat.zero_le c) (by omega) (fun m _ hm => hfirst m hm)
  obtain ⟨t1, ht1⟩ : ∃ t1, t1 = updProc s.ptable c (fun x =>
      { x with kstack := none, state := .UNUSED, pid := 0, parent := none, name := [],
               killed := 0 }) := ⟨_, rfl⟩
  rw [← ht1] at hscan
  have hget : ∀ y, getProc t1 y = if y = c then
      { getProc s.ptable c with kstack := none, state := .UNUSED, pid := 0, parent := none,
                                name := [], killed := 0 }
      else getProc s.ptable y := by
    intro y
    rw [ht1, getProc_updProc]
    by_cases hy : y = c
    · simp [hy, hc]
    · simp [hy]
  have hlen : t1.length = s.ptable.length := by rw [ht1, length_updProc]
  refine ⟨{ s with ptable := t1 }, ?_, rfl, ?_, ?_, ?_⟩
  · simp only [wait, hself, hscan]
  · show getProc t1 c = _
    rw [hget c, if_pos rfl]
  · intro y hy
    show getProc t1 y = _
    rw [hget y, if_neg hy]
  · intro hno
    have hno1 : ∀ m, 0 ≤ m → m < 0 + t1.length →
        ¬ ((getProc t1 m).parent = some self ∧ (getProc t1 m).state = .ZOMBIE) := by
      intro m _ hml
      rw [hget m]
      by_cases hm : m = c
      · simp [hm]
      · rw [if_neg hm]
        exact hno m (by omega) hm
    obtain ⟨hk1, e, hiff⟩ := wait_scan_none (some self) t1 t1.length 0 false hno1
    have hkids : hk1 = true ↔ ∃ m, m < s.ptable.length ∧ (getProc t1 m).parent = some self := by
      rw [hiff]
      constructor
      · rintro (h | ⟨m, -, h2, h3⟩)
        · exact absurd h (by simp)
        · exact ⟨m, by omega, h3⟩
      · rintro ⟨m, h2, h3⟩
        exact Or.inr ⟨m, Nat.zero_le m, by omega, h3⟩
    cases hk1 with
    | false =>
      have hnone : ∀ m, m < s.ptable.length → (getProc t1 m).parent ≠ some self := by
        intro m hm h
        exact absurd (hkids.2 ⟨m, hm, h⟩) (by simp)
      refine ⟨{ s with ptable := t1 }, .nochild, ?_, ?_, ?_, ?_, ?_⟩
      · simp only [wait, hself, e]
      · intro pid h; exact absurd h (by simp)
      · exact ⟨fun _ => Or.inl hnone, fun _ => rfl⟩
      · intro _; rfl
      · intro h; exact absurd h (by simp)
    | true =>
      obtain ⟨m, hm, hmp⟩ := hkids.1 rfl
      by_cases hkill : (getProc t1 self).killed ≠ 0
      · refine ⟨{ s with ptable := t1 }, .nochild, ?_, ?_, ?_, ?_, ?_⟩
        · simp only [wait, hself, e]
          rw [if_pos hkill]
        · intro pid h; exact absurd h (by simp)
        · exact ⟨fun _ => Or.inr hkill, fun _ => rfl⟩
        · intro _; rfl
        · intro h; exact absurd h (by simp)
      · refine ⟨{ s with ptable := updProc t1 self (fun x =>
            { x with chan := chanOf (some self), state := .SLEEPING }) }, .blocked, ?_, ?_, ?_, ?_, ?_⟩
        · simp only [wait, hself, e]
          rw [if_neg hkill]
          simp only [sleep, hself]
        · intro pid h; exact absurd h (by simp)
        · constructor
          · intro h; exact absurd h (by simp)
          · rintro (h | h)
            · exact absurd hmp (h m hm)
            · exact absurd h hkill
        · intro h; exact absurd h (by simp)
        · intro _
          simp only [sleep, hself]

set_option maxRecDepth 100000 in
/-- Reaping after the first process forked one child that exited: `wait` returns pid 2 and
resets the slot, and the second `wait` returns no pid. -/
theorem wait_reaps_zombie_witness :
    ∃ s1, wait (after 64 one_child_exited).k = .ok (s1, .reaped 2) ∧
      (getProc s1.ptable 1).state = .UNUSED ∧
      ∃ s2 r, wait s1 = .ok (s2, r) ∧ ∀ pid, r ≠ .reaped pid := by
  obtain ⟨s1, h1, -, h3, -, h5⟩ := wait_reaps_zombie (after 64 one_child_exited).k 0 1
    (by decide) (by decide) (by decide) (by decide) (by decide)
  obtain ⟨s2, r, h6, h7, -⟩ := h5 (by decide)
  exact ⟨s1, h1, by rw [h3], s2, r, h6, h7⟩

/-! ## Allocation (C7) -/

set_option maxRecDepth 100000 in
/-- C7 (counterexample): after 63 calls of `fork` that failed in `kalloc`, slot 1 is UNUSED and
is the first such slot, but `lv3_num` is 64, and `allocproc` ends in a write outside `lv3`
instead of appending slot 1; and on the empty table an `allocproc` whose `kalloc` fails returns 0
and leaves slot 0 UNUSED, not EMBRYO. -/
theorem allocproc_fails_when_lv3_is_full :
    (∃ s, run (Sys.boot 64) (failed_forks 63) = .ok s ∧
      find_unused s.k.ptable = some 1 ∧ s.k.lv3_num = 64 ∧
      allocproc s.k (some 7) = .error .out_of_bounds) ∧
    (∃ k1, allocproc (boot 64) none = .ok (k1, none) ∧
      (getProc k1.ptable 0).state = .UNUSED) :=
  ⟨⟨after 64 (failed_forks 63), by decide!⟩,
    ⟨(valueOr (allocproc (boot 64) none) (boot 64, none)).1, by decide!⟩⟩

/-- C7 (as amended): when `p` is the first UNUSED slot, `lv3_num` is below the size of `lv3`
and `kalloc` succeeds, `allocproc` returns `p`, makes it EMBRYO with pid `nextpid` (which is
then incremented), priority 3 and zero ticks and wait ticks, and appends it to `lv3`, leaving
all other slots and `lv0`, `lv1`, `lv2` unchanged; a `fork` whose `copyuvm` succeeds as well
returns the child's pid and leaves the child RUNNABLE with priority 3 and the caller as parent,
appended to `lv3`, with the live parts of `lv0`, `lv1`, `lv2` unchanged. -/
theorem allocproc_claims_first_unused (s : KState) (p k : Nat)
    (hp : p < s.ptable.length) (hun : (getProc s.ptable p).state = .UNUSED)
    (hfirst : ∀ i, i < p → (getProc s.ptable i).state ≠ .UNUSED)
    (hroom : s.lv3_num < s.lv3.length) :
    (∃ s1, allocproc s (some k) = .ok (s1, some p) ∧
      getProc s1.ptable p =
        { getProc s.ptable p with state := .EMBRYO, pid := s.nextpid, priority := 3,
                                  ticks := Arr4.zero, wait_ticks := Arr4.zero,
                                  kstack := some k } ∧
      (∀ y, y ≠ p → getProc s1.ptable y = getProc s.ptable y) ∧
      s1.nextpid = s.nextpid + 1 ∧
      live s1.lv3 s1.lv3_num = live s.lv3 s.lv3_num ++ [some p] ∧
      s1.lv3_num = s.lv3_num + 1 ∧
      s1.lv0 = s.lv0 ∧ s1.lv1 = s.lv1 ∧ s1.lv2 = s.lv2 ∧
      s1.lv0_num = s.lv0_num ∧ s1.lv1_num = s.lv1_num ∧ s1.lv2_num = s.lv2_num) ∧
    (∀ self pg, s.proc = some self →
      ∃ s1, fork s (some k) (some pg) = .ok (s1, s.nextpid) ∧
        (getProc s1.ptable p).state = .RUNNABLE ∧ (getProc s1.ptable p).priority = 3 ∧
        (getProc s1.ptable p).pid = s.nextpid ∧ (getProc s1.ptable p).parent = some self ∧
        (∀ y, y ≠ p → getProc s1.ptable y = getProc s.ptable y) ∧
        live s1.lv3 s1.lv3_num = live s.lv3 s.lv3_num ++ [some p] ∧
        (∀ M : Fin 4, M ≠ 3 → live (s1.q M) (s1.num M) = live (s.q M) (s.num M))) := by
  have hfind := find_unused_first s.ptable p hp hun hfirst
  have hfound := allocproc_found_eq s p hroom
  have halloc : allocproc s (some k) = .ok
      ({ s with
          ptable := updProc (updProc s.ptable p (fun x =>
            { x with state := .EMBRYO, pid := s.nextpid, priority := 3,
                     ticks := Arr4.zero, wait_ticks := Arr4.zero })) p
            (fun x => { x with kstack := some k }),
          nextpid := s.nextpid + 1,
          lv3 := s.lv3.set s.lv3_num (some p),
          lv3_num := s.lv3_num + 1 }, some p) := by
    simp only [allocproc, hfind, hfound]
  constructor
  · refine ⟨_, halloc, ?_, ?_, rfl, ?_, rfl, rfl, rfl, rfl, rfl, rfl, rfl⟩
    · simp [getProc_updProc, length_updProc, hp]
    · intro y hy
      simp [getProc_updProc, hy]
    · exact live_set_succ _ _ _ hroom
  · intro self pg hself
    obtain ⟨a1, ha1⟩ : ∃ a1 : KState, a1 =
        { s with
          ptable := updProc (updProc s.ptable p (fun x =>
            { x with state := .EMBRYO, pid := s.nextpid, priority := 3,
                     ticks := Arr4.zero, wait_ticks := Arr4.zero })) p
            (fun x => { x with kstack := some k }),
          nextpid := s.nextpid + 1,
          lv3 := s.lv3.set s.lv3_num (some p),
          lv3_num := s.lv3_num + 1 } := ⟨_, rfl⟩
    rw [← ha1] at halloc
    have hproc : a1.proc = some self := by rw [ha1]; exact hself
    have hpid : (getProc a1.ptable p).pid = s.nextpid := by
      rw [ha1]; simp [getProc_updProc, length_updProc, hp]
    have hprio : (getProc a1.ptable p).priority = 3 := by
      rw [ha1]; simp [getProc_updProc, length_updProc, hp]
    have hlen : p < a1.ptable.length := by
      rw [ha1]; simpa [length_updProc] using hp
    have hoth : ∀ y, y ≠ p → getProc a1.ptable y = getProc s.ptable y := by
      intro y hy
      rw [ha1]; simp [getProc_updProc, hy]
    refine ⟨{ a1 with ptable := updProc a1.ptable p (fun x =>
        { x with pgdir := some pg, parent := some self, state := .RUNNABLE,
                 name := (getProc a1.ptable self).name }) }, ?_, ?_, ?_, ?_, ?_, ?_, ?_, ?_⟩
    · simp only [fork, halloc, hproc, hpid]
    · simp [getProc_updProc, hlen]
    · simp [getProc_updProc, hlen, hprio]
    · simp [getProc_updProc, hlen, hpid]
    · simp [getProc_updProc, hlen]
    · intro y hy
      simp only [getProc_updProc, hy, false_and, if_false]
      exact hoth y hy
    · rw [ha1]
      exact live_set_succ _ _ _ hroom
    · intro M hM
      have hcases : M = 0 ∨ M = 1 ∨ M = 2 ∨ M = 3 := by
        fin_cases M <;> simp
      rw [ha1]
      rcases hcases with h | h | h | h
      · subst h; rfl
      · subst h; rfl
      · subst h; rfl
      · exact absurd h hM

set_option maxRecDepth 100000 in
/-- Allocation on the fresh table: after `userinit` the first process runs and forks; the child
in slot 1 is RUNNABLE with priority 3, `lv3` holds slots 0 and 1, and `lv0`, `lv1`, `lv2` are
empty. -/
theorem allocproc_claims_first_unused_witness :
    ∃ s1, fork (after 64 [.userinit (some 1) (some 1), .dispatch]).k (some 2) (some 2)
        = .ok (s1, 2) ∧
      (getProc s1.ptable 1).state = .RUNNABLE ∧ (getProc s1.ptable 1).priority = 3 ∧
      live s1.lv3 s1.lv3_num = [some 0, some 1] ∧
      live s1.lv2 s1.lv2_num = [] ∧ live s1.lv1 s1.lv1_num = [] ∧
      live s1.lv0 s1.lv0_num = [] := by
  obtain ⟨s1, h1, h2, h3, -, -, -, h7, h8⟩ :=
    (allocproc_claims_first_unused (after 64 [.userinit (some 1) (some 1), .dispatch]).k 1 2
      (by decide) (by decide) (by decide) (by decide)).2 0 2 (by decide)
  refine ⟨s1, h1, h2, h3, ?_, ?_, ?_, ?_⟩
  · rw [h7]; decide
  · exact (h8 2 (by decide)).trans (by decide)
  · exact (h8 1 (by decide)).trans (by decide)
  · exact (h8 0 (by decide)).trans (by decide)

/-! ## Dead processes and the level queues (C10) -/

theorem length_wakeup1 (tbl : List proc) (chan : Option Chan) :
    (wakeup1 tbl chan).length = tbl.length := by
  simp [wakeup1]

theorem length_exit_loop (self : Nat) (initproc : Option Nat) : ∀ (k i : Nat) (tbl : List proc),
    (exit_loop self initproc k i tbl).length = tbl.length := by
  intro k
  induction k with
  | zero => intro i tbl; rfl
  | succ k ih =>
    intro i tbl
    simp only [exit_loop]
    split
    · rw [ih]
      split
      · rw [length_wakeup1, length_updProc]
      · rw [length_updProc]
    · rw [ih]

set_option maxRecDepth 100000 in
/-- C9 (fails on the code): in a state where slots 0 and 1 are the entries of `lv2` and slot 2
the entry of `lv0`, the aging pass promotes slot 0 (159 wait ticks at level 2) and slot 2 (499
wait ticks at level 0).  Their priorities become 3 and 1, but the entry appended to `lv3` is
slot 1 both times, slot 0 ends in no array, slot 2 stays in `lv0` and is not put into `lv1`, and
`lv2` holds slot 1 twice.  And in the run of a single process that yields 74 times, the pass of
the 74th yield finds the process with priority 1 and 18 times in `lv1`, takes its
`wait_ticks[1]` from 306 to 324, and leaves it 18 times in `lv1`. -/
theorem promotion_moves_wrong_entry :
    (LevelInvariant before_promotions ∧ QueuesNodup before_promotions ∧
    ∃ s1, check_promote before_promotions = .ok s1 ∧
      (getProc s1.ptable 0).priority = 3 ∧ (getProc s1.ptable 1).priority = 2 ∧
      (getProc s1.ptable 2).priority = 1 ∧
      live s1.lv3 s1.lv3_num = [some 1, some 1] ∧
      live s1.lv2 s1.lv2_num = [some 1, some 1] ∧
      live s1.lv1 s1.lv1_num = [] ∧
      live s1.lv0 s1.lv0_num = [some 2]) ∧
    ((run (Sys.boot 64) (spin 7 ++ yields 67)).toBool = true ∧
      (getProc (after 64 (spin 7 ++ yields 66 ++ [.dispatch])).k.ptable 0).priority = 1 ∧
      (getProc (after 64 (spin 7 ++ yields 66 ++ [.dispatch])).k.ptable 0).wait_ticks.get 1
        = 306 ∧
      live (after 64 (spin 7 ++ yields 66 ++ [.dispatch])).k.lv1
        (after 64 (spin 7 ++ yields 66 ++ [.dispatch])).k.lv1_num = List.replicate 18 (some 0) ∧
      (getProc (after 64 (spin 7 ++ yields 67)).k.ptable 0).wait_ticks.get 1 = 324 ∧
      live (after 64 (spin 7 ++ yields 67)).k.lv1 (after 64 (spin 7 ++ yields 67)).k.lv1_num
        = List.replicate 18 (some 0)) := by
  refine ⟨⟨?_, by decide, valueOr (check_promote before_promotions) before_promotions,
    by decide!⟩, by decide!⟩
  intro p hp hst
  have hp3 : p < 3 := by
    by_contra hge
    apply hst
    have h64 : p < 64 := hp
    have : ∀ i, i < 64 → 3 ≤ i → (getProc before_promotions.ptable i).state = .UNUSED := by
      decide
    exact this p h64 (by omega)
  have hall : ∀ i, i < 3 → ∃ L : Fin 4,
      some i ∈ live (before_promotions.q L) (before_promotions.num L) ∧
      L.val = (getProc before_promotions.ptable i).priority ∧
      ∀ M : Fin 4, some i ∈ live (before_promotions.q M) (before_promotions.num M) → M = L := by
    intro i hi
    have hc : i = 0 ∨ i = 1 ∨ i = 2 := by omega
    rcases hc with h | h | h
    · subst h; exact ⟨2, by decide, by decide, by decide⟩
    · subst h; exact ⟨2, by decide, by decide, by decide⟩
    · subst h; exact ⟨0, by decide, by decide, by decide⟩
  exact hall p hp3

theorem getProc_wakeup1 (tbl : List proc) (chan : Option Chan) (y : Nat) :
    getProc (wakeup1 tbl chan) y =
      if (getProc tbl y).state = .SLEEPING ∧ (getProc tbl y).chan = chan
      then { getProc tbl y with state := .RUNNABLE } else getProc tbl y := by
  unfold wakeup1 getProc
  rw [List.getElem?_map]
  cases h : tbl[y]? with
  | none => simp [proc.zero]
  | some a => simp

theorem getProc_cons_zero (x : proc) (xs : List proc) : getProc (x :: xs) 0 = x := by
  simp [getProc]

theorem getProc_cons_succ (x : proc) (xs : List proc) (n : Nat) :
    getProc (x :: xs) (n + 1) = getProc xs n := by
  simp [getProc]

/-- The table scan of `kill`: either no slot has the pid, or the first slot that has it is
marked. -/
theorem kill_scan_cases (pid : Int) : ∀ tbl : List proc,
    (kill_scan pid tbl = none ∧ ∀ y, y < tbl.length → (getProc tbl y).pid ≠ pid) ∨
    (∃ t, t < tbl.length ∧ (getProc tbl t).pid = pid ∧
      (∀ y, y < t → (getProc tbl y).pid ≠ pid) ∧
      kill_scan pid tbl = some (updProc tbl t (fun x =>
        { x with killed := 1,
                 state := if x.state = .SLEEPING then .RUNNABLE else x.state }))) := by
  intro tbl
  induction tbl with
  | nil => left; exact ⟨rfl, fun y hy => by simp at hy⟩
  | cons x xs ih =>
    by_cases hx : x.pid = pid
    · right
      refine ⟨0, by simp, by simpa [getProc_cons_zero] using hx, fun y hy => by omega, ?_⟩
      simp [kill_scan, hx, updProc]
    · rcases ih with ⟨hn, hall⟩ | ⟨t, ht, hpid, hfirst, hsome⟩
      · left
        refine ⟨by simp [kill_scan, hx, hn], ?_⟩
        intro y hy
        cases y with
        | zero => simpa [getProc_cons_zero] using hx
        | succ n =>
          rw [getProc_cons_succ]
          exact hall n (by simpa using hy)
      · right
        refine ⟨t + 1, by simpa using ht, by rw [getProc_cons_succ]; exact hpid, ?_, ?_⟩
        · intro y hy
          cases y with
          | zero => simpa [getProc_cons_zero] using hx
          | succ n =>
            rw [getProc_cons_succ]
            exact hfirst n (by omega)
        · simp [kill_scan, hx, hsome, updProc]

/-! ## wakeup (C14) -/

/-- C14: for every state and every channel, `wakeup(chan)` makes RUNNABLE exactly the slots
that are SLEEPING with `chan` equal to the given channel: every such slot differs from before
in its state only, every other slot is the same record as before, and nothing but the table
changes (the level arrays, their counts, `nextpid`, `initproc` and `proc` are as before). -/
theorem wakeup_wakes_exactly_the_sleepers (s : KState) (chan : Option Chan) :
    (∀ y, getProc (wakeup s chan).ptable y =
        if (getProc s.ptable y).state = .SLEEPING ∧ (getProc s.ptable y).chan = chan
        then { getProc s.ptable y with state := .RUNNABLE } else getProc s.ptable y) ∧
    (∀ y, (getProc (wakeup s chan).ptable y).state ≠ (getProc s.ptable y).state ↔
        ((getProc s.ptable y).state = .SLEEPING ∧ (getProc s.ptable y).chan = chan)) ∧
    (wakeup s chan).ptable.length = s.ptable.length ∧
    { wakeup s chan with ptable := s.ptable } = s ∧
    (∀ L : Fin 4, (wakeup s chan).q L = s.q L ∧ (wakeup s chan).num L = s.num L) := by
  refine ⟨fun y => getProc_wakeup1 _ _ _, ?_, length_wakeup1 _ _, rfl, ?_⟩
  · intro y
    show (getProc (wakeup1 s.ptable chan) y).state ≠ _ ↔ _
    rw [getProc_wakeup1]
    constructor
    · intro h
      by_contra hn
      rw [if_neg hn] at h
      exact h rfl
    · intro h
      rw [if_pos h, h.1]
      simp
  · intro L
    exact ⟨q_ptable _ _ _, num_ptable _ _ _⟩

/-! ## kill (C13) -/

set_option maxRecDepth 100000 in
/-- C13 (counterexample): the first process is set up and runs.  No process has pid 0 (every
slot with pid 0 is UNUSED), but `kill(0)` returns 0 and sets the killed flag of the first
UNUSED slot, slot 1; the child that a following `fork` creates in that slot is RUNNABLE with
the killed flag set. -/
theorem kill_zero_marks_unused_slot :
    ∃ s k1, run (Sys.boot 64) [.userinit (some 1) (some 1), .dispatch] = .ok s ∧
      (∀ y, y < 64 → (getProc s.k.ptable y).pid = 0 → (getProc s.k.ptable y).state = .UNUSED) ∧
      (kill s.k 0).2 = 0 ∧ (kill s.k 0).1 ≠ s.k ∧
      (getProc s.k.ptable 1).killed = 0 ∧ (getProc (kill s.k 0).1.ptable 1).killed = 1 ∧
      fork (kill s.k 0).1 (some 2) (some 2) = .ok (k1, 2) ∧
      (getProc k1.ptable 1).state = .RUNNABLE ∧ (getProc k1.ptable 1).killed = 1 :=
  ⟨after 64 [.userinit (some 1) (some 1), .dispatch],
    (valueOr (fork (kill (after 64 [.userinit (some 1) (some 1), .dispatch]).k 0).1
      (some 2) (some 2)) (boot 64, 0)).1,
    by decide!⟩

/-- C13 (as amended): for every state and every integer `pid`, `kill(pid)` returns -1 and
changes nothing if and only if no slot of the table has that pid (UNUSED slots included);
otherwise it returns 0 and, in the first slot in table order with that pid, sets the killed
flag and changes the state to RUNNABLE if and only if it was SLEEPING, leaving the other
fields of that slot, every other slot and everything outside the table unchanged. -/
theorem kill_marks_first_slot_with_pid (s : KState) (pid : Int) :
    ((kill s pid).2 = -1 ↔ ∀ y, y < s.ptable.length → (getProc s.ptable y).pid ≠ pid) ∧
    ((kill s pid).2 = -1 → (kill s pid).1 = s) ∧
    ((kill s pid).2 ≠ -1 → (kill s pid).2 = 0 ∧
      ∃ t, t < s.ptable.length ∧ (getProc s.ptable t).pid = pid ∧
        (∀ y, y < t → (getProc s.ptable y).pid ≠ pid) ∧
        getProc (kill s pid).1.ptable t =
          { getProc s.ptable t with
            killed := 1,
            state := if (getProc s.ptable t).state = .SLEEPING then .RUNNABLE
                     else (getProc s.ptable t).state } ∧
        (∀ y, y ≠ t → getProc (kill s pid).1.ptable y = getProc s.ptable y) ∧
        (kill s pid).1.ptable.length = s.ptable.length ∧
        { (kill s pid).1 with ptable := s.ptable } = s ∧
        ∀ L : Fin 4, (kill s pid).1.q L = s.q L ∧ (kill s pid).1.num L = s.num L) := by
  rcases kill_scan_cases pid s.ptable with ⟨hn, hall⟩ | ⟨t, ht, hpid, hfirst, hsome⟩
  · have hk : kill s pid = (s, -1) := by simp [kill, hn]
    rw [hk]
    exact ⟨⟨fun _ => hall, fun _ => rfl⟩, fun _ => rfl, fun h => absurd rfl h⟩
  · have hk : kill s pid = ({ s with ptable := updProc s.ptable t (fun x =>
        { x with killed := 1,
                 state := if x.state = .SLEEPING then .RUNNABLE else x.state }) }, 0) := by
      simp [kill, hsome]
    rw [hk]
    have h01 : ¬ ((0 : Int) = -1) := by decide
    refine ⟨⟨fun h => absurd h h01, fun h => absurd hpid (h t ht)⟩,
      fun h => absurd h h01, fun _ => ⟨rfl, t, ht, hpid, hfirst, ?_, ?_, ?_, rfl, ?_⟩⟩
    · exact getProc_updProc_self _ _ _ ht
    · intro y hy
      exact getProc_updProc_ne _ _ _ _ hy
    · exact length_updProc _ _ _
    · intro L
      exact ⟨q_ptable _ _ _, num_ptable _ _ _⟩

/-! ## wait without a zombie child (C12) -/

set_option maxRecDepth 100000 in
/-- C12 (counterexample): the first process forks a child and is killed while the child runs;
the child exits and the first process runs again.  Its killed flag is set, but `wait` does not
return -1: it reaps the zombie child, returns its pid 2 and leaves the child's slot UNUSED. -/
theorem killed_waiter_reaps_zombie :
    ∃ s k1, run (Sys.boot 64) killed_parent = .ok s ∧
      s.running = some (3, 0) ∧ s.k.proc = some 0 ∧ (getProc s.k.ptable 0).killed = 1 ∧
      (getProc s.k.ptable 1).parent = some 0 ∧ (getProc s.k.ptable 1).state = .ZOMBIE ∧
      wait s.k = .ok (k1, .reaped 2) ∧
      (getProc k1.ptable 1).state = .UNUSED ∧ (getProc k1.ptable 1).pid = 0 :=
  ⟨after 64 killed_parent,
    (valueOr (wait (after 64 killed_parent).k) (boot 64, .nochild)).1,
    by decide!⟩

/-- C12 (as amended): when the caller has no children at all, or its killed flag is set and
none of its children is a ZOMBIE, one pass of `wait` returns -1 without putting the caller to
sleep and without changing the state: no slot is reaped and no PCB changes. -/
theorem wait_fails_without_blocking (s : KState) (self : Nat) (hself : s.proc = some self)
    (h : (∀ m, m < s.ptable.length → (getProc s.ptable m).parent ≠ some self) ∨
         ((getProc s.ptable self).killed ≠ 0 ∧
          ∀ m, m < s.ptable.length →
            ¬ ((getProc s.ptable m).parent = some self ∧ (getProc s.ptable m).state = .ZOMBIE))) :
    wait s = .ok (s, .nochild) := by
  have hnz : ∀ m, 0 ≤ m → m < 0 + s.ptable.length →
      ¬ ((getProc s.ptable m).parent = s.proc ∧ (getProc s.ptable m).state = .ZOMBIE) := by
    intro m _ hm
    rw [hself]
    rcases h with h | h
    · exact fun hc => h m (by omega) hc.1
    · exact h.2 m (by omega)
  obtain ⟨hk1, hscan, hiff⟩ := wait_scan_none s.proc s.ptable s.ptable.length 0 false hnz
  unfold wait
  rw [hscan]
  cases hk1 with
  | false => rfl
  | true =>
    simp only [hself]
    rcases h with h | h
    · exfalso
      obtain ⟨m, -, hm, hpar⟩ := (hiff.1 rfl).resolve_left (by simp)
      rw [hself] at hpar
      exact h m (by omega) hpar
    · rw [if_pos h.1]

set_option maxRecDepth 100000 in
/-- The first process has a live child and is killed while it runs: its `wait` returns -1
and changes nothing. -/
theorem wait_fails_without_blocking_witness :
    wait (after 64 killed_with_live_child).k = .ok ((after 64 killed_with_live_child).k, .nochild) :=
  wait_fails_without_blocking (after 64 killed_with_live_child).k 0 (by decide)
    (Or.inr ⟨by decide, by decide⟩)

/-- The scan of `allocproc`: either no slot is UNUSED, or the first UNUSED slot is found. -/
theorem find_unused_cases : ∀ tbl : List proc,
    (find_unused tbl = none ∧ ∀ y, y < tbl.length → (getProc tbl y).state ≠ .UNUSED) ∨
    (∃ p, p < tbl.length ∧ (getProc tbl p).state = .UNUSED ∧
      (∀ y, y < p → (getProc tbl y).state ≠ .UNUSED) ∧ find_unused tbl = some p) := by
  intro tbl
  induction tbl with
  | nil => left; exact ⟨rfl, fun y hy => by simp at hy⟩
  | cons x xs ih =>
    by_cases hx : x.state = .UNUSED
    · right
      exact ⟨0, by simp, by simpa [getProc_cons_zero] using hx, fun y hy => by omega,
        by simp [find_unused, hx]⟩
    · rcases ih with ⟨hn, hall⟩ | ⟨p, hp, hun, hfirst, hsome⟩
      · left
        refine ⟨by simp [find_unused, hx, hn], ?_⟩
        intro y hy
        cases y with
        | zero => simpa [getProc_cons_zero] using hx
        | succ n =>
          rw [getProc_cons_succ]
          exact hall n (by simpa using hy)
      · right
        refine ⟨p + 1, by simpa using hp, by rw [getProc_cons_succ]; exact hun, ?_, ?_⟩
        · intro y hy
          cases y with
          | zero => simpa [getProc_cons_zero] using hx
          | succ n =>
            rw [getProc_cons_succ]
            exact hfirst n (by omega)
        · simp [find_unused, hx, hsome]

/-- What `fork` does once `allocproc` has found the UNUSED slot `p` and `lv3` has room. -/
theorem fork_found (s : KState) (p self : Nat) (kalloc copyuvm : Option Nat)
    (hfind : find_unused s.ptable = some p) (hp : p < s.ptable.length)
    (hself : s.proc = some self) (hroom : s.lv3_num < s.lv3.length) :
    ∃ s1 r, fork s kalloc copyuvm = .ok (s1, r) ∧
      (r = if kalloc = none ∨ copyuvm = none then -1 else s.nextpid) ∧
      ((kalloc = none ∨ copyuvm = none) → (getProc s1.ptable p).state = .UNUSED) := by
  have hlen : (updProc s.ptable p (fun x =>
      { x with state := .EMBRYO, pid := s.nextpid, priority := 3,
               ticks := Arr4.zero, wait_ticks := Arr4.zero })).length = s.ptable.length :=
    length_updProc _ _ _
  cases kalloc with
  | none =>
    simp only [fork, allocproc, hfind, allocproc_found_eq s p hroom]
    refine ⟨_, _, rfl, by simp, fun _ => ?_⟩
    dsimp only
    rw [getProc_updProc_self _ _ _ (by rw [hlen]; exact hp)]
  | some k =>
    cases copyuvm with
    | none =>
      simp only [fork, allocproc, hfind, allocproc_found_eq s p hroom, hself]
      refine ⟨_, _, rfl, by simp, fun _ => ?_⟩
      dsimp only
      rw [getProc_updProc_self _ _ _ (by rw [length_updProc, hlen]; exact hp)]
    | some pg =>
      simp only [fork, allocproc, hfind, allocproc_found_eq s p hroom, hself]
      refine ⟨_, _, rfl, ?_, fun h => by simp at h⟩
      dsimp only
      rw [getProc_updProc_self _ _ _ (by rw [hlen]; exact hp),
        getProc_updProc_self _ _ _ hp]
      simp

/-! ## Failure of fork (C11) -/

theorem getProc_zero_of_le (tbl : List proc) (i : Nat) (h : tbl.length ≤ i) :
    getProc tbl i = proc.zero := by
  unfold getProc
  rw [List.getElem?_eq_none h]
  rfl

/-- One iteration of the loop of `exit` at slot `i`: the table `t1` the loop goes on with
differs from `t` in the parent of slot `i`, when it was the caller, and in the state of the
sleepers on `initproc`, when that child is a ZOMBIE. -/
theorem exit_loop_step (self : Nat) (init : Option Nat) (k i : Nat) (t : List proc) :
    ∃ t1, exit_loop self init (k + 1) i t = exit_loop self init k (i + 1) t1 ∧
      ∀ y, getProc t1 y =
        { getProc t y with
          parent := if y = i ∧ (getProc t i).parent = some self then init
                    else (getProc t y).parent,
          state := if ((getProc t i).parent = some self ∧ (getProc t i).state = .ZOMBIE) ∧
                      (getProc t y).state = .SLEEPING ∧ (getProc t y).chan = chanOf init
                   then .RUNNABLE else (getProc t y).state } := by
  by_cases hpar : (getProc t i).parent = some self
  · have hi : i < t.length := by
      by_contra hc
      rw [getProc_zero_of_le t i (by omega)] at hpar
      simp [proc.zero] at hpar
    have h1 : ∀ y, getProc (updProc t i (fun x => { x with parent := init })) y =
        { getProc t y with parent := if y = i then init else (getProc t y).parent } := by
      intro y
      rw [getProc_updProc]
      by_cases hy : y = i
      · subst hy
        simp [hi]
      · simp [hy]
    by_cases hz : (getProc t i).state = .ZOMBIE
    · refine ⟨wakeup1 (updProc t i (fun x => { x with parent := init })) (chanOf init), ?_, ?_⟩
      · simp only [exit_loop, hpar, if_true, h1 i, hz]
      · intro y
        rw [getProc_wakeup1, h1 y]
        simp only [hpar, hz, and_true, true_and]
        split <;> rfl
    · refine ⟨updProc t i (fun x => { x with parent := init }), ?_, ?_⟩
      · simp only [exit_loop, hpar, if_true, h1 i, hz, if_false]
      · intro y
        rw [h1 y]
        simp only [hpar, hz, and_true, and_false, false_and, if_false]
  · refine ⟨t, ?_, ?_⟩
    · simp only [exit_loop, hpar, if_false]
    · intro y
      simp only [hpar, and_false, false_and, if_false]

/-- The loop of `exit` over the slots `i .. i+k-1`: every slot in that range whose parent is
the caller gets the parent `initproc`; when one of them is a ZOMBIE the sleepers on `initproc`
become RUNNABLE; nothing else changes. -/
theorem exit_loop_spec (self : Nat) (init : Option Nat) : ∀ (k i : Nat) (t : List proc) (y : Nat),
    ∃ st, getProc (exit_loop self init k i t) y =
        { getProc t y with
          parent := if i ≤ y ∧ y < i + k ∧ (getProc t y).parent = some self then init
                    else (getProc t y).parent,
          state := st } ∧
      (((∃ c, i ≤ c ∧ c < i + k ∧ (getProc t c).parent = some self ∧
            (getProc t c).state = .ZOMBIE) ∧
          (getProc t y).state = .SLEEPING ∧ (getProc t y).chan = chanOf init) →
        st = .RUNNABLE) ∧
      (¬ ((∃ c, i ≤ c ∧ c < i + k ∧ (getProc t c).parent = some self ∧
            (getProc t c).state = .ZOMBIE) ∧
          (getProc t y).state = .SLEEPING ∧ (getProc t y).chan = chanOf init) →
        st = (getProc t y).state) := by
  intro k
  induction k with
  | zero =>
    intro i t y
    refine ⟨(getProc t y).state, ?_, ?_, fun _ => rfl⟩
    · have hc : ¬ (i ≤ y ∧ y < i + 0 ∧ (getProc t y).parent = some self) := by omega
      simp only [exit_loop, hc, if_false]
    · rintro ⟨⟨c, h1, h2, -⟩, -⟩
      omega
  | succ k ih =>
    intro i t y
    obtain ⟨t1, hstep, ht1⟩ := exit_loop_step self init k i t
    obtain ⟨st, hy, ha, hb⟩ := ih (i + 1) t1 y
    have hpar1 : ∀ c, c ≠ i → (getProc t1 c).parent = (getProc t c).parent := by
      intro c hc
      rw [ht1 c]
      simp [hc]
    have hz1 : ∀ c, (getProc t1 c).state = .ZOMBIE ↔ (getProc t c).state = .ZOMBIE := by
      intro c
      rw [ht1 c]
      dsimp only
      split
      · rename_i h
        rw [h.2.1]
        simp
      · rfl
    have hchan : (getProc t1 y).chan = (getProc t y).chan := by rw [ht1 y]
    have hW : (∃ c, i ≤ c ∧ c < i + (k + 1) ∧ (getProc t c).parent = some self ∧
          (getProc t c).state = .ZOMBIE) ↔
        (((getProc t i).parent = some self ∧ (getProc t i).state = .ZOMBIE) ∨
          ∃ c, i + 1 ≤ c ∧ c < i + 1 + k ∧ (getProc t1 c).parent = some self ∧
            (getProc t1 c).state = .ZOMBIE) := by
      constructor
      · rintro ⟨c, h1, h2, h3, h4⟩
        by_cases hc : c = i
        · subst hc
          exact Or.inl ⟨h3, h4⟩
        · exact Or.inr ⟨c, by omega, by omega, by rw [hpar1 c hc]; exact h3, (hz1 c).2 h4⟩
      · rintro (⟨h3, h4⟩ | ⟨c, h1, h2, h3, h4⟩)
        · exact ⟨i, le_refl _, by omega, h3, h4⟩
        · exact ⟨c, by omega, by omega, by rw [← hpar1 c (by omega)]; exact h3, (hz1 c).1 h4⟩
    refine ⟨st, ?_, ?_, ?_⟩
    · rw [hstep, hy, ht1 y]
      dsimp only
      have hp : (if i + 1 ≤ y ∧ y < i + 1 + k ∧
            (if y = i ∧ (getProc t i).parent = some self then init
              else (getProc t y).parent) = some self
          then init
          else if y = i ∧ (getProc t i).parent = some self then init else (getProc t y).parent)
          = if i ≤ y ∧ y < i + (k + 1) ∧ (getProc t y).parent = some self then init
            else (getProc t y).parent := by
        by_cases hyi : y = i
        · subst hyi
          have hn : ¬ (y + 1 ≤ y ∧ y < y + 1 + k ∧
              (if y = y ∧ (getProc t y).parent = some self then init
                else (getProc t y).parent) = some self) := by omega
          rw [if_neg hn]
          by_cases hp : (getProc t y).parent = some self
          · have h2 : y ≤ y ∧ y < y + (k + 1) ∧ (getProc t y).parent = some self :=
              ⟨le_refl _, by omega, hp⟩
            rw [if_pos h2, if_pos ⟨rfl, hp⟩]
          · have h2 : ¬ (y ≤ y ∧ y < y + (k + 1) ∧ (getProc t y).parent = some self) :=
              fun h => hp h.2.2
            rw [if_neg h2, if_neg (fun h => hp h.2)]
        · have hn : ¬ (y = i ∧ (getProc t i).parent = some self) := fun h => hyi h.1
          simp only [hn, if_false]
          by_cases hc : i ≤ y ∧ y < i + (k + 1) ∧ (getProc t y).parent = some self
          · rw [if_pos hc, if_pos ⟨by omega, by omega, hc.2.2⟩]
          · rw [if_neg hc, if_neg (fun h => hc ⟨by omega, by omega, h.2.2⟩)]
      rw [hp]
    · rintro ⟨hw, hsl, hch⟩
      rcases hW.1 hw with hz | hw1
      · have hst1 : (getProc t1 y).state = .RUNNABLE := by
          rw [ht1 y]
          dsimp only
          rw [if_pos ⟨hz, hsl, hch⟩]
        rw [hb (fun h => by rw [hst1] at h; exact absurd h.2.1 (by simp)), hst1]
      · by_cases hz : (getProc t i).parent = some self ∧ (getProc t i).state = .ZOMBIE
        · have hst1 : (getProc t1 y).state = .RUNNABLE := by
            rw [ht1 y]
            dsimp only
            rw [if_pos ⟨hz, hsl, hch⟩]
          rw [hb (fun h => by rw [hst1] at h; exact absurd h.2.1 (by simp)), hst1]
        · have hst1 : (getProc t1 y).state = (getProc t y).state := by
            rw [ht1 y]
            dsimp only
            rw [if_neg (fun h => hz h.1)]
          exact ha ⟨hw1, by rw [hst1]; exact hsl, by rw [hchan]; exact hch⟩
    · intro hn
      have hst1 : (getProc t1 y).state = (getProc t y).state := by
        rw [ht1 y]
        dsimp only
        rw [if_neg (fun h => hn ⟨hW.2 (Or.inl h.1), h.2⟩)]
      rw [← hst1]
      apply hb
      rintro ⟨hw1, hsl, hch⟩
      exact hn ⟨hW.2 (Or.inr hw1), by rw [← hst1]; exact hsl, by rw [← hchan]; exact hch⟩

/-! ## exit (C15) -/

/-- C15: `exit` by `initproc` is the panic "init exiting".  For every other caller `self`,
`exit` returns to its call of `sched` with: the parent of every slot whose parent was the
caller set to `initproc` and the parent of every other slot unchanged; the caller a ZOMBIE;
every other slot that slept on the caller's parent RUNNABLE; when some child of the caller is
a ZOMBIE, every other slot that slept on `initproc` RUNNABLE.  No slot changes in a field other
than parent and state, a state changes only from SLEEPING to RUNNABLE (the caller's apart),
and nothing outside the table changes. -/
theorem exit_reparents_and_wakes (s : KState) :
    (s.proc = s.initproc → exit s = .error .panic_init_exiting) ∧
    (∀ self, s.proc = some self → s.initproc ≠ some self → self < s.ptable.length →
      ∃ s1, exit s = .ok s1 ∧
        (∀ y, (getProc s1.ptable y).parent =
          if (getProc s.ptable y).parent = some self then s.initproc
          else (getProc s.ptable y).parent) ∧
        (getProc s1.ptable self).state = .ZOMBIE ∧
        (∀ y, y ≠ self → (getProc s.ptable y).state = .SLEEPING →
          (getProc s.ptable y).chan = chanOf (getProc s.ptable self).parent →
          (getProc s1.ptable y).state = .RUNNABLE) ∧
        ((∃ c, (getProc s.ptable c).parent = some self ∧ (getProc s.ptable c).state = .ZOMBIE) →
          ∀ y, y ≠ self → (getProc s.ptable y).state = .SLEEPING →
            (getProc s.ptable y).chan = chanOf s.initproc →
            (getProc s1.ptable y).state = .RUNNABLE) ∧
        (∀ y, y ≠ self → (getProc s1.ptable y).state ≠ (getProc s.ptable y).state →
          (getProc s.ptable y).state = .SLEEPING ∧ (getProc s1.ptable y).state = .RUNNABLE) ∧
        (∀ y, getProc s1.ptable y =
          { getProc s.ptable y with parent := (getProc s1.ptable y).parent,
                                    state := (getProc s1.ptable y).state }) ∧
        { s1 with ptable := s.ptable } = s) := by
  refine ⟨fun h => by simp [exit, h], ?_⟩
  intro self hself hinit hlen
  have hne : ¬ (s.proc = s.initproc) := by
    rw [hself]
    exact fun h => hinit h.symm
  obtain ⟨t1, ht1⟩ : ∃ t1, t1 = wakeup1 s.ptable (chanOf (getProc s.ptable self).parent) :=
    ⟨_, rfl⟩
  obtain ⟨t2, ht2⟩ : ∃ t2, t2 = exit_loop self s.initproc t1.length 0 t1 := ⟨_, rfl⟩
  have hexit : exit s = .ok { s with ptable := updProc t2 self (fun x =>
      { x with state := .ZOMBIE }) } := by
    unfold exit
    rw [if_neg hne]
    simp only [hself, ht2, ht1]
  have hlen1 : t1.length = s.ptable.length := by rw [ht1, length_wakeup1]
  have hlen2 : t2.length = s.ptable.length := by rw [ht2, length_exit_loop, hlen1]
  have hg1 : ∀ y, getProc t1 y =
      if (getProc s.ptable y).state = .SLEEPING ∧
          (getProc s.ptable y).chan = chanOf (getProc s.ptable self).parent
      then { getProc s.ptable y with state := .RUNNABLE } else getProc s.ptable y := by
    intro y
    rw [ht1, getProc_wakeup1]
  have hpar1 : ∀ y, (getProc t1 y).parent = (getProc s.ptable y).parent := by
    intro y
    rw [hg1 y]
    split <;> rfl
  have hchan1 : ∀ y, (getProc t1 y).chan = (getProc s.ptable y).chan := by
    intro y
    rw [hg1 y]
    split <;> rfl
  have hz1 : ∀ y, (getProc s.ptable y).state = .ZOMBIE → (getProc t1 y).state = .ZOMBIE := by
    intro y hz
    rw [hg1 y, if_neg (fun h => by rw [hz] at h; exact absurd h.1 (by simp))]
    exact hz
  have hin : ∀ y, (getProc s.ptable y).parent = some self → y < t1.length := by
    intro y hp
    by_contra hc
    rw [getProc_zero_of_le s.ptable y (by omega)] at hp
    simp [proc.zero] at hp
  have hfin : ∀ y, getProc (updProc t2 self (fun x => { x with state := .ZOMBIE })) y =
      if y = self then { getProc t2 y with state := .ZOMBIE } else getProc t2 y := by
    intro y
    rw [getProc_updProc]
    by_cases hy : y = self
    · subst hy
      simp [hlen2, hlen]
    · simp [hy]
  have hparent : ∀ y, (getProc (updProc t2 self (fun x => { x with state := .ZOMBIE })) y).parent =
      if (getProc s.ptable y).parent = some self then s.initproc
      else (getProc s.ptable y).parent := by
    intro y
    obtain ⟨st, hy, -, -⟩ := exit_loop_spec self s.initproc t1.length 0 t1 y
    have h2 : (getProc t2 y).parent =
        if (getProc s.ptable y).parent = some self then s.initproc
        else (getProc s.ptable y).parent := by
      rw [ht2, hy]
      dsimp only
      rw [hpar1 y]
      by_cases hp : (getProc s.ptable y).parent = some self
      · rw [if_pos hp, if_pos ⟨Nat.zero_le _, by have := hin y hp; omega, hp⟩]
      · rw [if_neg hp, if_neg (fun h => hp h.2.2)]
    rw [hfin y]
    split
    · exact h2
    · exact h2
  have hstate : ∀ y, y ≠ self →
      (getProc (updProc t2 self (fun x => { x with state := .ZOMBIE })) y).state
        = (getProc t2 y).state := by
    intro y hy
    rw [hfin y, if_neg hy]
  refine ⟨_, hexit, hparent, ?_, ?_, ?_, ?_, ?_, rfl⟩
  · show (getProc (updProc t2 self (fun x => { x with state := .ZOMBIE })) self).state = _
    rw [hfin self, if_pos rfl]
  · intro y hy hsl hch
    show (getProc (updProc t2 self (fun x => { x with state := .ZOMBIE })) y).state = _
    rw [hstate y hy]
    obtain ⟨st, hy2, -, hb⟩ := exit_loop_spec self s.initproc t1.length 0 t1 y
    have hr : (getProc t1 y).state = .RUNNABLE := by
      rw [hg1 y, if_pos ⟨hsl, hch⟩]
    rw [ht2, hy2]
    dsimp only
    rw [hb (fun h => by rw [hr] at h; exact absurd h.2.1 (by simp)), hr]
  · rintro ⟨c, hcp, hcz⟩ y hy hsl hch
    show (getProc (updProc t2 self (fun x => { x with state := .ZOMBIE })) y).state = _
    rw [hstate y hy]
    obtain ⟨st, hy2, ha, hb⟩ := exit_loop_spec self s.initproc t1.length 0 t1 y
    rw [ht2, hy2]
    dsimp only
    by_cases hw : (getProc s.ptable y).chan = chanOf (getProc s.ptable self).parent
    · have hr : (getProc t1 y).state = .RUNNABLE := by
        rw [hg1 y, if_pos ⟨hsl, hw⟩]
      rw [hb (fun h => by rw [hr] at h; exact absurd h.2.1 (by simp)), hr]
    · have hr : (getProc t1 y).state = .SLEEPING := by
        rw [hg1 y, if_neg (fun h => hw h.2)]
        exact hsl
      exact ha ⟨⟨c, Nat.zero_le _, by have := hin c hcp; omega, by rw [hpar1 c]; exact hcp,
        hz1 c hcz⟩, hr, by rw [hchan1 y]; exact hch⟩
  · intro y hy hchg
    change (getProc (updProc t2 self (fun x => { x with state := .ZOMBIE })) y).state ≠ _ at hchg
    show _ ∧ (getProc (updProc t2 self (fun x => { x with state := .ZOMBIE })) y).state = _
    rw [hstate y hy] at hchg ⊢
    obtain ⟨st, hy2, ha, hb⟩ := exit_loop_spec self s.initproc t1.length 0 t1 y
    rw [ht2, hy2] at hchg ⊢
    dsimp only at hchg ⊢
    by_cases hsl : (getProc s.ptable y).state = .SLEEPING
    · refine ⟨hsl, ?_⟩
      by_contra hnr
      by_cases hW : ((∃ c, 0 ≤ c ∧ c < 0 + t1.length ∧ (getProc t1 c).parent = some self ∧
            (getProc t1 c).state = .ZOMBIE) ∧
          (getProc t1 y).state = .SLEEPING ∧ (getProc t1 y).chan = chanOf s.initproc)
      · exact hnr (ha hW)
      · have h3 := hb hW
        rw [h3] at hchg hnr
        rw [hg1 y] at hchg hnr
        by_cases hw : (getProc s.ptable y).state = .SLEEPING ∧
            (getProc s.ptable y).chan = chanOf (getProc s.ptable self).parent
        · rw [if_pos hw] at hnr
          exact hnr rfl
        · rw [if_neg hw] at hchg
          exact hchg rfl
    · exfalso
      have h1 : (getProc t1 y).state = (getProc s.ptable y).state := by
        rw [hg1 y, if_neg (fun h => hsl h.1)]
      have h3 := hb (fun h => hsl (by rw [← h1]; exact h.2.1))
      rw [h3, h1] at hchg
      exact hchg rfl
  · intro y
    show getProc (updProc t2 self (fun x => { x with state := .ZOMBIE })) y = _
    obtain ⟨st, hy2, -, -⟩ := exit_loop_spec self s.initproc t1.length 0 t1 y
    have h2 : getProc t2 y =
        { getProc s.ptable y with
          parent := (getProc t2 y).parent, state := (getProc t2 y).state } := by
      rw [ht2, hy2, hg1 y]
      split <;> rfl
    rw [hfin y]
    split
    · rw [h2]
    · rw [h2]

set_option maxRecDepth 100000 in
/-- The first process forks a child and sleeps in `wait`; the child runs and exits: it
becomes a ZOMBIE and its parent, which slept on itself, is RUNNABLE. -/
theorem exit_reparents_and_wakes_witness :
    ∃ s1, exit (after 64 [.userinit (some 1) (some 1), .dispatch, .fork (some 2) (some 2),
        .wait, .dispatch]).k = .ok s1 ∧
      (getProc s1.ptable 1).state = .ZOMBIE ∧ (getProc s1.ptable 0).state = .RUNNABLE := by
  obtain ⟨s1, h1, -, h3, h4, -⟩ := (exit_reparents_and_wakes
    (after 64 [.userinit (some 1) (some 1), .dispatch, .fork (some 2) (some 2),
        .wait, .dispatch]).k).2 1 (by decide) (by decide) (by decide)
  exact ⟨s1, h1, h3, h4 0 (by decide) (by decide) (by decide)⟩

theorem nnr_refl (t : List proc) : NoNewRunning t t := fun _ h => h

theorem nnr_trans {a b c : List proc} (h1 : NoNewRunning a b) (h2 : NoNewRunning b c) :
    NoNewRunning a c := fun y h => h1 y (h2 y h)

theorem nnr_updProc (t : List proc) (p : Nat) (f : proc → proc)
    (hf : ∀ x, (f x).state = .RUNNING → x.state = .RUNNING) : NoNewRunning t (updProc t p f) := by
  intro y h
  rw [getProc_updProc] at h
  split at h
  · rename_i hc
    rw [hc.1]
    exact hf _ h
  · exact h

theorem nnr_wakeup1 (t : List proc) (chan : Option Chan) : NoNewRunning t (wakeup1 t chan) := by
  intro y h
  rw [getProc_wakeup1] at h
  split at h
  · exact absurd h (by simp)
  · exact h

theorem nnr_kill (s : KState) (pid : Int) :
    NoNewRunning s.ptable (kill s pid).1.ptable ∧ (kill s pid).1.proc = s.proc := by
  rcases kill_scan_cases pid s.ptable with ⟨hn, -⟩ | ⟨t, -, -, -, hsome⟩
  · have hk : kill s pid = (s, -1) := by simp [kill, hn]
    rw [hk]
    exact ⟨nnr_refl _, rfl⟩
  · have hk : kill s pid = ({ s with ptable := updProc s.ptable t (fun x =>
        { x with killed := 1,
                 state := if x.state = .SLEEPING then .RUNNABLE else x.state }) }, 0) := by
      simp [kill, hsome]
    rw [hk]
    refine ⟨nnr_updProc _ _ _ ?_, rfl⟩
    intro x hx
    dsimp only at hx
    split at hx
    · exact absurd hx (by simp)
    · exact hx

theorem nnr_exit_loop (self : Nat) (init : Option Nat) (k i : Nat) (t : List proc) :
    NoNewRunning t (exit_loop self init k i t) := by
  intro y h
  obtain ⟨st, hy, ha, hb⟩ := exit_loop_spec self init k i t y
  rw [hy] at h
  dsimp only at h
  by_cases hc : ((∃ c, i ≤ c ∧ c < i + k ∧ (getProc t c).parent = some self ∧
            (getProc t c).state = .ZOMBIE) ∧
          (getProc t y).state = .SLEEPING ∧ (getProc t y).chan = chanOf init)
  · rw [ha hc] at h
    exact absurd h (by simp)
  · rw [hb hc] at h
    exact h

theorem nnr_wait_scan (self : Option Nat) : ∀ (k i : Nat) (t : List proc) (hk : Bool),
    NoNewRunning t (wait_scan self k i t hk).1 := by
  intro k
  induction k with
  | zero => intro i t hk; exact nnr_refl _
  | succ k ih =>
    intro i t hk
    simp only [wait_scan]
    split
    · exact ih _ _ _
    · split
      · exact nnr_updProc _ _ _ (fun x hx => absurd hx (by simp))
      · exact ih _ _ _

theorem append_frame (s s1 : KState) (D : Fin 4) (e : Option Nat) (h : append s D e = .ok s1) :
    s1.ptable = s.ptable ∧ s1.proc = s.proc := by
  unfold append at h
  split at h
  · exact absurd h (by simp)
  · have h2 := Except.ok.inj h
    rw [← h2]
    have hD : D = 0 ∨ D = 1 ∨ D = 2 ∨ D = 3 := by fin_cases D <;> simp
    rcases hD with hD | hD | hD | hD <;> subst hD <;> exact ⟨rfl, rfl⟩

theorem nnr_allocproc (s s1 : KState) (kalloc r : Option Nat)
    (h : allocproc s kalloc = .ok (s1, r)) :
    NoNewRunning s.ptable s1.ptable ∧ s1.proc = s.proc := by
  unfold allocproc at h
  split at h
  · have h2 := Except.ok.inj h
    rw [← (Prod.mk.inj h2).1]
    exact ⟨nnr_refl _, rfl⟩
  · rename_i p hfind
    split at h
    · exact absurd h (by simp)
    · rename_i s2 hfound
      obtain ⟨hpt, hpr⟩ := append_frame _ _ _ _ hfound
      have hn2 : NoNewRunning s.ptable s2.ptable := by
        rw [hpt]
        exact nnr_updProc _ _ _ (fun x hx => absurd hx (by simp))
      split at h
      · have h2 := Except.ok.inj h
        rw [← (Prod.mk.inj h2).1]
        exact ⟨nnr_trans hn2 (nnr_updProc _ _ _ (fun x hx => absurd hx (by simp))), hpr⟩
      · have h2 := Except.ok.inj h
        rw [← (Prod.mk.inj h2).1]
        exact ⟨nnr_trans hn2 (nnr_updProc _ _ _ (fun x hx => hx)), hpr⟩

theorem nnr_userinit (s s1 : KState) (kalloc pg : Option Nat)
    (h : userinit s kalloc pg = .ok s1) :
    NoNewRunning s.ptable s1.ptable ∧ s1.proc = s.proc := by
  unfold userinit at h
  split at h
  · exact absurd h (by simp)
  · exact absurd h (by simp)
  · rename_i s2 p halloc
    obtain ⟨hn, hp⟩ := nnr_allocproc _ _ _ _ halloc
    split at h
    · exact absurd h (by simp)
    · have h2 := Except.ok.inj h
      rw [← h2]
      exact ⟨nnr_trans hn (nnr_updProc _ _ _ (fun x hx => absurd hx (by simp))), hp⟩

theorem nnr_fork (s s1 : KState) (kalloc cp : Option Nat) (r : Int)
    (h : fork s kalloc cp = .ok (s1, r)) :
    NoNewRunning s.ptable s1.ptable ∧ s1.proc = s.proc := by
  unfold fork at h
  split at h
  · exact absurd h (by simp)
  · rename_i s2 halloc
    obtain ⟨hn, hp⟩ := nnr_allocproc _ _ _ _ halloc
    have h2 := Except.ok.inj h
    rw [← (Prod.mk.inj h2).1]
    exact ⟨hn, hp⟩
  · rename_i s2 np halloc
    obtain ⟨hn, hp⟩ := nnr_allocproc _ _ _ _ halloc
    split at h
    · exact absurd h (by simp)
    · split at h
      · have h2 := Except.ok.inj h
        rw [← (Prod.mk.inj h2).1]
        exact ⟨nnr_trans hn (nnr_updProc _ _ _ (fun x hx => absurd hx (by simp))), hp⟩
      · have h2 := Except.ok.inj h
        rw [← (Prod.mk.inj h2).1]
        exact ⟨nnr_trans hn (nnr_updProc _ _ _ (fun x hx => absurd hx (by simp))), hp⟩

theorem nnr_sleep (s s1 : KState) (chan : Option Chan) (h : sleep s chan = .ok s1) :
    NoNewRunning s.ptable s1.ptable ∧ s1.proc = s.proc ∧
      ∀ p, s.proc = some p → (getProc s1.ptable p).state ≠ .RUNNING := by
  unfold sleep at h
  split at h
  · exact absurd h (by simp)
  · rename_i self hself
    have h2 := Except.ok.inj h
    rw [← h2]
    refine ⟨nnr_updProc _ _ _ (fun x hx => absurd hx (by simp)), rfl, ?_⟩
    intro p hp
    rw [hself] at hp
    have hps : self = p := Option.some.inj hp
    subst hps
    dsimp only
    rw [getProc_updProc]
    split
    · simp
    · rename_i hc
      have hlen : ¬ self < s.ptable.length := fun hl => hc ⟨rfl, hl⟩
      rw [getProc_zero_of_le _ _ (by omega)]
      simp [proc.zero]

theorem nnr_sleep_tidy (s s1 : KState) (h : sleep_tidy s = .ok s1) :
    NoNewRunning s.ptable s1.ptable ∧ s1.proc = s.proc := by
  unfold sleep_tidy at h
  split at h
  · exact absurd h (by simp)
  · have h2 := Except.ok.inj h
    rw [← h2]
    exact ⟨nnr_updProc _ _ _ (fun x hx => hx), rfl⟩

theorem nnr_exit (s s1 : KState) (h : exit s = .ok s1) :
    NoNewRunning s.ptable s1.ptable ∧ s1.proc = s.proc := by
  unfold exit at h
  split at h
  · exact absurd h (by simp)
  · split at h
    · exact absurd h (by simp)
    · have h2 := Except.ok.inj h
      rw [← h2]
      exact ⟨nnr_trans (nnr_trans (nnr_wakeup1 _ _) (nnr_exit_loop _ _ _ _ _))
        (nnr_updProc _ _ _ (fun x hx => absurd hx (by simp))), rfl⟩

theorem nnr_wait (s s1 : KState) (r : WaitResult) (h : wait s = .ok (s1, r)) :
    NoNewRunning s.ptable s1.ptable ∧ s1.proc = s.proc := by
  unfold wait at h
  split at h
  · rename_i tbl pid hk hscan
    have h2 := Except.ok.inj h
    rw [← (Prod.mk.inj h2).1]
    have h3 := nnr_wait_scan s.proc s.ptable.length 0 s.ptable false
    rw [hscan] at h3
    exact ⟨h3, rfl⟩
  · have h2 := Except.ok.inj h
    rw [← (Prod.mk.inj h2).1]
    exact ⟨nnr_refl _, rfl⟩
  · split at h
    · exact absurd h (by simp)
    · split at h
      · have h2 := Except.ok.inj h
        rw [← (Prod.mk.inj h2).1]
        exact ⟨nnr_refl _, rfl⟩
      · split at h
        · exact absurd h (by simp)
        · rename_i s2 hsl
          have h2 := Except.ok.inj h
          rw [← (Prod.mk.inj h2).1]
          exact ⟨(nnr_sleep _ _ _ hsl).1, (nnr_sleep _ _ _ hsl).2.1⟩

theorem state_updProc (t : List proc) (p : Nat) (f : proc → proc)
    (hf : ∀ x, (f x).state = x.state) (y : Nat) :
    (getProc (updProc t p f) y).state = (getProc t y).state := by
  rw [getProc_updProc]
  split
  · rename_i hc
    rw [hf, hc.1]
  · rfl

theorem state_incr_wait (t : List proc) (p : Nat) (L : Fin 4) (y : Nat) :
    (getProc (incr_wait t p L) y).state = (getProc t y).state :=
  state_updProc _ _ _ (by intro x; rfl) y

theorem age_lv3_state : ∀ (k i : Nat) (s s1 : KState), age_lv3 k i s = .ok s1 →
    ∀ y, (getProc s1.ptable y).state = (getProc s.ptable y).state := by
  intro k
  induction k with
  | zero =>
    intro i s s1 h y
    simp only [age_lv3] at h
    rw [← Except.ok.inj h]
  | succ k ih =>
    intro i s s1 h y
    simp only [age_lv3] at h
    split at h
    · exact absurd h (by simp)
    · rw [ih _ _ _ h y]
      exact state_incr_wait _ _ _ y

theorem promote_body_state (L F D : Fin 4) (T : Nat) (s s1 : KState) (i : Nat)
    (h : promote_body L F D T s i = .ok s1) :
    ∀ y, (getProc s1.ptable y).state = (getProc s.ptable y).state := by
  intro y
  unfold promote_body at h
  split at h
  · exact absurd h (by simp)
  · dsimp only at h
    split at h
    · split at h
      · exact absurd h (by simp)
      · rw [(append_frame _ _ _ _ h).1, ptable_setQ]
        dsimp only
        refine Eq.trans (state_updProc _ _ _ (by intro x; rfl) y) ?_
        exact state_incr_wait _ _ _ y
    · rw [← Except.ok.inj h]
      exact state_incr_wait _ _ _ y

theorem promote_loop_state (L F D : Fin 4) (T : Nat) : ∀ (k i : Nat) (s s1 : KState),
    promote_loop L F D T k i s = .ok s1 →
    ∀ y, (getProc s1.ptable y).state = (getProc s.ptable y).state := by
  intro k
  induction k with
  | zero =>
    intro i s s1 h y
    simp only [promote_loop] at h
    rw [← Except.ok.inj h]
  | succ k ih =>
    intro i s s1 h y
    simp only [promote_loop] at h
    split at h
    · exact absurd h (by simp)
    · rename_i s2 hb
      rw [ih _ _ _ h y, promote_body_state _ _ _ _ _ _ _ hb y]

theorem check_promote_state (s s1 : KState) (h : check_promote s = .ok s1) :
    ∀ y, (getProc s1.ptable y).state = (getProc s.ptable y).state := by
  intro y
  unfold check_promote at h
  split at h
  · exact absurd h (by simp)
  · rename_i s3 h3
    split at h
    · exact absurd h (by simp)
    · rename_i s2 h2
      split at h
      · exact absurd h (by simp)
      · rename_i s4 h4
        rw [promote_loop_state _ _ _ _ _ _ _ _ h y, promote_loop_state _ _ _ _ _ _ _ _ h4 y,
          promote_loop_state _ _ _ _ _ _ _ _ h2 y, age_lv3_state _ _ _ _ h3 y]

theorem after_swtch_state (L : Fin 4) (s s1 : KState) (i : Nat)
    (h : after_swtch L s i = .ok s1) :
    (∀ y, (getProc s1.ptable y).state = (getProc s.ptable y).state) ∧ s1.proc = none := by
  unfold after_swtch at h
  split at h
  · exact absurd h (by simp)
  · rename_i p0 hp0
    dsimp only at h
    split at h
    · exact absurd h (by simp)
    · rename_i s2 hcp
      have hs2 : ∀ y, (getProc s2.ptable y).state = (getProc s.ptable y).state := by
        intro y
        rw [check_promote_state _ _ hcp y]
        exact state_updProc _ _ _ (by intro x; rfl) y
      split at h
      · exact absurd h (by simp)
      · rename_i p hp
        split at h
        · rw [← Except.ok.inj h]
          refine ⟨fun y => ?_, rfl⟩
          dsimp only
          refine Eq.trans (state_updProc _ _ _ (by intro x; rfl) y) ?_
          rw [state_incr_wait, hs2 y]
        · split at h
          · split at h
            · exact absurd h (by simp)
            · split at h
              · exact absurd h (by simp)
              · rename_i s6 happ
                rw [← Except.ok.inj h]
                refine ⟨fun y => ?_, rfl⟩
                dsimp only
                rw [(append_frame _ _ _ _ happ).1, ptable_setQ]
                dsimp only
                refine Eq.trans (state_updProc _ _ _ (by intro x; rfl) y) ?_
                refine Eq.trans (state_updProc _ _ _ (by intro x; rfl) y) ?_
                rw [state_incr_wait, hs2 y]
          · rw [← Except.ok.inj h]
            refine ⟨fun y => ?_, rfl⟩
            dsimp only
            refine Eq.trans (state_updProc _ _ _ (by intro x; rfl) y) ?_
            rw [state_incr_wait, hs2 y]

theorem scan_found (tbl : List proc) (pq : List (Option Nat)) : ∀ (k i0 i : Nat),
    scan tbl pq k i0 = .ok (true, i) →
    i0 ≤ i ∧ i < i0 + k ∧
    ∃ p, deref tbl pq i = .ok p ∧ (getProc tbl p).state = .RUNNABLE := by
  intro k
  induction k with
  | zero =>
    intro i0 i h
    simp [scan] at h
  | succ k ih =>
    intro i0 i h
    simp only [scan] at h
    split at h
    · exact absurd h (by simp)
    · rename_i p hp
      split at h
      · rename_i hr
        have h2 := (Prod.mk.inj (Except.ok.inj h)).2
        subst h2
        exact ⟨le_refl _, by omega, p, hp, hr⟩
      · obtain ⟨h1, h2, h3⟩ := ih _ _ h
        exact ⟨by omega, by omega, h3⟩

theorem search_found (s : Sys) (L : Fin 4) (i i3 i2 i1 : Nat)
    (h : search s = .ok (some (L, i), i3, i2, i1)) :
    ∃ p, deref s.k.ptable (s.k.q L) i = .ok p ∧ (getProc s.k.ptable p).state = .RUNNABLE := by
  unfold search at h
  split at h
  · exact absurd h (by simp)
  · rename_i j3 hs
    have h2 := Except.ok.inj h
    simp only [Prod.mk.injEq, Option.some.injEq] at h2
    obtain ⟨⟨hL, hi⟩, -⟩ := h2
    subst hL; subst hi
    exact (scan_found _ _ _ _ _ hs).2.2
  · split at h
    · exact absurd h (by simp)
    · rename_i j2 hs
      have h2 := Except.ok.inj h
      simp only [Prod.mk.injEq, Option.some.injEq] at h2
      obtain ⟨⟨hL, hi⟩, -⟩ := h2
      subst hL; subst hi
      exact (scan_found _ _ _ _ _ hs).2.2
    · split at h
      · exact absurd h (by simp)
      · rename_i j1 hs
        have h2 := Except.ok.inj h
        simp only [Prod.mk.injEq, Option.some.injEq] at h2
        obtain ⟨⟨hL, hi⟩, -⟩ := h2
        subst hL; subst hi
        exact (scan_found _ _ _ _ _ hs).2.2
      · split at h
        · exact absurd h (by simp)
        · rename_i j0 hs
          have h2 := Except.ok.inj h
          simp only [Prod.mk.injEq, Option.some.injEq] at h2
          obtain ⟨⟨hL, hi⟩, -⟩ := h2
          subst hL; subst hi
          exact (scan_found _ _ _ _ _ hs).2.2
        · have h2 := Except.ok.inj h
          simp at h2

/-- What a successful `dispatch` does: nothing but a reset of the cursors, or one RUNNABLE
slot becomes RUNNING and `proc`. -/
theorem dispatch_cases (s s1 : Sys) (h : dispatch s = .ok s1) :
    s.running = none ∧
    ((s1.k = s.k ∧ s1.running = none) ∨
     ∃ L i p, s1.running = some (L, i) ∧ deref s.k.ptable (s.k.q L) i = .ok p ∧
       (getProc s.k.ptable p).state = .RUNNABLE ∧
       s1.k = { s.k with proc := some p,
                         ptable := updProc s.k.ptable p (fun x => { x with state := .RUNNING }) }) := by
  unfold dispatch at h
  split at h
  · exact absurd h (by simp)
  · rename_i hrun
    refine ⟨hrun, ?_⟩
    split at h
    · exact absurd h (by simp)
    · left
      rw [← Except.ok.inj h]
      exact ⟨rfl, hrun⟩
    · rename_i L i i3 i2 i1 hsearch
      obtain ⟨p, hp, hr⟩ := search_found s L i i3 i2 i1 hsearch
      right
      simp only [before_swtch, hp] at h
      rw [← Except.ok.inj h]
      exact ⟨L, i, p, rfl, hp, hr, rfl⟩

/-- What a successful `sched` does: the calling process is not RUNNING, no state changes, and
the scheduler is searching again with `proc` null. -/
theorem sched_cases (s s1 : Sys) (h : sched s = .ok s1) :
    s.running ≠ none ∧ s1.running = none ∧ s1.k.proc = none ∧
    (∀ p, s.k.proc = some p → (getProc s.k.ptable p).state ≠ .RUNNING) ∧
    ∀ y, (getProc s1.k.ptable y).state = (getProc s.k.ptable y).state := by
  unfold sched at h
  split at h
  · exact absurd h (by simp)
  · exact absurd h (by simp)
  · rename_i L i self hrun hproc
    split at h
    · exact absurd h (by simp)
    · rename_i hnr
      split at h
      · exact absurd h (by simp)
      · rename_i k1 hk1
        obtain ⟨hst, hpr⟩ := after_swtch_state _ _ _ _ hk1
        rw [← Except.ok.inj h]
        refine ⟨by rw [hrun]; simp, rfl, hpr, ?_, hst⟩
        intro p hp
        rw [hproc] at hp
        rw [← Option.some.inj hp]
        exact hnr

/-- A step other than a dispatch makes no slot RUNNING. -/
theorem step_no_new_running (s s1 : Sys) (e : Ev) (h : step s e = .ok s1) (he : e ≠ .dispatch) :
    NoNewRunning s.k.ptable s1.k.ptable := by
  cases e with
  | dispatch => exact absurd rfl he
  | userinit ka pg =>
    simp only [step] at h
    split at h
    · exact absurd h (by simp)
    · split at h
      · exact absurd h (by simp)
      · rename_i k1 hk
        rw [← Except.ok.inj h]
        exact (nnr_userinit _ _ _ _ hk).1
  | yield =>
    simp only [step, yield] at h
    split at h
    · exact absurd h (by simp)
    · obtain ⟨-, -, -, -, hst⟩ := sched_cases _ _ h
      intro y hy
      rw [hst y] at hy
      exact nnr_updProc _ _ _ (fun x hx => absurd hx (by simp)) y hy
  | sleep chan =>
    simp only [step] at h
    split at h
    · exact absurd h (by simp)
    · split at h
      · exact absurd h (by simp)
      · rename_i k1 hk
        obtain ⟨-, -, -, -, hst⟩ := sched_cases _ _ h
        intro y hy
        rw [hst y] at hy
        exact (nnr_sleep _ _ _ hk).1 y hy
  | sleep_tidy =>
    simp only [step] at h
    split at h
    · exact absurd h (by simp)
    · split at h
      · exact absurd h (by simp)
      · rename_i k1 hk
        rw [← Except.ok.inj h]
        exact (nnr_sleep_tidy _ _ hk).1
  | exit =>
    simp only [step] at h
    split at h
    · exact absurd h (by simp)
    · split at h
      · exact absurd h (by simp)
      · rename_i k1 hk
        obtain ⟨-, -, -, -, hst⟩ := sched_cases _ _ h
        intro y hy
        rw [hst y] at hy
        exact (nnr_exit _ _ hk).1 y hy
  | wait =>
    simp only [step] at h
    split at h
    · exact absurd h (by simp)
    · split at h
      · exact absurd h (by simp)
      · rename_i k1 hk
        obtain ⟨-, -, -, -, hst⟩ := sched_cases _ _ h
        intro y hy
        rw [hst y] at hy
        exact (nnr_wait _ _ _ hk).1 y hy
      · rename_i k1 r hr hk
        rw [← Except.ok.inj h]
        exact (nnr_wait _ _ _ hk).1
  | fork ka cp =>
    simp only [step] at h
    split at h
    · exact absurd h (by simp)
    · split at h
      · exact absurd h (by simp)
      · rename_i k1 r hk
        rw [← Except.ok.inj h]
        exact (nnr_fork _ _ _ _ _ hk).1
  | kill pid =>
    simp only [step] at h
    rw [← Except.ok.inj h]
    exact (nnr_kill _ _).1
  | wakeup chan =>
    simp only [step] at h
    rw [← Except.ok.inj h]
    exact nnr_wakeup1 _ _

/-- A call that leaves the scheduler position and `proc` alone and makes no slot RUNNING keeps
the invariant. -/
theorem cpuInv_of_nnr (s s1 : Sys) (hinv : CpuInv s) (hrun : s1.running = s.running)
    (hproc : s1.k.proc = s.k.proc) (hn : NoNewRunning s.k.ptable s1.k.ptable) : CpuInv s1 := by
  constructor
  · intro h
    rw [hrun] at h
    obtain ⟨h1, h2⟩ := hinv.1 h
    exact ⟨by rw [hproc]; exact h1, fun y hy => h2 y (hn y hy)⟩
  · intro h
    rw [hrun] at h
    obtain ⟨p, h1, h2⟩ := hinv.2 h
    exact ⟨p, by rw [hproc]; exact h1, fun y hy => h2 y (hn y hy)⟩

/-- A call that ends in `sched` keeps the invariant: the caller was the only slot that could
be RUNNING, and `sched` requires that it is not. -/
theorem cpuInv_of_sched (s s2 s1 : Sys) (hinv : CpuInv s) (h : sched s2 = .ok s1)
    (hrun : s2.running = s.running) (hproc : s2.k.proc = s.k.proc)
    (hn : NoNewRunning s.k.ptable s2.k.ptable) : CpuInv s1 := by
  obtain ⟨h1, h2, h3, h4, h5⟩ := sched_cases _ _ h
  rw [hrun] at h1
  obtain ⟨p, hp, honly⟩ := hinv.2 h1
  constructor
  · intro _
    refine ⟨h3, ?_⟩
    intro y hy
    rw [h5 y] at hy
    have hyp := honly y (hn y hy)
    subst hyp
    exact h4 y (by rw [hproc]; exact hp) hy
  · intro hc
    exact absurd h2 hc

/-- Every step keeps the invariant. -/
theorem step_cpuInv (s s1 : Sys) (e : Ev) (hinv : CpuInv s) (h : step s e = .ok s1) :
    CpuInv s1 := by
  cases e with
  | dispatch =>
    obtain ⟨hrun, hc⟩ := dispatch_cases _ _ h
    obtain ⟨hproc, hnone⟩ := hinv.1 hrun
    rcases hc with ⟨hk, hr⟩ | ⟨L, i, p, hr, -, -, hk⟩
    · exact cpuInv_of_nnr s s1 hinv (by rw [hr, hrun]) (by rw [hk]) (by rw [hk]; exact nnr_refl _)
    · constructor
      · intro hc
        rw [hr] at hc
        exact absurd hc (by simp)
      · intro _
        refine ⟨p, by rw [hk], ?_⟩
        intro y hy
        rw [hk] at hy
        dsimp only at hy
        rw [getProc_updProc] at hy
        split at hy
        · rename_i hc
          exact hc.1
        · exact absurd hy (hnone y)
  | userinit ka pg =>
    simp only [step] at h
    split at h
    · exact absurd h (by simp)
    · split at h
      · exact absurd h (by simp)
      · rename_i k1 hk
        rw [← Except.ok.inj h]
        exact cpuInv_of_nnr s _ hinv rfl (nnr_userinit _ _ _ _ hk).2 (nnr_userinit _ _ _ _ hk).1
  | yield =>
    simp only [step, yield] at h
    split at h
    · exact absurd h (by simp)
    · exact cpuInv_of_sched s _ s1 hinv h rfl rfl
        (nnr_updProc _ _ _ (fun x hx => absurd hx (by simp)))
  | sleep chan =>
    simp only [step] at h
    split at h
    · exact absurd h (by simp)
    · split at h
      · exact absurd h (by simp)
      · rename_i k1 hk
        exact cpuInv_of_sched s _ s1 hinv h rfl (nnr_sleep _ _ _ hk).2.1 (nnr_sleep _ _ _ hk).1
  | sleep_tidy =>
    simp only [step] at h
    split at h
    · exact absurd h (by simp)
    · split at h
      · exact absurd h (by simp)
      · rename_i k1 hk
        rw [← Except.ok.inj h]
        exact cpuInv_of_nnr s _ hinv rfl (nnr_sleep_tidy _ _ hk).2 (nnr_sleep_tidy _ _ hk).1
  | exit =>
    simp only [step] at h
    split at h
    · exact absurd h (by simp)
    · split at h
      · exact absurd h (by simp)
      · rename_i k1 hk
        exact cpuInv_of_sched s _ s1 hinv h rfl (nnr_exit _ _ hk).2 (nnr_exit _ _ hk).1
  | wait =>
    simp only [step] at h
    split at h
    · exact absurd h (by simp)
    · split at h
      · exact absurd h (by simp)
      · rename_i k1 hk
        exact cpuInv_of_sched s _ s1 hinv h rfl (nnr_wait _ _ _ hk).2 (nnr_wait _ _ _ hk).1
      · rename_i k1 r hr hk
        rw [← Except.ok.inj h]
        exact cpuInv_of_nnr s _ hinv rfl (nnr_wait _ _ _ hk).2 (nnr_wait _ _ _ hk).1
  | fork ka cp =>
    simp only [step] at h
    split at h
    · exact absurd h (by simp)
    · split at h
      · exact absurd h (by simp)
      · rename_i k1 r hk
        rw [← Except.ok.inj h]
        exact cpuInv_of_nnr s _ hinv rfl (nnr_fork _ _ _ _ _ hk).2 (nnr_fork _ _ _ _ _ hk).1
  | kill pid =>
    simp only [step] at h
    rw [← Except.ok.inj h]
    exact cpuInv_of_nnr s _ hinv rfl (nnr_kill _ _).2 (nnr_kill _ _).1
  | wakeup chan =>
    simp only [step] at h
    rw [← Except.ok.inj h]
    exact cpuInv_of_nnr s _ hinv rfl rfl (nnr_wakeup1 _ _)

theorem run_cpuInv : ∀ (es : List Ev) (s s1 : Sys), CpuInv s → run s es = .ok s1 → CpuInv s1 := by
  intro es
  induction es with
  | nil =>
    intro s s1 hinv h
    simp only [run] at h
    rw [← Except.ok.inj h]
    exact hinv
  | cons e es ih =>
    intro s s1 hinv h
    simp only [run] at h
    split at h
    · exact absurd h (by simp)
    · rename_i s2 hs
      exact ih s2 s1 (step_cpuInv s s2 e hinv hs) h

theorem getProc_replicate_zero (n y : Nat) : getProc (List.replicate n proc.zero) y = proc.zero := by
  unfold getProc
  by_cases h : y < n
  · rw [List.getElem?_eq_getElem (by simpa using h)]
    simp
  · rw [List.getElem?_eq_none (by simpa using h)]
    rfl

theorem cpuInv_boot (n : Nat) : CpuInv (Sys.boot n) := by
  constructor
  · intro _
    refine ⟨rfl, ?_⟩
    intro y
    show (getProc (List.replicate n proc.zero) y).state ≠ _
    rw [getProc_replicate_zero]
    simp [proc.zero]
  · intro h
    exact absurd rfl h

theorem cpuInv_one (s : Sys) (hinv : CpuInv s) (y z : Nat)
    (hy : (getProc s.k.ptable y).state = .RUNNING) (hz : (getProc s.k.ptable z).state = .RUNNING) :
    y = z := by
  by_cases hr : s.running = none
  · exact absurd hy ((hinv.1 hr).2 y)
  · obtain ⟨p, -, h⟩ := hinv.2 hr
    rw [h y hy, h z hz]

/-! ## RUNNING (C16) -/

/-- C16: in the machine of one CPU, a step makes a slot RUNNING that was not RUNNING only
when the step is a dispatch by the scheduler, the slot was RUNNABLE, and it is then the
process `proc` of the CPU (no call of `userinit`, `fork`, `exit`, `wait`, `kill`, `sleep`,
`wakeup` or `yield` sets RUNNING); and in every state reachable from the empty table at most one
slot is RUNNING. -/
theorem running_only_by_dispatch :
    (∀ (s s1 : Sys) (e : Ev) (y : Nat), step s e = .ok s1 →
      (getProc s1.k.ptable y).state = .RUNNING → (getProc s.k.ptable y).state ≠ .RUNNING →
      e = .dispatch ∧ (getProc s.k.ptable y).state = .RUNNABLE ∧ s1.k.proc = some y) ∧
    (∀ (NPROC : Nat) (s : Sys), Reachable NPROC s →
      ∀ y z, (getProc s.k.ptable y).state = .RUNNING → (getProc s.k.ptable z).state = .RUNNING →
        y = z) := by
  constructor
  · intro s s1 e y h hy hn
    by_cases he : e = .dispatch
    · subst he
      obtain ⟨-, hc⟩ := dispatch_cases _ _ h
      rcases hc with ⟨hk, -⟩ | ⟨L, i, p, -, -, hr, hk⟩
      · rw [hk] at hy
        exact absurd hy hn
      · rw [hk] at hy ⊢
        dsimp only at hy ⊢
        rw [getProc_updProc] at hy
        split at hy
        · rename_i hc
          rw [hc.1]
          exact ⟨rfl, hr, rfl⟩
        · exact absurd hy hn
    · exact absurd (step_no_new_running s s1 e h he y hy) hn
  · rintro n s ⟨es, hes⟩ y z hy hz
    exact cpuInv_one s (run_cpuInv es _ s (cpuInv_boot n) hes) y z hy hz

set_option maxRecDepth 100000 in
/-- The first process forks a child and yields, and the child is dispatched: it was RUNNABLE
and is now the one RUNNING slot. -/
theorem running_only_by_dispatch_witness :
    (getProc (after 64 [.userinit (some 1) (some 1), .dispatch, .fork (some 2) (some 2),
      .yield]).k.ptable 1).state = .RUNNABLE ∧
    (getProc (after 64 [.userinit (some 1) (some 1), .dispatch, .fork (some 2) (some 2),
      .yield, .dispatch]).k.ptable 1).state = .RUNNING ∧
    ∀ z, (getProc (after 64 [.userinit (some 1) (some 1), .dispatch, .fork (some 2) (some 2),
      .yield, .dispatch]).k.ptable z).state = .RUNNING → 1 = z :=
  ⟨(running_only_by_dispatch.1
      (after 64 [.userinit (some 1) (some 1), .dispatch, .fork (some 2) (some 2), .yield])
      (after 64 [.userinit (some 1) (some 1), .dispatch, .fork (some 2) (some 2), .yield,
        .dispatch]) .dispatch 1
      (by decide!) (by decide!) (by decide!)).2.1,
    by decide!,
    fun z hz => running_only_by_dispatch.2 64
      (after 64 [.userinit (some 1) (some 1), .dispatch, .fork (some 2) (some 2), .yield,
        .dispatch])
      ⟨[.userinit (some 1) (some 1), .dispatch, .fork (some 2) (some 2), .yield, .dispatch],
        by decide!⟩ 1 z
      (by decide!) hz⟩

/-- A level loop passes over entries that are not RUNNABLE. -/
theorem scan_skip (tbl : List proc) (pq : List (Option Nat)) : ∀ (k i0 : Nat),
    (∀ j, i0 ≤ j → j < i0 + k →
      ∃ q, pq[j]? = some (some q) ∧ q < tbl.length ∧ (getProc tbl q).state ≠ .RUNNABLE) →
    scan tbl pq k i0 = .ok (false, i0 + k) := by
  intro k
  induction k with
  | zero => intro i0 _; rfl
  | succ k ih =>
    intro i0 h
    obtain ⟨q, hq, hlen, hst⟩ := h i0 (le_refl _) (by omega)
    simp only [scan, deref_eq tbl pq i0 q hq hlen, if_neg hst]
    rw [ih (i0 + 1) (fun j h1 h2 => h j (by omega) (by omega))]
    congr 2
    omega

/-- A level loop stops at the first RUNNABLE entry. -/
theorem scan_hit (tbl : List proc) (pq : List (Option Nat)) (i p : Nat)
    (hp : pq[i]? = some (some p)) (hlen : p < tbl.length)
    (hst : (getProc tbl p).state = .RUNNABLE) : ∀ (k i0 : Nat), i0 ≤ i → i < i0 + k →
    (∀ j, i0 ≤ j → j < i →
      ∃ q, pq[j]? = some (some q) ∧ q < tbl.length ∧ (getProc tbl q).state ≠ .RUNNABLE) →
    scan tbl pq k i0 = .ok (true, i) := by
  intro k
  induction k with
  | zero => intro i0 h1 h2; omega
  | succ k ih =>
    intro i0 h1 h2 h
    by_cases hi : i0 = i
    · subst hi
      simp only [scan, deref_eq tbl pq i0 p hp hlen, if_pos hst]
    · obtain ⟨q, hq, hql, hqs⟩ := h i0 (le_refl _) (by omega)
      simp only [scan, deref_eq tbl pq i0 q hq hql, if_neg hqs]
      exact ih (i0 + 1) (by omega) (by omega) (fun j h3 h4 => h j (by omega) h4)

/-- In a well-formed state, a level none of whose live entries is RUNNABLE is passed over. -/
theorem scan_level_skip (s : KState) (hwf : WellFormed s) (M : Fin 4)
    (h : ∀ j q, j < s.num M → (s.q M)[j]? = some (some q) →
      (getProc s.ptable q).state ≠ .RUNNABLE) :
    scan s.ptable (s.q M) (s.num M) 0 = .ok (false, s.num M) := by
  have h2 := scan_skip s.ptable (s.q M) (s.num M) 0 (by
    intro j _ hj
    obtain ⟨q, hq, hlen⟩ := wf_entry hwf M j (by omega)
    exact ⟨q, hq, hlen, h j q (by omega) hq⟩)
  rw [h2]
  congr 2
  omega

/-- In a well-formed state, the loop of a level stops at its first RUNNABLE live entry. -/
theorem scan_level_hit (s : KState) (hwf : WellFormed s) (L : Fin 4) (i p : Nat)
    (hi : i < s.num L) (hp : (s.q L)[i]? = some (some p))
    (hst : (getProc s.ptable p).state = .RUNNABLE)
    (h : ∀ j q, j < i → (s.q L)[j]? = some (some q) → (getProc s.ptable q).state ≠ .RUNNABLE) :
    scan s.ptable (s.q L) (s.num L) 0 = .ok (true, i) ∧ p < s.ptable.length := by
  obtain ⟨p1, hp1, hlen⟩ := wf_entry hwf L i hi
  rw [hp] at hp1
  have hpp : p = p1 := Option.some.inj (Option.some.inj hp1)
  subst hpp
  refine ⟨scan_hit s.ptable (s.q L) i p hp hlen hst (s.num L) 0 (Nat.zero_le _) (by omega) ?_, hlen⟩
  intro j _ hj
  obtain ⟨q, hq, hql⟩ := wf_entry hwf L j (by omega)
  exact ⟨q, hq, hql, h j q hj hq⟩

/-! ## The first RUNNABLE entry (C17) -/

set_option maxRecDepth 100000 in
/-- C18 (fails on the code): after the run `two_runnable_in_lv2` a round starts with the live
entries `lv3 = [3, 3, 3, 3]`, slot 3 asleep, and `lv2 = [1, 2, 3]`, slots 1 and 2 RUNNABLE at
level 2.  The scheduler runs slot 1 from `lv2[0]`; slot 1 yields, the scan restarts at `lv3[0]`,
finds nothing RUNNABLE in `lv3`, and the lv2 loop goes on at `lv2i = 0`: slot 1 is switched to
again, and again after its next yield, while its RUNNABLE successor `lv2[1]`, slot 2, has not
run. -/
theorem lv2_entry_dispatched_again :
    ∃ s s1, run (Sys.boot 64) two_runnable_in_lv2 = .ok s ∧
      s.running = none ∧ s.lv3i = 0 ∧ s.lv2i = 0 ∧ s.lv1i = 0 ∧
      live s.k.lv3 s.k.lv3_num = [some 3, some 3, some 3, some 3] ∧
      (getProc s.k.ptable 3).state = .SLEEPING ∧
      live s.k.lv2 s.k.lv2_num = [some 1, some 2, some 3] ∧
      (getProc s.k.ptable 1).state = .RUNNABLE ∧ (getProc s.k.ptable 1).priority = 2 ∧
      (getProc s.k.ptable 2).state = .RUNNABLE ∧ (getProc s.k.ptable 2).priority = 2 ∧
      run s [.dispatch, .yield] = .ok s1 ∧
      s1.lv3i = 0 ∧ s1.lv2i = 0 ∧
      live s1.k.lv2 s1.k.lv2_num = [some 1, some 2, some 3] ∧
      (getProc s1.k.ptable 1).state = .RUNNABLE ∧ (getProc s1.k.ptable 2).state = .RUNNABLE ∧
      dispatched s [.dispatch, .yield, .dispatch, .yield, .dispatch] = [(2, 1), (2, 1), (2, 1)] :=
  ⟨after 64 two_runnable_in_lv2, after 64 (two_runnable_in_lv2 ++ [.dispatch, .yield]),
    by decide!⟩

/-! ## Ticks of the process that ran (C19) -/

set_option maxRecDepth 100000 in
/-- C19 (fails on the code): (a) in the state `at_level2 RUNNABLE SLEEPING` the scheduler switches
to slot 1 from `lv2[1]`.  When slot 1 yields, the aging pass promotes slot 0 at `lv2[0]` and
shifts `lv2` to `[1, 2, 2]`, and the statements after it read `lv2[1]` again: `ticks[2]` of
slot 1, which ran, is still 0, and `ticks[2]` of the sleeping slot 2 goes from 0 to 1.
(b) The same happens at the end of the run `promotion_under_runner` from the empty table: slot
1 runs from `lv2[1]`, slot 2 sleeps with 159 wait ticks at level 2 and is `lv2[0]`; after the
yield of slot 1, `ticks[2]` of slot 1 is still 0 and `ticks[2]` of slot 2 is 1. -/
theorem ticks_charged_to_other_process :
    (∃ s s1, step (at_level2 .RUNNABLE .SLEEPING) .dispatch = .ok s ∧
      LevelInvariant (at_level2 .RUNNABLE .SLEEPING).k ∧
      QueuesNodup (at_level2 .RUNNABLE .SLEEPING).k ∧
      s.running = some (2, 1) ∧ s.k.proc = some 1 ∧
      (getProc s.k.ptable 1).ticks.get 2 = 0 ∧ (getProc s.k.ptable 2).ticks.get 2 = 0 ∧
      step s .yield = .ok s1 ∧
      (getProc s1.k.ptable 1).ticks.get 2 = 0 ∧ (getProc s1.k.ptable 2).ticks.get 2 = 1 ∧
      (getProc s1.k.ptable 2).state = .SLEEPING ∧
      live s1.k.lv2 s1.k.lv2_num = [some 1, some 2, some 2]) ∧
    (∃ s s1, run (Sys.boot 64) promotion_under_runner = .ok s ∧
      s.running = some (2, 1) ∧ s.k.proc = some 1 ∧
      live s.k.lv2 s.k.lv2_num = some 2 :: some 1 :: List.replicate 16 (some 2) ∧
      (getProc s.k.ptable 2).state = .SLEEPING ∧
      (getProc s.k.ptable 2).wait_ticks.get 2 = 159 ∧
      (getProc s.k.ptable 1).ticks.get 2 = 0 ∧ (getProc s.k.ptable 2).ticks.get 2 = 0 ∧
      step s .yield = .ok s1 ∧
      (getProc s1.k.ptable 1).ticks.get 2 = 0 ∧ (getProc s1.k.ptable 2).ticks.get 2 = 1 ∧
      (getProc s1.k.ptable 2).state = .SLEEPING) :=
  ⟨⟨valueOr (step (at_level2 .RUNNABLE .SLEEPING) .dispatch) (Sys.boot 64),
      valueOr (run (at_level2 .RUNNABLE .SLEEPING) [.dispatch, .yield]) (Sys.boot 64),
      by decide!⟩,
    ⟨after 64 promotion_under_runner, after 64 (promotion_under_runner ++ [.yield]),
      by decide!⟩⟩

/-! ## The aging pass (C20) -/

set_option maxRecDepth 100000 in
/-- C20 (fails on the code): (a) in the state `at_level2 SLEEPING RUNNABLE` slot 3 runs from `lv3`
and yields.  The aging pass of that step promotes slot 0 at `lv2[0]` and goes on at index 1 of
the shifted array `[1, 2, 2]`: the wait ticks at level 2 of slot 1 stay 7 and those of slot 2
go from 7 to 9.  (b) After the run `rounds3 6 ++ yields 3` from the empty table slot 2 has
priority 2 and is in `lv2 = [1, 2, 2]` twice; in the next step, in which slot 1 runs, its
wait ticks at level 2 go from 1 to 3. -/
theorem aging_skips_and_counts_twice :
    (∃ s s1, step (at_level2 .SLEEPING .RUNNABLE) .dispatch = .ok s ∧
      LevelInvariant (at_level2 .SLEEPING .RUNNABLE).k ∧
      QueuesNodup (at_level2 .SLEEPING .RUNNABLE).k ∧
      s.running = some (3, 0) ∧ s.k.proc = some 3 ∧
      live s.k.lv2 s.k.lv2_num = [some 0, some 1, some 2] ∧
      (getProc s.k.ptable 0).wait_ticks.get 2 = 159 ∧
      (getProc s.k.ptable 1).wait_ticks.get 2 = 7 ∧ (getProc s.k.ptable 2).wait_ticks.get 2 = 7 ∧
      step s .yield = .ok s1 ∧
      (getProc s1.k.ptable 0).priority = 3 ∧
      (getProc s1.k.ptable 1).wait_ticks.get 2 = 7 ∧ (getProc s1.k.ptable 2).wait_ticks.get 2 = 9 ∧
      (getProc s1.k.ptable 1).priority = 2 ∧ (getProc s1.k.ptable 2).priority = 2 ∧
      live s1.k.lv2 s1.k.lv2_num = [some 1, some 2, some 2]) ∧
    (∃ s s1, run (Sys.boot 64) (rounds3 6 ++ yields 3 ++ [.dispatch]) = .ok s ∧
      s.running = some (2, 0) ∧ s.k.proc = some 1 ∧
      (getProc s.k.ptable 2).priority = 2 ∧ (getProc s.k.ptable 2).state = .RUNNABLE ∧
      live s.k.lv2 s.k.lv2_num = [some 1, some 2, some 2] ∧
      (getProc s.k.ptable 2).wait_ticks.get 2 = 1 ∧
      step s .yield = .ok s1 ∧
      (getProc s1.k.ptable 2).wait_ticks.get 2 = 3 ∧ (getProc s1.k.ptable 2).priority = 2 ∧
      live s1.k.lv2 s1.k.lv2_num = [some 1, some 2, some 2]) :=
  ⟨⟨valueOr (step (at_level2 .SLEEPING .RUNNABLE) .dispatch) (Sys.boot 64),
      valueOr (run (at_level2 .SLEEPING .RUNNABLE) [.dispatch, .yield]) (Sys.boot 64),
      by decide!⟩,
    ⟨after 64 (rounds3 6 ++ yields 3 ++ [.dispatch]),
      after 64 (rounds3 6 ++ yields 3 ++ [.dispatch, .yield]),
      by decide!⟩⟩

theorem getProc_incr_wait (tbl : List proc) (x : Nat) (L : Fin 4) (hx : x < tbl.length) (y : Nat) :
    getProc (incr_wait tbl x L) y
      = if y = x then { getProc tbl x with
          wait_ticks := (getProc tbl x).wait_ticks.set L ((getProc tbl x).wait_ticks.get L + 1) }
        else getProc tbl y := by
  simp [incr_wait, getProc_updProc, hx]

/-- The number of entries `some y` among `pq[i .. i+k)` when `pq[i] = some x`. -/
theorem count_drop_take_succ (pq : List (Option Nat)) (i k x y : Nat)
    (hx : pq[i]? = some (some x)) :
    ((pq.drop i).take (k + 1)).count (some y)
      = ((pq.drop (i + 1)).take k).count (some y) + if y = x then 1 else 0 := by
  have hi : i < pq.length := lt_length_of_getElem? _ _ _ hx
  have hget : pq[i] = some x := by
    rw [List.getElem?_eq_getElem hi] at hx
    exact Option.some.inj hx
  rw [List.drop_eq_getElem_cons hi, List.take_succ_cons, List.count_cons, hget]
  by_cases h : y = x
  · subst h
    simp
  · have h2 : ¬ (x = y) := fun e => h e.symm
    simp [h, h2]

/-- The body of a promotion loop at an entry that stays below the threshold: only its wait
ticks are incremented. -/
theorem promote_body_quiet (L F D : Fin 4) (T : Nat) (s : KState) (i x : Nat)
    (hx : (s.q L)[i]? = some (some x)) (hlen : x < s.ptable.length)
    (hwt : (getProc s.ptable x).wait_ticks.get L + 1 < T) :
    promote_body L F D T s i = .ok { s with ptable := incr_wait s.ptable x L } := by
  have hd : deref s.ptable (s.q L) i = .ok x := deref_eq _ _ _ _ hx hlen
  have : ¬ T ≤ (getProc (incr_wait s.ptable x L) x).wait_ticks.get L := by
    rw [getProc_incr_wait _ _ _ hlen x]
    simp [Arr4.get_set]
    omega
  simp only [promote_body, hd]
  simp [this]

/-- A promotion loop in which nobody reaches the threshold adds to the wait ticks at its level
of every process the number of entries visited that point to it. -/
theorem promote_loop_quiet_count (L F D : Fin 4) (T : Nat) : ∀ (k i : Nat) (s s1 : KState),
    (∀ m, m < k → ∃ x, (s.q L)[i + m]? = some (some x) ∧ x < s.ptable.length ∧
      (getProc s.ptable x).wait_ticks.get L + k < T) →
    promote_loop L F D T k i s = .ok s1 →
    ∀ y, (getProc s1.ptable y).wait_ticks.get L
      = (getProc s.ptable y).wait_ticks.get L + (((s.q L).drop i).take k).count (some y) := by
  intro k
  induction k with
  | zero =>
    intro i s s1 _ h y
    simp only [promote_loop] at h
    rw [← Except.ok.inj h]
    simp
  | succ k ih =>
    intro i s s1 h hrun y
    obtain ⟨x, hx, hlen, hwt⟩ := h 0 (Nat.succ_pos k)
    have hx0 : (s.q L)[i]? = some (some x) := by simpa using hx
    have hbody := promote_body_quiet L F D T s i x hx0 hlen (by omega)
    simp only [promote_loop, hbody] at hrun
    have hstep : ∀ m, m < k → ∃ x1,
        (KState.q { s with ptable := incr_wait s.ptable x L } L)[i + 1 + m]? = some (some x1) ∧
        x1 < (incr_wait s.ptable x L).length ∧
        (getProc (incr_wait s.ptable x L) x1).wait_ticks.get L + k < T := by
      intro m hm
      obtain ⟨x1, h1, h2, h3⟩ := h (m + 1) (Nat.succ_lt_succ hm)
      refine ⟨x1, ?_, ?_, ?_⟩
      · rw [q_ptable, ← h1]; congr 1; omega
      · simpa [incr_wait, length_updProc] using h2
      · rw [getProc_incr_wait _ _ _ hlen x1]
        split
        · rename_i hx1
          subst hx1
          simp [Arr4.get_set]
          omega
        · omega
    have h2 := ih (i + 1) _ s1 hstep hrun y
    rw [h2, q_ptable, count_drop_take_succ (s.q L) i k x y hx0, getProc_incr_wait _ _ _ hlen y]
    by_cases hy : y = x
    · subst hy
      simp [Arr4.get_set]
      omega
    · simp [hy]

/-- The lv3 loop of `check_promote` adds to the wait ticks at level 3 of every process the
number of entries visited that point to it, and changes nothing else. -/
theorem age_lv3_count : ∀ (k i : Nat) (s s1 : KState),
    (∀ m, m < k → ∃ x, s.lv3[i + m]? = some (some x) ∧ x < s.ptable.length) →
    age_lv3 k i s = .ok s1 →
    ∀ y, (getProc s1.ptable y).wait_ticks.get 3
      = (getProc s.ptable y).wait_ticks.get 3 + ((s.lv3.drop i).take k).count (some y) := by
  intro k
  induction k with
  | zero =>
    intro i s s1 _ h y
    simp only [age_lv3] at h
    rw [← Except.ok.inj h]
    simp
  | succ k ih =>
    intro i s s1 h hrun y
    obtain ⟨x, hx, hlen⟩ := h 0 (Nat.succ_pos k)
    have hx0 : s.lv3[i]? = some (some x) := by simpa using hx
    have hd : deref s.ptable s.lv3 i = .ok x := deref_eq _ _ _ _ hx0 hlen
    simp only [age_lv3, hd] at hrun
    have hstep : ∀ m, m < k → ∃ x1,
        (KState.lv3 { s with ptable := incr_wait s.ptable x 3 })[i + 1 + m]? = some (some x1) ∧
        x1 < (incr_wait s.ptable x 3).length := by
      intro m hm
      obtain ⟨x1, h1, h2⟩ := h (m + 1) (Nat.succ_lt_succ hm)
      refine ⟨x1, ?_, ?_⟩
      · show s.lv3[i + 1 + m]? = _
        rw [← h1]; congr 1; omega
      · simpa [incr_wait, length_updProc] using h2
    have h2 := ih (i + 1) _ s1 hstep hrun y
    rw [h2]
    show _ + ((s.lv3.drop (i + 1)).take k).count (some y) = _
    rw [count_drop_take_succ s.lv3 i k x y hx0, getProc_incr_wait _ _ _ hlen y]
    by_cases hy : y = x
    · subst hy
      simp [Arr4.get_set]
      omega
    · simp [hy]

/-- An aging pass in which nobody reaches a threshold: the level arrays are unchanged, every
record changes in its wait ticks only, and the wait ticks at level `M` of a process grow by
the number of live entries of `lvM` that point to it. -/
theorem check_promote_quiet_count (s : KState)
    (hwf : ∀ (M : Fin 4) (j : Nat), j < s.num M →
      ∃ x, (s.q M)[j]? = some (some x) ∧ x < s.ptable.length)
    (hq : ∀ (x : Nat) (M : Fin 4), x < s.ptable.length → M ≠ 3 →
      (getProc s.ptable x).wait_ticks.get M + s.num M < threshold M) :
    ∃ tbl, check_promote s = .ok { s with ptable := tbl } ∧ tbl.length = s.ptable.length ∧
      (∀ y, sameButWait (getProc tbl y) (getProc s.ptable y)) ∧
      ∀ (y : Nat) (M : Fin 4), (getProc tbl y).wait_ticks.get M
        = (getProc s.ptable y).wait_ticks.get M + (live (s.q M) (s.num M)).count (some y) := by
  -- lv3
  have h3 : ∀ m, m < s.lv3_num → ∃ x, s.lv3[0 + m]? = some (some x) ∧ x < s.ptable.length := by
    intro m hm
    obtain ⟨x, hx, hlen⟩ := hwf 3 m hm
    exact ⟨x, by simpa [KState.q] using hx, hlen⟩
  obtain ⟨t3, e3, l3, a3⟩ := age_lv3_ok s.lv3_num 0 s h3
  have c3 := age_lv3_count s.lv3_num 0 s _ h3 e3
  -- lv2
  have h2 : ∀ m, m < s.lv2_num → ∃ x,
      (KState.q { s with ptable := t3 } 2)[0 + m]? = some (some x) ∧
      x < (KState.ptable { s with ptable := t3 }).length ∧
      (getProc (KState.ptable { s with ptable := t3 }) x).wait_ticks.get 2 + s.lv2_num
        < 10 * LV2_TIME := by
    intro m hm
    obtain ⟨x, hx, hlen⟩ := hwf 2 m hm
    refine ⟨x, by simpa [KState.q] using hx, by simpa [l3] using hlen, ?_⟩
    have := hq x 2 hlen (by decide)
    show (getProc t3 x).wait_ticks.get 2 + _ < _
    rw [agedOnly_get_ne (a3 x) (by decide)]
    exact this
  obtain ⟨t2, e2, l2, a2, -, -⟩ := promote_loop_quiet 2 2 3 (10 * LV2_TIME) s.lv2_num 0
    { s with ptable := t3 } h2
  have c2 := promote_loop_quiet_count 2 2 3 (10 * LV2_TIME) s.lv2_num 0
    { s with ptable := t3 } _ h2 e2
  -- lv1
  have h1 : ∀ m, m < s.lv1_num → ∃ x,
      (KState.q { s with ptable := t2 } 1)[0 + m]? = some (some x) ∧
      x < (KState.ptable { s with ptable := t2 }).length ∧
      (getProc (KState.ptable { s with ptable := t2 }) x).wait_ticks.get 1 + s.lv1_num
        < 10 * LV1_TIME := by
    intro m hm
    obtain ⟨x, hx, hlen⟩ := hwf 1 m hm
    refine ⟨x, by simpa [KState.q] using hx, by simpa [l2, l3] using hlen, ?_⟩
    have := hq x 1 hlen (by decide)
    show (getProc t2 x).wait_ticks.get 1 + _ < _
    rw [agedOnly_get_ne (a2 x) (by decide)]
    show (getProc t3 x).wait_ticks.get 1 + _ < _
    rw [agedOnly_get_ne (a3 x) (by decide)]
    exact this
  obtain ⟨t1, e1, l1, a1, -, -⟩ := promote_loop_quiet 1 1 2 (10 * LV1_TIME) s.lv1_num 0
    { s with ptable := t2 } h1
  have c1 := promote_loop_quiet_count 1 1 2 (10 * LV1_TIME) s.lv1_num 0
    { s with ptable := t2 } _ h1 e1
  -- lv0
  have h0 : ∀ m, m < s.lv0_num → ∃ x,
      (KState.q { s with ptable := t1 } 0)[0 + m]? = some (some x) ∧
      x < (KState.ptable { s with ptable := t1 }).length ∧
      (getProc (KState.ptable { s with ptable := t1 }) x).wait_ticks.get 0 + s.lv0_num
        < 500 := by
    intro m hm
    obtain ⟨x, hx, hlen⟩ := hwf 0 m hm
    refine ⟨x, by simpa [KState.q] using hx, by simpa [l1, l2, l3] using hlen, ?_⟩
    have := hq x 0 hlen (by decide)
    show (getProc t1 x).wait_ticks.get 0 + _ < _
    rw [agedOnly_get_ne (a1 x) (by decide)]
    show (getProc t2 x).wait_ticks.get 0 + _ < _
    rw [agedOnly_get_ne (a2 x) (by decide)]
    show (getProc t3 x).wait_ticks.get 0 + _ < _
    rw [agedOnly_get_ne (a3 x) (by decide)]
    exact this
  obtain ⟨t0, e0, l0, a0, -, -⟩ := promote_loop_quiet 0 2 3 500 s.lv0_num 0
    { s with ptable := t1 } h0
  have c0 := promote_loop_quiet_count 0 2 3 500 s.lv0_num 0 { s with ptable := t1 } _ h0 e0
  refine ⟨t0, ?_, by simp [l0, l1, l2, l3], ?_, ?_⟩
  · simp only [check_promote, e3]
    simp only [e2]
    simp only [e1]
    exact e0
  · intro y
    exact sameButWait_trans _ _ _ (agedOnly_sameButWait (a0 y))
      (sameButWait_trans _ _ _ (agedOnly_sameButWait (a1 y))
        (sameButWait_trans _ _ _ (agedOnly_sameButWait (a2 y)) (agedOnly_sameButWait (a3 y))))
  · intro y M
    have hM : M = 0 ∨ M = 1 ∨ M = 2 ∨ M = 3 := by fin_cases M <;> simp
    rcases hM with hM | hM | hM | hM <;> subst hM
    · have := c0 y
      dsimp only at this
      rw [this, agedOnly_get_ne (a1 y) (by decide), agedOnly_get_ne (a2 y) (by decide),
        agedOnly_get_ne (a3 y) (by decide)]
      simp [live, KState.q, KState.num]
    · have := c1 y
      dsimp only at this
      rw [agedOnly_get_ne (a0 y) (by decide), this, agedOnly_get_ne (a2 y) (by decide),
        agedOnly_get_ne (a3 y) (by decide)]
      simp [live, KState.q, KState.num]
    · have := c2 y
      dsimp only at this
      rw [agedOnly_get_ne (a0 y) (by decide), agedOnly_get_ne (a1 y) (by decide), this,
        agedOnly_get_ne (a3 y) (by decide)]
      simp [live, KState.q, KState.num]
    · have := c3 y
      dsimp only at this
      rw [agedOnly_get_ne (a0 y) (by decide), agedOnly_get_ne (a1 y) (by decide),
        agedOnly_get_ne (a2 y) (by decide), this]
      simp [live, KState.q, KState.num]

/-- The statements after `swtch` around an aging pass that leaves the level arrays alone and
returns the table `tbl`: the entry `p` at the cursor gets one more wait tick and one more tick
at level `L` than it has in `tbl`; in the lv0 loop nothing else happens. -/
theorem after_swtch_pass (L : Fin 4) (s : KState) (i p : Nat) (tbl : List proc)
    (hi : (s.q L)[i]? = some (some p)) (hp : p < s.ptable.length)
    (hcp : check_promote { s with ptable := updProc s.ptable p (fun x =>
        { x with wait_ticks := x.wait_ticks.set L 0 }) }
      = .ok { { s with ptable := updProc s.ptable p (fun x =>
        { x with wait_ticks := x.wait_ticks.set L 0 }) } with ptable := tbl })
    (hlen : tbl.length = s.ptable.length)
    (hroom : L ≠ 0 → s.num (below L) < (s.q (below L)).length) :
    ∃ s1, after_swtch L s i = .ok s1 ∧
      (getProc s1.ptable p).wait_ticks.get L = (getProc tbl p).wait_ticks.get L + 1 ∧
      (getProc s1.ptable p).ticks.get L = (getProc tbl p).ticks.get L + 1 ∧
      (L = 0 → (getProc s1.ptable p).priority = (getProc tbl p).priority ∧
        ∀ M : Fin 4, s1.q M = s.q M ∧ s1.num M = s.num M) := by
  have hd0 : deref s.ptable (s.q L) i = .ok p := deref_eq _ _ _ _ hi hp
  have hd1 : deref tbl (s.q L) i = .ok p := deref_eq _ _ _ _ hi (by omega)
  have hi_lt : i < (s.q L).length := lt_length_of_getElem? _ _ _ hi
  by_cases hL : L = 0
  · subst hL
    have hqt : quantum 0 = none := rfl
    simp only [after_swtch, hd0, hcp, q_ptable, hd1, hqt]
    refine ⟨_, rfl, ?_, ?_, fun _ => ⟨?_, ?_⟩⟩
    · simp [incr_wait, getProc_updProc, length_updProc, hlen, hp, Arr4.get_set]
    · simp [incr_wait, getProc_updProc, length_updProc, hlen, hp, Arr4.get_set]
    · simp [incr_wait, getProc_updProc, length_updProc, hlen, hp]
    · intro M
      have hM : M = 0 ∨ M = 1 ∨ M = 2 ∨ M = 3 := by fin_cases M <;> simp
      rcases hM with hM | hM | hM | hM <;> subst hM <;> exact ⟨rfl, rfl⟩
  · have hqt : quantum L = some (if L = 3 then 8 else if L = 2 then 16 else 32) := by
      fin_cases L
      · exact absurd rfl hL
      · rfl
      · rfl
      · rfl
    have hbl : below L ≠ L := by
      fin_cases L
      · exact absurd rfl hL
      · decide
      · decide
      · decide
    generalize (if L = 3 then 8 else if L = 2 then 16 else 32 : Nat) = qt at hqt ⊢
    simp only [after_swtch, hd0, hcp, q_ptable, hd1, hqt, num_ptable]
    simp only [incr_wait, getProc_updProc, length_updProc, hlen, hp, and_self, if_true,
      Arr4.get_set]
    by_cases hdem : qt ≤ (getProc tbl p).ticks.get L + 1
    · simp only [hdem, if_true, q_setQ, ptable_setQ, num_setQ, q_ptable, num_ptable]
      obtain ⟨e, he, -⟩ := rd_eq (dequeue (s.q L) (s.num L) i) i (by
        rw [length_dequeue]; exact hi_lt)
      simp only [he]
      rw [append_eq _ _ _ (by
        simp only [q_setQ, num_setQ, q_ptable, num_ptable, if_neg hbl]
        exact hroom hL)]
      refine ⟨_, rfl, ?_, ?_, fun h => absurd h hL⟩
      · simp [ptable_setNum, ptable_setQ, getProc_updProc, length_updProc, hlen, hp, Arr4.get_set]
      · simp [ptable_setNum, ptable_setQ, getProc_updProc, length_updProc, hlen, hp, Arr4.get_set]
    · simp only [hdem, if_false]
      refine ⟨_, rfl, ?_, ?_, fun h => absurd h hL⟩
      · simp [getProc_updProc, length_updProc, hlen, hp, Arr4.get_set]
      · simp [getProc_updProc, length_updProc, hlen, hp, Arr4.get_set]

/-- The statements after `swtch` in a state in which no aging promotion is due once the wait
ticks of the entry at the cursor are reset: they succeed, and the entry at the cursor has
`n + 1` wait ticks at its level, `n` the number of live entries of `lvL` that point to it, one
more tick, and in the lv0 loop the priority it had, with the level arrays as before. -/
theorem after_swtch_no_promotion (L : Fin 4) (s : KState) (i p : Nat)
    (hi : (s.q L)[i]? = some (some p)) (hp : p < s.ptable.length) (hwf : WellFormed s)
    (hq : ∀ x, x < s.ptable.length → ∀ M : Fin 4, M ≠ 3 → (x ≠ p ∨ M ≠ L) →
      (getProc s.ptable x).wait_ticks.get M + s.num M < threshold M)
    (hqp : L ≠ 3 → s.num L < threshold L)
    (hroom : L ≠ 0 → s.num (below L) < (s.q (below L)).length) :
    ∃ s1, after_swtch L s i = .ok s1 ∧
      (getProc s1.ptable p).wait_ticks.get L
        = (live (s.q L) (s.num L)).count (some p) + 1 ∧
      (getProc s1.ptable p).ticks.get L = (getProc s.ptable p).ticks.get L + 1 ∧
      (L = 0 → (getProc s1.ptable p).priority = (getProc s.ptable p).priority ∧
        ∀ M : Fin 4, s1.q M = s.q M ∧ s1.num M = s.num M) := by
  obtain ⟨tbl, hcp, hlen, hsame, hcount⟩ := check_promote_quiet_count
    { s with ptable := updProc s.ptable p (fun x =>
      { x with wait_ticks := x.wait_ticks.set L 0 }) }
    (by
      intro M j hj
      rw [q_ptable]
      rw [num_ptable] at hj
      obtain ⟨x, hx, hlen⟩ := wf_entry hwf M j hj
      exact ⟨x, hx, by simpa [length_updProc] using hlen⟩)
    (by
      intro x M hx hM
      simp only [length_updProc] at hx
      rw [num_ptable]
      simp only [getProc_updProc]
      split
      · rename_i hxp
        simp only [Arr4.get_set]
        split
        · rename_i hML
          have := hqp (by rw [← hML]; exact hM)
          rw [hML]
          omega
        · rename_i hML
          have := hq p hp M hM (Or.inr hML)
          exact this
      · rename_i hxp
        have hne : x ≠ p := fun e => hxp ⟨e, hp⟩
        exact hq x hx M hM (Or.inl hne))
  simp only [length_updProc] at hlen
  obtain ⟨s1, h1, hw, ht, h0⟩ := after_swtch_pass L s i p tbl hi hp hcp hlen hroom
  have hticks : (getProc tbl p).ticks = (getProc s.ptable p).ticks := by
    rw [sameButWait_ticks (hsame p)]
    simp [getProc_updProc, hp]
  have hprio : (getProc tbl p).priority = (getProc s.ptable p).priority := by
    rw [sameButWait_priority (hsame p)]
    simp [getProc_updProc, hp]
  refine ⟨s1, h1, ?_, by rw [ht, hticks], fun hL => ⟨by rw [(h0 hL).1, hprio], (h0 hL).2⟩⟩
  rw [hw, hcount p L, q_ptable, num_ptable]
  simp [getProc_updProc, hp, Arr4.get_set]

/-- The running process yields in a state in which no aging promotion is due: the step
succeeds and the scheduler searches again with the cursors `next_cursors`; the process has
`n + 1` wait ticks at the level of the loop that ran it, `n` the number of live entries of that
array pointing to it, and one more tick; no state changes but that of the process, now
RUNNABLE; in the lv0 loop the priority of the process and the level arrays are as before. -/
theorem yield_no_promotion (L : Fin 4) (s : Sys) (i p : Nat)
    (hrun : s.running = some (L, i)) (hproc : s.k.proc = some p)
    (hi : (s.k.q L)[i]? = some (some p)) (hp : p < s.k.ptable.length) (hwf : WellFormed s.k)
    (hq : ∀ x, x < s.k.ptable.length → ∀ M : Fin 4, M ≠ 3 → (x ≠ p ∨ M ≠ L) →
      (getProc s.k.ptable x).wait_ticks.get M + s.k.num M < threshold M)
    (hqp : L ≠ 3 → s.k.num L < threshold L)
    (hroom : L ≠ 0 → s.k.num (below L) < (s.k.q (below L)).length) :
    ∃ s1, step s .yield = .ok s1 ∧ s1.running = none ∧
      s1.lv3i = (next_cursors L s).1 ∧ s1.lv2i = (next_cursors L s).2.1 ∧
      s1.lv1i = (next_cursors L s).2.2 ∧
      (getProc s1.k.ptable p).wait_ticks.get L
        = (live (s.k.q L) (s.k.num L)).count (some p) + 1 ∧
      (getProc s1.k.ptable p).ticks.get L = (getProc s.k.ptable p).ticks.get L + 1 ∧
      (∀ y, (getProc s1.k.ptable y).state
        = if y = p then .RUNNABLE else (getProc s.k.ptable y).state) ∧
      (L = 0 → (getProc s1.k.ptable p).priority = (getProc s.k.ptable p).priority ∧
        ∀ M : Fin 4, s1.k.q M = s.k.q M ∧ s1.k.num M = s.k.num M) := by
  obtain ⟨k1, hk1, hw, ht, h0⟩ := after_swtch_no_promotion L
    { s.k with ptable := updProc s.k.ptable p (fun x => { x with state := .RUNNABLE }) } i p
    (by rw [q_ptable]; exact hi) (by rw [length_updProc]; exact hp)
    (by
      intro M
      rw [q_ptable, num_ptable, length_updProc]
      exact hwf M)
    (by
      intro x hx M hM hc
      rw [length_updProc] at hx
      rw [num_ptable, getProc_updProc]
      have := hq x hx M hM hc
      split
      · rename_i h
        rw [← h.1]
        exact this
      · exact this)
    (by rw [num_ptable]; exact hqp)
    (by rw [q_ptable, num_ptable]; exact hroom)
  have hstate : (getProc (updProc s.k.ptable p (fun x => { x with state := .RUNNABLE })) p).state
      ≠ .RUNNING := by
    simp [getProc_updProc, hp]
  have hst := (after_swtch_state _ _ _ _ hk1).1
  simp only [getProc_updProc_self _ _ _ hp, q_ptable, num_ptable] at hw ht h0
  have hres : step s .yield = .ok (Sys.mk k1 (next_cursors L s).1 (next_cursors L s).2.1
      (next_cursors L s).2.2 none) := by
    have hL : L = 0 ∨ L = 1 ∨ L = 2 ∨ L = 3 := by fin_cases L <;> simp
    simp only [step, yield, hproc, sched, hrun]
    rw [if_neg hstate]
    simp only [hproc] at hk1
    simp only [hk1]
    rcases hL with hL | hL | hL | hL <;> subst hL <;> rfl
  refine ⟨_, hres, rfl, rfl, rfl, rfl, hw, ht, ?_, h0⟩
  intro y
  dsimp only
  rw [hst y, getProc_updProc]
  by_cases hy : y = p
  · subst hy
    simp [hp]
  · simp [hy]

/-! ## Wait ticks of the process that ran (C21) -/

/-- The body of a promotion loop at a live entry `q` that reaches the threshold: `q` gets one
more wait tick at the level of the loop and a priority one higher, and no other field of its
record changes. -/
theorem promote_body_promotes (L F D : Fin 4) (T : Nat) (hDL : D ≠ L) (s : KState) (j q : Nat)
    (hwf : WellFormed s) (hj : j < s.num L) (hq : (s.q L)[j]? = some (some q))
    (hF : (s.q F).length = s.ptable.length) (hroom : s.num D < (s.q D).length)
    (hT : T ≤ (getProc s.ptable q).wait_ticks.get L + 1) :
    ∃ s1, promote_body L F D T s j = .ok s1 ∧
      getProc s1.ptable q =
        { getProc s.ptable q with
          wait_ticks := (getProc s.ptable q).wait_ticks.set L
            ((getProc s.ptable q).wait_ticks.get L + 1),
          priority := (getProc s.ptable q).priority + 1 } := by
  obtain ⟨x, hx, hxl⟩ := wf_entry hwf L j hj
  rw [hq] at hx
  have hqx : q = x := Option.some.inj (Option.some.inj hx)
  subst hqx
  have hjl : j < s.ptable.length := by
    have h1 := (hwf L).2.1
    have h2 := (hwf L).1
    omega
  obtain ⟨s4, h4, -, hrec, -⟩ := promote_body_at L F D T hDL s j q hq hxl hj (hwf L).2.1
    (by rw [hF]; exact hjl) hroom
  refine ⟨s4, h4, ?_⟩
  rw [hrec q, if_pos rfl, if_pos hT]

/-! ## Wait ticks at the new level (C22) -/

set_option maxRecDepth 100000 in
/-- C22 (counterexample): in the state `promotion_due` slot 1 runs from `lv3` and yields; the
aging pass of that step promotes slot 0, which has 159 wait ticks at level 2, from level 2 to
level 3.  Its wait ticks at level 3 are 2 before the step and 2 after it, not 0.  In the run of
a single process from the empty table (`spin 7 ++ yields 66`), the step that moves entries of
the process from `lv1` to `lv2` (`lv2_num` grows from 33 to 39) leaves it with 67 wait ticks at
level 2. -/
theorem promoted_keeps_old_wait_ticks :
    (∃ s s1, step promotion_due .dispatch = .ok s ∧
      LevelInvariant promotion_due.k ∧ QueuesNodup promotion_due.k ∧
      s.running = some (3, 0) ∧ s.k.proc = some 1 ∧
      (getProc s.k.ptable 0).priority = 2 ∧ (getProc s.k.ptable 0).wait_ticks.get 2 = 159 ∧
      (getProc s.k.ptable 0).wait_ticks.get 3 = 2 ∧
      step s .yield = .ok s1 ∧
      (getProc s1.k.ptable 0).priority = 3 ∧
      live s1.k.lv3 s1.k.lv3_num = [some 1, some 0] ∧
      (getProc s1.k.ptable 0).wait_ticks.get 3 = 2) ∧
    (∃ s s1, run (Sys.boot 64) (spin 7 ++ yields 66 ++ [.dispatch]) = .ok s ∧
      s.k.lv2_num = 33 ∧ s.k.lv1_num = 18 ∧
      (getProc s.k.ptable 0).wait_ticks.get 1 = 306 ∧
      (getProc s.k.ptable 0).wait_ticks.get 2 = 34 ∧
      step s .yield = .ok s1 ∧
      s1.k.lv2_num = 39 ∧ (getProc s1.k.ptable 0).wait_ticks.get 2 = 67) :=
  ⟨⟨valueOr (step promotion_due .dispatch) (Sys.boot 64),
      valueOr (run promotion_due [.dispatch, .yield]) (Sys.boot 64), by decide!⟩,
    ⟨after 64 (spin 7 ++ yields 66 ++ [.dispatch]), after 64 (spin 7 ++ yields 67),
      by decide!⟩⟩

/-- C22 (as amended): whenever a loop of the aging pass promotes the live entry `q` of `lv2`,
`lv1` or `lv0` (its wait ticks at that level reach the threshold), the process gets a priority
one higher and one more wait tick at the level it leaves, and every other field of its record
is as before: its wait ticks at the new level are not reset, they are what they were. -/
theorem promotion_keeps_wait_ticks (s : KState) (j q : Nat) (hwf : WellFormed s) :
    (j < s.lv2_num → s.lv2[j]? = some (some q) → s.lv3_num < s.lv3.length →
      10 * LV2_TIME ≤ (getProc s.ptable q).wait_ticks.get 2 + 1 →
      ∃ s1, promote_body 2 2 3 (10 * LV2_TIME) s j = .ok s1 ∧
        (getProc s1.ptable q).priority = (getProc s.ptable q).priority + 1 ∧
        (getProc s1.ptable q).wait_ticks.get 3 = (getProc s.ptable q).wait_ticks.get 3 ∧
        getProc s1.ptable q =
          { getProc s.ptable q with
            wait_ticks := (getProc s.ptable q).wait_ticks.set 2
              ((getProc s.ptable q).wait_ticks.get 2 + 1),
            priority := (getProc s.ptable q).priority + 1 }) ∧
    (j < s.lv1_num → s.lv1[j]? = some (some q) → s.lv2_num < s.lv2.length →
      10 * LV1_TIME ≤ (getProc s.ptable q).wait_ticks.get 1 + 1 →
      ∃ s1, promote_body 1 1 2 (10 * LV1_TIME) s j = .ok s1 ∧
        (getProc s1.ptable q).priority = (getProc s.ptable q).priority + 1 ∧
        (getProc s1.ptable q).wait_ticks.get 2 = (getProc s.ptable q).wait_ticks.get 2 ∧
        getProc s1.ptable q =
          { getProc s.ptable q with
            wait_ticks := (getProc s.ptable q).wait_ticks.set 1
              ((getProc s.ptable q).wait_ticks.get 1 + 1),
            priority := (getProc s.ptable q).priority + 1 }) ∧
    (j < s.lv0_num → s.lv0[j]? = some (some q) → s.lv3_num < s.lv3.length →
      500 ≤ (getProc s.ptable q).wait_ticks.get 0 + 1 →
      ∃ s1, promote_body 0 2 3 500 s j = .ok s1 ∧
        (getProc s1.ptable q).priority = (getProc s.ptable q).priority + 1 ∧
        (getProc s1.ptable q).wait_ticks.get 1 = (getProc s.ptable q).wait_ticks.get 1 ∧
        getProc s1.ptable q =
          { getProc s.ptable q with
            wait_ticks := (getProc s.ptable q).wait_ticks.set 0
              ((getProc s.ptable q).wait_ticks.get 0 + 1),
            priority := (getProc s.ptable q).priority + 1 }) := by
  refine ⟨?_, ?_, ?_⟩
  · intro hj hq hroom hT
    obtain ⟨s1, h1, hrec⟩ := promote_body_promotes 2 2 3 (10 * LV2_TIME) (by decide) s j q hwf
      hj hq (hwf 2).1 hroom hT
    refine ⟨s1, h1, by rw [hrec], ?_, hrec⟩
    rw [hrec]
    simp [Arr4.get_set]
  · intro hj hq hroom hT
    obtain ⟨s1, h1, hrec⟩ := promote_body_promotes 1 1 2 (10 * LV1_TIME) (by decide) s j q hwf
      hj hq (hwf 1).1 hroom hT
    refine ⟨s1, h1, by rw [hrec], ?_, hrec⟩
    rw [hrec]
    simp [Arr4.get_set]
  · intro hj hq hroom hT
    obtain ⟨s1, h1, hrec⟩ := promote_body_promotes 0 2 3 500 (by decide) s j q hwf
      hj hq (hwf 2).1 hroom hT
    refine ⟨s1, h1, by rw [hrec], ?_, hrec⟩
    rw [hrec]
    simp [Arr4.get_set]

set_option maxRecDepth 100000 in
/-- The promotion of slot 0 in the state `promotion_due`: priority 3, and the 2 wait ticks at
level 3 it had. -/
theorem promotion_keeps_wait_ticks_witness :
    ∃ s1, promote_body 2 2 3 (10 * LV2_TIME) promotion_due.k 0 = .ok s1 ∧
      (getProc s1.ptable 0).priority = 3 ∧ (getProc s1.ptable 0).wait_ticks.get 3 = 2 := by
  obtain ⟨s1, h1, h2, h3, -⟩ := (promotion_keeps_wait_ticks promotion_due.k 0 0 (by decide)).1
    (by decide) (by decide) (by decide) (by decide)
  exact ⟨s1, h1, by rw [h2]; decide, by rw [h3]; decide⟩

/-! ## Level 0 (C23) -/

set_option maxHeartbeats 1000000 in
set_option maxRecDepth 100000 in
/-- C24 (fails on the code): (a) a single process from the empty table of 64 slots, the only one
ever created, runs and yields (`spin 7 ++ yields 68`) and is switched to once more: the counts
of `lv3`, `lv2`, `lv1`, `lv0` are 1, 57, 19 and 0, and its next yield ends in a write outside
an array (the aging pass moves the 19 entries of `lv1` to `lv2`, whose count only grows).
(b) After 63 calls of `fork` that failed in `kalloc` slot 1 is UNUSED again, but `lv3_num` is
64, the size of `lv3`, and the next `fork` writes `lv3[64]`. -/
theorem append_outside_the_array :
    (∃ s, run (Sys.boot 64) (spin 7 ++ yields 68 ++ [.dispatch]) = .ok s ∧
      s.running = some (3, 0) ∧ s.k.proc = some 0 ∧ s.k.nextpid = 2 ∧
      s.k.lv3_num = 1 ∧ s.k.lv2_num = 57 ∧ s.k.lv1_num = 19 ∧ s.k.lv0_num = 0 ∧
      s.k.lv2.length = 64 ∧
      step s .yield = .error .out_of_bounds) ∧
    (∃ s, run (Sys.boot 64) (failed_forks 63) = .ok s ∧
      s.running = some (3, 0) ∧ s.k.proc = some 0 ∧
      find_unused s.k.ptable = some 1 ∧
      s.k.lv3_num = 64 ∧ s.k.lv3.length = 64 ∧
      step s (.fork (some 2) (some 2)) = .error .out_of_bounds) :=
  ⟨⟨after 64 (spin 7 ++ yields 68 ++ [.dispatch]), by decide!⟩,
    ⟨after 64 (failed_forks 63), by decide!⟩⟩

end Kernel
